import Mathlib

/-!
# SkidSteerModel

A shallow embedding of `okapi::SkidSteerModel`
(`src/api/chassis/model/skidSteerModel.cpp`) together with theorems about the
commands it sends to its two motors.

## Two embeddings of the arithmetic

The methods are embedded twice.

* In the exact embedding (namespaces `std` and `okapi`) a C++ `double` is an
  exact rational number (`ℚ`): arithmetic does not round, and there is no NaN,
  no infinity and no negative zero.  `static_cast<int16_t>(x)` discards the
  fractional part of `x` (truncation toward zero) and keeps the low 16 bits of
  the result as a signed integer; outside the range of `int16_t` C++ leaves
  the conversion undefined and this embedding fixes the usual wrap-around.  It
  carries the theorems on the shape of what is sent (which motor, which kind
  of call, in which order), on bounds, and on identities between two runs of
  the code.
* In the binary64 embedding (namespace `okapi.binary64`) a `double` is an
  IEEE 754 binary64 value: the finite values, the two zeros, the two
  infinities and NaN.  Every arithmetic operation rounds its exact result to
  the nearest representable value, ties to even.  `static_cast<int16_t>` is
  partial: the conversion of a NaN, of an infinity, or of a value whose
  truncation lies outside `[-32768, 32767]` is undefined behaviour, and a
  method that performs it has no result (`none`).  It carries every theorem
  that states which number a motor receives.

## State

The motors and sensors are collaborators behind interfaces.  They are embedded
as recording doubles: a `World` holds the motor calls received so far, oldest
first, and the accumulated reading of each sensor.  A method of the model is a
function from `World` to `World` in the exact embedding and from `World` to
`Option World` in the binary64 embedding.
-/

namespace std

/-- The function `std::clamp(v, lo, hi)` of `<algorithm>`:
`(v < lo) ? lo : (hi < v) ? hi : v`. -/
def clamp (v lo hi : ℚ) : ℚ :=
  if v < lo then lo else if hi < v then hi else v

/-- The function `std::max(a, b)` of `<algorithm>`: `(a < b) ? b : a`. -/
def max (a b : ℚ) : ℚ :=
  if a < b then b else a

/-- The function `std::abs` on a `double`. -/
def abs (x : ℚ) : ℚ := |x|

/-- The function `std::copysign(x, y)`: the magnitude of `x` with the sign of
`y`.  A rational zero carries the positive sign. -/
def copysign (x y : ℚ) : ℚ :=
  if y < 0 then -|x| else |x|

end std

namespace okapi

/-- Truncation toward zero: the integer obtained by discarding the fractional
part of `x`. -/
def truncToZero (x : ℚ) : Int :=
  if 0 ≤ x then ⌊x⌋ else ⌈x⌉

/-- The signed 16-bit integer with the same low sixteen bits as `t`. -/
def wrapInt16 (t : Int) : Int :=
  (t + 32768) % 65536 - 32768

/-- The signed 32-bit integer with the same low thirty-two bits as `t`. -/
def wrapInt32 (t : Int) : Int :=
  (t + 2147483648) % 4294967296 - 2147483648

/-- The conversion `static_cast<int16_t>(x)` of a `double`. -/
def static_cast_int16 (x : ℚ) : Int :=
  wrapInt16 (truncToZero x)

/-- The conversion `static_cast<std::int32_t>(x)` of a `double`. -/
def static_cast_int32 (x : ℚ) : Int :=
  wrapInt32 (truncToZero x)

/-- The property that `x` converts to `int16_t` without overflow: its
truncation lies in `[-32768, 32767]`. -/
def fitsInt16 (x : ℚ) : Prop :=
  -32769 < x ∧ x < 32768

instance (x : ℚ) : Decidable (fitsInt16 x) := by
  unfold fitsInt16; infer_instance

/-- The two sides of the drivetrain: which motor, or which sensor, a call
goes to. -/
inductive Side where
  | left
  | right
  deriving DecidableEq, Repr

/-- Modelled from the spec: the enumerations `AbstractMotor::brakeMode`,
`AbstractMotor::encoderUnits` and `AbstractMotor::gearset` are declared in a
header that is not among the sources; the spec only says the setters are
enum-valued.  An enumerator is represented by its integer value. -/
abbrev EnumValue := Int

/-- The calls `SkidSteerModel` makes on an `AbstractMotor`, with their
arguments. -/
inductive MotorCall where
  | moveVelocity (ivelocity : Int)
  | moveVoltage (ivoltage : Int)
  | setBrakeMode (mode : EnumValue)
  | setEncoderUnits (units : EnumValue)
  | setGearing (gearset : EnumValue)
  | setPosPID (ikF ikP ikI ikD : ℚ)
  | setPosPIDFull (ikF ikP ikI ikD ifilter ilimit ithreshold iloopSpeed : ℚ)
  | setVelPID (ikF ikP ikI ikD : ℚ)
  | setVelPIDFull (ikF ikP ikI ikD ifilter ilimit ithreshold iloopSpeed : ℚ)
  deriving DecidableEq, Repr

/-- The collaborators of the model as recording doubles.  `calls` is the
sequence of motor calls received so far, oldest first, each with the side of
the motor that received it.

Modelled from the spec: `ContinuousRotarySensor` is not among the sources; by
the spec `get()` returns the accumulated reading and `reset()` zeroes it.
`leftSensor` and `rightSensor` are the accumulated readings. -/
structure World where
  calls : List (Side × MotorCall)
  leftSensor : ℚ
  rightSensor : ℚ
  deriving DecidableEq, Repr

/-- The call `leftSideMotor->c` or `rightSideMotor->c`: the motor on side `s`
receives `c`. -/
def World.motor (w : World) (s : Side) (c : MotorCall) : World :=
  { w with calls := w.calls ++ [(s, c)] }

/-- The record after the motors have received the calls `cs`, in order. -/
def World.record (w : World) (cs : List (Side × MotorCall)) : World :=
  { w with calls := w.calls ++ cs }

/-- Modelled from the spec: the call `leftSensor->reset()` or
`rightSensor->reset()`.  `ContinuousRotarySensor` is an interface whose
implementations are not among the sources; by the spec `reset()` zeroes the
accumulated reading. -/
def World.sensorReset (w : World) (s : Side) : World :=
  match s with
  | Side.left => { w with leftSensor := 0 }
  | Side.right => { w with rightSensor := 0 }

/-- Modelled from the spec: the call `leftSensor->get()` or
`rightSensor->get()`.  By the spec `get()` returns the current accumulated
reading. -/
def World.sensorGet (w : World) (s : Side) : ℚ :=
  match s with
  | Side.left => w.leftSensor
  | Side.right => w.rightSensor

namespace SkidSteerModel

/-- The method `SkidSteerModel::forward`. -/
def forward (maxOutput : ℚ) (ispeed : ℚ) (w : World) : World :=
  let speed := std.clamp ispeed (-1) 1
  let w := w.motor Side.left (MotorCall.moveVelocity (static_cast_int16 (speed * maxOutput)))
  w.motor Side.right (MotorCall.moveVelocity (static_cast_int16 (speed * maxOutput)))

/-- The pair `(leftOutput, rightOutput)` of `SkidSteerModel::driveVector` just
before the two `moveVelocity` calls. -/
def driveVectorOutputs (iySpeed izRotation : ℚ) : ℚ × ℚ :=
  let ySpeed := std.clamp iySpeed (-1) 1
  let zRotation := std.clamp izRotation (-1) 1
  let leftOutput := ySpeed + zRotation
  let rightOutput := ySpeed - zRotation
  let maxInputMag := std.max (std.abs leftOutput) (std.abs rightOutput)
  if maxInputMag > 1 then
    (leftOutput / maxInputMag, rightOutput / maxInputMag)
  else
    (leftOutput, rightOutput)

/-- The method `SkidSteerModel::driveVector`. -/
def driveVector (maxOutput : ℚ) (iySpeed izRotation : ℚ) (w : World) : World :=
  let out := driveVectorOutputs iySpeed izRotation
  let w := w.motor Side.left (MotorCall.moveVelocity (static_cast_int16 (out.1 * maxOutput)))
  w.motor Side.right (MotorCall.moveVelocity (static_cast_int16 (out.2 * maxOutput)))

/-- The method `SkidSteerModel::rotate`. -/
def rotate (maxOutput : ℚ) (ispeed : ℚ) (w : World) : World :=
  let speed := std.clamp ispeed (-1) 1
  let w := w.motor Side.left (MotorCall.moveVelocity (static_cast_int16 (speed * maxOutput)))
  w.motor Side.right (MotorCall.moveVelocity (static_cast_int16 (-1 * speed * maxOutput)))

/-- The method `SkidSteerModel::stop`. -/
def stop (w : World) : World :=
  let w := w.motor Side.left (MotorCall.moveVelocity 0)
  w.motor Side.right (MotorCall.moveVelocity 0)

/-- The dead-zone step shared by `tank` and `arcade`:
`double s = std::clamp(is, -1.0, 1.0); if (std::abs(s) < ithreshold) s = 0;`. -/
def deadband (ispeed ithreshold : ℚ) : ℚ :=
  let speed := std.clamp ispeed (-1) 1
  if std.abs speed < ithreshold then 0 else speed

/-- The method `SkidSteerModel::tank`. -/
def tank (maxOutput : ℚ) (ileftSpeed irightSpeed ithreshold : ℚ) (w : World) : World :=
  let leftSpeed := deadband ileftSpeed ithreshold
  let rightSpeed := deadband irightSpeed ithreshold
  let w := w.motor Side.left (MotorCall.moveVoltage (static_cast_int16 (leftSpeed * maxOutput)))
  w.motor Side.right (MotorCall.moveVoltage (static_cast_int16 (rightSpeed * maxOutput)))

/-- The pair `(leftOutput, rightOutput)` of `SkidSteerModel::arcade` after the
four-way case split and before the final `std::clamp`. -/
def arcadeOutputs (iySpeed izRotation ithreshold : ℚ) : ℚ × ℚ :=
  let ySpeed := deadband iySpeed ithreshold
  let zRotation := deadband izRotation ithreshold
  let maxInput := std.copysign (std.max (std.abs ySpeed) (std.abs zRotation)) ySpeed
  if ySpeed ≥ 0 then
    if zRotation ≥ 0 then (maxInput, ySpeed - zRotation)
    else (ySpeed + zRotation, maxInput)
  else
    if zRotation ≥ 0 then (ySpeed + zRotation, maxInput)
    else (maxInput, ySpeed - zRotation)

/-- The method `SkidSteerModel::arcade`. -/
def arcade (maxOutput : ℚ) (iySpeed izRotation ithreshold : ℚ) (w : World) : World :=
  let out := arcadeOutputs iySpeed izRotation ithreshold
  let w := w.motor Side.left
    (MotorCall.moveVoltage (static_cast_int16 (std.clamp out.1 (-1) 1 * maxOutput)))
  w.motor Side.right
    (MotorCall.moveVoltage (static_cast_int16 (std.clamp out.2 (-1) 1 * maxOutput)))

/-- The method `SkidSteerModel::left`. -/
def left (maxOutput : ℚ) (ispeed : ℚ) (w : World) : World :=
  w.motor Side.left (MotorCall.moveVelocity (static_cast_int16 (ispeed * maxOutput)))

/-- The method `SkidSteerModel::right`. -/
def right (maxOutput : ℚ) (ispeed : ℚ) (w : World) : World :=
  w.motor Side.right (MotorCall.moveVelocity (static_cast_int16 (ispeed * maxOutput)))

/-- The method `SkidSteerModel::getSensorVals`: the left reading, then the
right reading. -/
def getSensorVals (w : World) : Int × Int :=
  (static_cast_int32 (w.sensorGet Side.left), static_cast_int32 (w.sensorGet Side.right))

/-- The method `SkidSteerModel::resetSensors`. -/
def resetSensors (w : World) : World :=
  let w := w.sensorReset Side.left
  w.sensorReset Side.right

/-- The method `SkidSteerModel::setBrakeMode`. -/
def setBrakeMode (mode : EnumValue) (w : World) : World :=
  let w := w.motor Side.left (MotorCall.setBrakeMode mode)
  w.motor Side.right (MotorCall.setBrakeMode mode)

/-- The method `SkidSteerModel::setEncoderUnits`. -/
def setEncoderUnits (units : EnumValue) (w : World) : World :=
  let w := w.motor Side.left (MotorCall.setEncoderUnits units)
  w.motor Side.right (MotorCall.setEncoderUnits units)

/-- The method `SkidSteerModel::setGearing`. -/
def setGearing (gearset : EnumValue) (w : World) : World :=
  let w := w.motor Side.left (MotorCall.setGearing gearset)
  w.motor Side.right (MotorCall.setGearing gearset)

/-- The method `SkidSteerModel::setPosPID`. -/
def setPosPID (ikF ikP ikI ikD : ℚ) (w : World) : World :=
  let w := w.motor Side.left (MotorCall.setPosPID ikF ikP ikI ikD)
  w.motor Side.right (MotorCall.setPosPID ikF ikP ikI ikD)

/-- The method `SkidSteerModel::setPosPIDFull`. -/
def setPosPIDFull (ikF ikP ikI ikD ifilter ilimit ithreshold iloopSpeed : ℚ)
    (w : World) : World :=
  let w := w.motor Side.left
    (MotorCall.setPosPIDFull ikF ikP ikI ikD ifilter ilimit ithreshold iloopSpeed)
  w.motor Side.right
    (MotorCall.setPosPIDFull ikF ikP ikI ikD ifilter ilimit ithreshold iloopSpeed)

/-- The method `SkidSteerModel::setVelPID`. -/
def setVelPID (ikF ikP ikI ikD : ℚ) (w : World) : World :=
  let w := w.motor Side.left (MotorCall.setVelPID ikF ikP ikI ikD)
  w.motor Side.right (MotorCall.setVelPID ikF ikP ikI ikD)

/-- The method `SkidSteerModel::setVelPIDFull`. -/
def setVelPIDFull (ikF ikP ikI ikD ifilter ilimit ithreshold iloopSpeed : ℚ)
    (w : World) : World :=
  let w := w.motor Side.left
    (MotorCall.setVelPIDFull ikF ikP ikI ikD ifilter ilimit ithreshold iloopSpeed)
  w.motor Side.right
    (MotorCall.setVelPIDFull ikF ikP ikI ikD ifilter ilimit ithreshold iloopSpeed)

/-- One invocation of a public method of the model that calls a motor or a
sensor, with its arguments. -/
inductive Op where
  | forward (ispeed : ℚ)
  | driveVector (iySpeed izRotation : ℚ)
  | rotate (ispeed : ℚ)
  | stop
  | tank (ileftSpeed irightSpeed ithreshold : ℚ)
  | arcade (iySpeed izRotation ithreshold : ℚ)
  | left (ispeed : ℚ)
  | right (ispeed : ℚ)
  | getSensorVals
  | resetSensors
  | setBrakeMode (mode : EnumValue)
  | setEncoderUnits (units : EnumValue)
  | setGearing (gearset : EnumValue)
  | setPosPID (ikF ikP ikI ikD : ℚ)
  | setPosPIDFull (ikF ikP ikI ikD ifilter ilimit ithreshold iloopSpeed : ℚ)
  | setVelPID (ikF ikP ikI ikD : ℚ)
  | setVelPIDFull (ikF ikP ikI ikD ifilter ilimit ithreshold iloopSpeed : ℚ)
  deriving DecidableEq, Repr

/-- The effect of one invocation on the collaborators, for a model built
with the given `maxOutput`.  Reading the sensors with `getSensorVals` changes
nothing. -/
def exec (maxOutput : ℚ) (op : Op) (w : World) : World :=
  match op with
  | Op.forward s => forward maxOutput s w
  | Op.driveVector y z => driveVector maxOutput y z w
  | Op.rotate s => rotate maxOutput s w
  | Op.stop => stop w
  | Op.tank l r t => tank maxOutput l r t w
  | Op.arcade y z t => arcade maxOutput y z t w
  | Op.left s => left maxOutput s w
  | Op.right s => right maxOutput s w
  | Op.getSensorVals => w
  | Op.resetSensors => resetSensors w
  | Op.setBrakeMode m => setBrakeMode m w
  | Op.setEncoderUnits u => setEncoderUnits u w
  | Op.setGearing g => setGearing g w
  | Op.setPosPID f p i d => setPosPID f p i d w
  | Op.setPosPIDFull f p i d fl lm th ls => setPosPIDFull f p i d fl lm th ls w
  | Op.setVelPID f p i d => setVelPID f p i d w
  | Op.setVelPIDFull f p i d fl lm th ls => setVelPIDFull f p i d fl lm th ls w

/-- The effect of a sequence of invocations, executed in order. -/
def run (maxOutput : ℚ) (ops : List Op) (w : World) : World :=
  ops.foldl (fun acc op => exec maxOutput op acc) w

end SkidSteerModel

namespace Spec

/-- Following the spec: a value clamped to the closed range `[-1, 1]`. -/
def clamp (x : ℚ) : ℚ :=
  Max.max (-1) (Min.min x 1)

/-- Following the spec: the dead-zone filter, which clamps the input to
`[-1, 1]` and then zeroes it if its magnitude is below `threshold`. -/
def deadzone (x threshold : ℚ) : ℚ :=
  if |clamp x| < threshold then 0 else clamp x

/-- Following the spec: the sign of `ySpeed` in the signed-max allocation.
At `ySpeed = 0` the spec follows the `ySpeed ≥ 0` branch, so zero counts as
positive. -/
def sign (y : ℚ) : ℚ :=
  if 0 ≤ y then 1 else -1

/-- Following the spec: the magnitude `m = max(|l|, |r|)` of `driveVector`,
where `l = y + z` and `r = y - z` for the clamped inputs `y` and `z`. -/
def driveVectorMag (ySpeed zRotation : ℚ) : ℚ :=
  Max.max |clamp ySpeed + clamp zRotation| |clamp ySpeed - clamp zRotation|

/-- Following the spec: `maxInput = sign(y) * max(|y|, |z|)` for the
dead-zone-filtered `y` and `z`. -/
def maxInput (y z : ℚ) : ℚ :=
  sign y * Max.max |y| |z|

/-- Following the spec: the pair `(left, right)` chosen by the four-way case
split of `arcade` on the dead-zone-filtered `y` and `z`. -/
def allocate (y z : ℚ) : ℚ × ℚ :=
  if 0 ≤ y ∧ 0 ≤ z then (maxInput y z, y - z)
  else if 0 ≤ y ∧ z < 0 then (y + z, maxInput y z)
  else if y < 0 ∧ 0 ≤ z then (y + z, maxInput y z)
  else (maxInput y z, y - z)

end Spec

/-- A record in which no motor has been called and both sensors read zero. -/
def World.initial : World :=
  { calls := [], leftSensor := 0, rightSensor := 0 }

end okapi

/-! ## The binary64 embedding -/

namespace okapi

namespace binary64

/-- The values of an IEEE 754 binary64 `double`: a NaN, the two infinities, the
negative zero, and the finite values as rational numbers, `fin 0` being the
positive zero. -/
inductive Double where
  | nan
  | posInf
  | negInf
  | negZero
  | fin (q : ℚ)
  deriving DecidableEq, Repr

namespace Double

/-- Whether the value is a NaN. -/
def isNaN : Double → Bool
  | nan => true
  | _ => false

/-- Whether the value is an infinity. -/
def isInf : Double → Bool
  | posInf => true
  | negInf => true
  | _ => false

/-- Whether the value is a zero, of either sign. -/
def isZero : Double → Bool
  | negZero => true
  | fin q => decide (q = 0)
  | _ => false

/-- The sign bit.  The sign bit of a NaN is not modelled and reads as clear. -/
def signBit : Double → Bool
  | negInf => true
  | negZero => true
  | fin q => decide (q < 0)
  | _ => false

/-- The rational value of a finite double; `0` for both zeros (and for the
values that have none). -/
def toRat : Double → ℚ
  | fin q => q
  | _ => 0

/-- The zero with the given sign bit. -/
def signedZero (s : Bool) : Double :=
  if s then negZero else fin 0

/-- The infinity with the given sign bit. -/
def signedInf (s : Bool) : Double :=
  if s then negInf else posInf

end Double

/-- Rounding of a rational to the nearest integer, ties to the even one. -/
def roundHalfEven (t : ℚ) : Int :=
  if t - ⌊t⌋ < 1 / 2 then ⌊t⌋
  else if 1 / 2 < t - ⌊t⌋ then ⌊t⌋ + 1
  else if ⌊t⌋ % 2 = 0 then ⌊t⌋ else ⌊t⌋ + 1

/-- The exponent of the unit in the last place of the binary64 numbers around
the positive rational `a`: 53 significant bits, and never below the subnormal
exponent `-1074`. -/
def ulpExp (a : ℚ) : Int :=
  Max.max (Int.log 2 a - 52) (-1074)

/-- The positive rational `a` rounded to 53 significant bits (to the subnormal
grid below `2^-1022`), to nearest, ties to even, with no upper limit on the
exponent. -/
def roundMag (a : ℚ) : ℚ :=
  roundHalfEven (a / 2 ^ ulpExp a) * 2 ^ ulpExp a

/-- The binary64 result of an operation whose exact result is the rational `x`,
in the default rounding mode (to nearest, ties to even): overflow gives an
infinity, underflow to zero keeps the sign.  An exact zero gives the positive
zero; the operations below set the sign of their zero results themselves. -/
def round (x : ℚ) : Double :=
  if x = 0 then Double.fin 0
  else if 2 ^ (1024 : ℕ) ≤ roundMag |x| then Double.signedInf (decide (x < 0))
  else if roundMag |x| = 0 then Double.signedZero (decide (x < 0))
  else Double.fin (if x < 0 then -roundMag |x| else roundMag |x|)

namespace Double

/-- Whether the value is one a `double` can hold: a finite value has to be left
unchanged by rounding. -/
def IsDouble : Double → Prop
  | fin q => round q = fin q
  | _ => True

instance (d : Double) : Decidable d.IsDouble := by
  cases d <;> unfold IsDouble <;> infer_instance

/-- Negation, which flips the sign bit. -/
def neg : Double → Double
  | nan => nan
  | posInf => negInf
  | negInf => posInf
  | negZero => fin 0
  | fin q => if q = 0 then negZero else fin (-q)

/-- Addition, `a + b`. -/
def add (a b : Double) : Double :=
  if a.isNaN || b.isNaN then nan
  else if a.isInf then (if b.isInf && (a.signBit != b.signBit) then nan else a)
  else if b.isInf then b
  else if a.isZero && b.isZero then (if a.signBit && b.signBit then negZero else fin 0)
  else if a.toRat + b.toRat = 0 then fin 0
  else round (a.toRat + b.toRat)

/-- Subtraction, `a - b`. -/
def sub (a b : Double) : Double :=
  a.add b.neg

/-- Multiplication, `a * b`. -/
def mul (a b : Double) : Double :=
  if a.isNaN || b.isNaN then nan
  else if a.isInf || b.isInf then
    (if a.isZero || b.isZero then nan else signedInf (a.signBit != b.signBit))
  else if a.isZero || b.isZero then signedZero (a.signBit != b.signBit)
  else round (a.toRat * b.toRat)

/-- Division, `a / b`. -/
def div (a b : Double) : Double :=
  if a.isNaN || b.isNaN then nan
  else if a.isInf then (if b.isInf then nan else signedInf (a.signBit != b.signBit))
  else if b.isInf then signedZero (a.signBit != b.signBit)
  else if b.isZero then (if a.isZero then nan else signedInf (a.signBit != b.signBit))
  else if a.isZero then signedZero (a.signBit != b.signBit)
  else round (a.toRat / b.toRat)

/-- The comparison `a < b`, false when either side is a NaN; the two zeros are
equal. -/
def lt (a b : Double) : Bool :=
  match a, b with
  | nan, _ => false
  | _, nan => false
  | posInf, _ => false
  | _, negInf => false
  | negInf, _ => true
  | _, posInf => true
  | x, y => decide (x.toRat < y.toRat)

/-- The comparison `a >= b`, false when either side is a NaN. -/
def ge (a b : Double) : Bool :=
  !(a.isNaN || b.isNaN) && !(a.lt b)

/-- The comparison `a > b`. -/
def gt (a b : Double) : Bool :=
  b.lt a

end Double

/-- The conversion `static_cast<int16_t>(x)` of a `double`: the truncation
toward zero when it fits in sixteen bits, and undefined (`none`) for a NaN, an
infinity and a value whose truncation does not fit. -/
def static_cast_int16 : Double → Option Int
  | Double.fin q => if fitsInt16 q then some (truncToZero q) else none
  | Double.negZero => some 0
  | _ => none

namespace std

/-- The function `std::clamp(v, lo, hi)` of `<algorithm>`:
`(v < lo) ? lo : (hi < v) ? hi : v`. -/
def clamp (v lo hi : Double) : Double :=
  if v.lt lo then lo else if hi.lt v then hi else v

/-- The function `std::max(a, b)` of `<algorithm>`: `(a < b) ? b : a`. -/
def max (a b : Double) : Double :=
  if a.lt b then b else a

/-- The function `std::abs` on a `double`, which clears the sign bit. -/
def abs : Double → Double
  | Double.nan => Double.nan
  | Double.posInf => Double.posInf
  | Double.negInf => Double.posInf
  | Double.negZero => Double.fin 0
  | Double.fin q => Double.fin |q|

/-- The function `std::copysign(x, y)`: the magnitude of `x` with the sign bit
of `y`. -/
def copysign (x y : Double) : Double :=
  if y.signBit then (abs x).neg else abs x

end std

end binary64

end okapi

namespace okapi

namespace binary64

namespace SkidSteerModel

/-- The method `SkidSteerModel::forward`, in binary64 arithmetic.  The result is
`none` when a conversion to `int16_t` is undefined. -/
def forward (maxOutput ispeed : Double) (w : World) : Option World := do
  let speed := std.clamp ispeed (Double.fin (-1)) (Double.fin 1)
  let l ← static_cast_int16 (speed.mul maxOutput)
  let r ← static_cast_int16 (speed.mul maxOutput)
  pure ((w.motor Side.left (MotorCall.moveVelocity l)).motor Side.right
    (MotorCall.moveVelocity r))

/-- The pair `(leftOutput, rightOutput)` of `SkidSteerModel::driveVector` just
before the two `moveVelocity` calls, in binary64 arithmetic. -/
def driveVectorOutputs (iySpeed izRotation : Double) : Double × Double :=
  let ySpeed := std.clamp iySpeed (Double.fin (-1)) (Double.fin 1)
  let zRotation := std.clamp izRotation (Double.fin (-1)) (Double.fin 1)
  let leftOutput := ySpeed.add zRotation
  let rightOutput := ySpeed.sub zRotation
  let maxInputMag := std.max (std.abs leftOutput) (std.abs rightOutput)
  if maxInputMag.gt (Double.fin 1) then
    (leftOutput.div maxInputMag, rightOutput.div maxInputMag)
  else
    (leftOutput, rightOutput)

/-- The method `SkidSteerModel::driveVector`, in binary64 arithmetic. -/
def driveVector (maxOutput iySpeed izRotation : Double) (w : World) : Option World := do
  let out := driveVectorOutputs iySpeed izRotation
  let l ← static_cast_int16 (out.1.mul maxOutput)
  let r ← static_cast_int16 (out.2.mul maxOutput)
  pure ((w.motor Side.left (MotorCall.moveVelocity l)).motor Side.right
    (MotorCall.moveVelocity r))

/-- The method `SkidSteerModel::rotate`, in binary64 arithmetic. -/
def rotate (maxOutput ispeed : Double) (w : World) : Option World := do
  let speed := std.clamp ispeed (Double.fin (-1)) (Double.fin 1)
  let l ← static_cast_int16 (speed.mul maxOutput)
  let r ← static_cast_int16 (((Double.fin (-1)).mul speed).mul maxOutput)
  pure ((w.motor Side.left (MotorCall.moveVelocity l)).motor Side.right
    (MotorCall.moveVelocity r))

/-- The dead-zone step shared by `tank` and `arcade`, in binary64 arithmetic:
`double s = std::clamp(is, -1.0, 1.0); if (std::abs(s) < ithreshold) s = 0;`. -/
def deadband (ispeed ithreshold : Double) : Double :=
  let speed := std.clamp ispeed (Double.fin (-1)) (Double.fin 1)
  if (std.abs speed).lt ithreshold then Double.fin 0 else speed

/-- The method `SkidSteerModel::tank`, in binary64 arithmetic. -/
def tank (maxOutput ileftSpeed irightSpeed ithreshold : Double) (w : World) :
    Option World := do
  let leftSpeed := deadband ileftSpeed ithreshold
  let rightSpeed := deadband irightSpeed ithreshold
  let l ← static_cast_int16 (leftSpeed.mul maxOutput)
  let r ← static_cast_int16 (rightSpeed.mul maxOutput)
  pure ((w.motor Side.left (MotorCall.moveVoltage l)).motor Side.right
    (MotorCall.moveVoltage r))

/-- The pair `(leftOutput, rightOutput)` of `SkidSteerModel::arcade` after the
four-way case split and before the final `std::clamp`, in binary64
arithmetic. -/
def arcadeOutputs (iySpeed izRotation ithreshold : Double) : Double × Double :=
  let ySpeed := deadband iySpeed ithreshold
  let zRotation := deadband izRotation ithreshold
  let maxInput := std.copysign (std.max (std.abs ySpeed) (std.abs zRotation)) ySpeed
  if ySpeed.ge (Double.fin 0) then
    if zRotation.ge (Double.fin 0) then (maxInput, ySpeed.sub zRotation)
    else (ySpeed.add zRotation, maxInput)
  else
    if zRotation.ge (Double.fin 0) then (ySpeed.add zRotation, maxInput)
    else (maxInput, ySpeed.sub zRotation)

/-- The method `SkidSteerModel::arcade`, in binary64 arithmetic. -/
def arcade (maxOutput iySpeed izRotation ithreshold : Double) (w : World) :
    Option World := do
  let out := arcadeOutputs iySpeed izRotation ithreshold
  let l ← static_cast_int16
    ((std.clamp out.1 (Double.fin (-1)) (Double.fin 1)).mul maxOutput)
  let r ← static_cast_int16
    ((std.clamp out.2 (Double.fin (-1)) (Double.fin 1)).mul maxOutput)
  pure ((w.motor Side.left (MotorCall.moveVoltage l)).motor Side.right
    (MotorCall.moveVoltage r))

/-- The method `SkidSteerModel::left`, in binary64 arithmetic. -/
def left (maxOutput ispeed : Double) (w : World) : Option World := do
  let l ← static_cast_int16 (ispeed.mul maxOutput)
  pure (w.motor Side.left (MotorCall.moveVelocity l))

/-- The method `SkidSteerModel::right`, in binary64 arithmetic. -/
def right (maxOutput ispeed : Double) (w : World) : Option World := do
  let r ← static_cast_int16 (ispeed.mul maxOutput)
  pure (w.motor Side.right (MotorCall.moveVelocity r))

end SkidSteerModel

end binary64

end okapi

namespace okapi

/-- The record after the left motor has received `mk l` and then the right
motor `mk r`, when both conversions that produce `l` and `r` are defined; `none`
when either is undefined. -/
def World.sendPair (w : World) (mk : Int → MotorCall) (l r : Option Int) : Option World :=
  match l, r with
  | some a, some b => some (w.record [(Side.left, mk a), (Side.right, mk b)])
  | _, _ => none

namespace binary64

/-- The property that a double is finite with magnitude at most `B`. -/
def Double.absLe (d : Double) (B : ℚ) : Prop :=
  match d with
  | Double.fin q => |q| ≤ B
  | Double.negZero => 0 ≤ B
  | _ => False

/-- The property that `a` is the negation of `b`, up to the sign of a zero. -/
def Double.NegRel (a b : Double) : Prop :=
  a = b.neg ∨ (a.isZero = true ∧ b.isZero = true)

namespace Spec

/-- Following the spec: the magnitude `m = max(|l|, |r|)` of `driveVector`,
where `l = y + z` and `r = y - z` for the clamped inputs `y` and `z`, in
binary64 arithmetic. -/
def driveVectorMag (ySpeed zRotation : Double) : Double :=
  std.max
    (std.abs ((std.clamp ySpeed (Double.fin (-1)) (Double.fin 1)).add
      (std.clamp zRotation (Double.fin (-1)) (Double.fin 1))))
    (std.abs ((std.clamp ySpeed (Double.fin (-1)) (Double.fin 1)).sub
      (std.clamp zRotation (Double.fin (-1)) (Double.fin 1))))

/-- Following the spec: the two values `driveVector` hands to the conversion,
in binary64 arithmetic.  With `l = y + z`, `r = y - z` and `m = max(|l|, |r|)`:
`(l/m)*maxOutput` and `(r/m)*maxOutput` if `m > 1`, otherwise `l*maxOutput` and
`r*maxOutput`. -/
def driveVector (maxOutput ySpeed zRotation : Double) : Double × Double :=
  let y := std.clamp ySpeed (Double.fin (-1)) (Double.fin 1)
  let z := std.clamp zRotation (Double.fin (-1)) (Double.fin 1)
  let m := driveVectorMag ySpeed zRotation
  if m.gt (Double.fin 1) then
    (((y.add z).div m).mul maxOutput, ((y.sub z).div m).mul maxOutput)
  else
    ((y.add z).mul maxOutput, (y.sub z).mul maxOutput)

/-- Following the spec: the dead-zone filter, which clamps the input to
`[-1, 1]` and then zeroes it if its magnitude is below `threshold`. -/
def deadzone (x threshold : Double) : Double :=
  if (std.abs (std.clamp x (Double.fin (-1)) (Double.fin 1))).lt threshold then Double.fin 0
  else std.clamp x (Double.fin (-1)) (Double.fin 1)

/-- Following the spec: the sign of `y` by value, `-1` when `y < 0` and `+1`
otherwise, so that a zero of either sign counts as positive. -/
def signValue (y : Double) : Double :=
  if y.lt (Double.fin 0) then Double.fin (-1) else Double.fin 1

/-- The signed maximum of `arcade`: `max(|y|, |z|)` with the sign bit of `y`.
This is the reading of `sign(y) * max(|y|, |z|)` under which the negative zero
counts as negative. -/
def maxInput (y z : Double) : Double :=
  if y.signBit then (std.max (std.abs y) (std.abs z)).neg
  else std.max (std.abs y) (std.abs z)

/-- Following the spec: the pair `(left, right)` chosen by the four-way case
split of `arcade` on the dead-zone-filtered `y` and `z`. -/
def allocate (y z : Double) : Double × Double :=
  if y.ge (Double.fin 0) && z.ge (Double.fin 0) then (maxInput y z, y.sub z)
  else if y.ge (Double.fin 0) && z.lt (Double.fin 0) then (y.add z, maxInput y z)
  else if y.lt (Double.fin 0) && z.ge (Double.fin 0) then (y.add z, maxInput y z)
  else (maxInput y z, y.sub z)

/-- Following the spec: the two values `arcade` hands to the conversion:
`clamp(left)*maxOutput` and `clamp(right)*maxOutput`. -/
def arcade (maxOutput ySpeed zRotation threshold : Double) : Double × Double :=
  ((std.clamp (allocate (deadzone ySpeed threshold) (deadzone zRotation threshold)).1
      (Double.fin (-1)) (Double.fin 1)).mul maxOutput,
   (std.clamp (allocate (deadzone ySpeed threshold) (deadzone zRotation threshold)).2
      (Double.fin (-1)) (Double.fin 1)).mul maxOutput)

end Spec

/-- The double nearest to the decimal `0.03`. -/
def d003 : Double := Double.fin (8646911284551352 * 2 ^ (-58 : Int))

/-- The double nearest to the decimal `0.05`. -/
def d005 : Double := Double.fin (7205759403792794 * 2 ^ (-57 : Int))

/-- The double nearest to the decimal `0.1`. -/
def d01 : Double := Double.fin (7205759403792794 * 2 ^ (-56 : Int))

end binary64

end okapi

/-! ## Arithmetic of the helpers -/

namespace okapi

open SkidSteerModel

theorem clamp_unit_le (v : ℚ) : std.clamp v (-1) 1 ≤ 1 := by
  unfold std.clamp; split_ifs <;> linarith

theorem clamp_unit_ge (v : ℚ) : -1 ≤ std.clamp v (-1) 1 := by
  unfold std.clamp; split_ifs <;> linarith

theorem abs_clamp_unit_le (v : ℚ) : |std.clamp v (-1) 1| ≤ 1 :=
  abs_le.mpr ⟨clamp_unit_ge v, clamp_unit_le v⟩

theorem clamp_unit_of_abs_le {v : ℚ} (h : |v| ≤ 1) : std.clamp v (-1) 1 = v := by
  have h1 := abs_le.mp h
  unfold std.clamp; split_ifs <;> linarith

theorem clamp_eq_spec (v : ℚ) : std.clamp v (-1) 1 = Spec.clamp v := by
  unfold std.clamp Spec.clamp
  split_ifs with h1 h2
  · rw [min_eq_left (by linarith), max_eq_left h1.le]
  · rw [min_eq_right h2.le, max_eq_right (by norm_num)]
  · rw [min_eq_left (not_lt.mp h2), max_eq_right (not_lt.mp h1)]

theorem std_max_eq (a b : ℚ) : std.max a b = Max.max a b := by
  unfold std.max; split_ifs with h
  · exact (max_eq_right h.le).symm
  · exact (max_eq_left (not_lt.mp h)).symm

theorem deadband_eq_spec (v t : ℚ) : deadband v t = Spec.deadzone v t := by
  simp only [deadband, Spec.deadzone, std.abs, clamp_eq_spec]

theorem truncToZero_of_nonneg {x : ℚ} (h : 0 ≤ x) : truncToZero x = ⌊x⌋ := by
  simp [truncToZero, h]

theorem truncToZero_of_neg {x : ℚ} (h : x < 0) : truncToZero x = ⌈x⌉ := by
  simp [truncToZero, not_le.mpr h]

theorem truncToZero_intCast (n : Int) : truncToZero (n : ℚ) = n := by
  unfold truncToZero; split_ifs <;> simp

theorem truncToZero_neg (x : ℚ) : truncToZero (-x) = -truncToZero x := by
  rcases lt_trichotomy x 0 with h | h | h
  · rw [truncToZero_of_nonneg (by linarith), truncToZero_of_neg h, Int.floor_neg]
  · subst h; simp [truncToZero]
  · rw [truncToZero_of_neg (by linarith), truncToZero_of_nonneg h.le, Int.ceil_neg]

theorem abs_truncToZero_le (x : ℚ) : |(truncToZero x : ℚ)| ≤ |x| := by
  rcases le_or_lt 0 x with h | h
  · rw [truncToZero_of_nonneg h, abs_of_nonneg h,
      abs_of_nonneg (by exact_mod_cast Int.floor_nonneg.mpr h)]
    exact Int.floor_le x
  · rw [truncToZero_of_neg h, abs_of_neg h]
    have h1 : (⌈x⌉ : ℚ) ≤ 0 := by exact_mod_cast Int.ceil_le.mpr (by simpa using h.le)
    rw [abs_of_nonpos h1]
    have := Int.le_ceil x
    linarith

theorem truncToZero_fits {x : ℚ} (h : fitsInt16 x) :
    -32768 ≤ truncToZero x ∧ truncToZero x ≤ 32767 := by
  obtain ⟨h1, h2⟩ := h
  rcases le_or_lt 0 x with h0 | h0
  · rw [truncToZero_of_nonneg h0]
    constructor
    · have := Int.floor_nonneg.mpr h0; omega
    · have : ⌊x⌋ < 32768 := Int.floor_lt.mpr (by exact_mod_cast h2)
      omega
  · rw [truncToZero_of_neg h0]
    constructor
    · have : (-32769 : Int) < ⌈x⌉ := Int.lt_ceil.mpr (by exact_mod_cast h1)
      omega
    · have : ⌈x⌉ ≤ 0 := Int.ceil_le.mpr (by simpa using h0.le)
      omega

theorem fitsInt16_of_abs_le {x M : ℚ} (hx : |x| ≤ M) (hM : M ≤ 32767) : fitsInt16 x := by
  have h := abs_le.mp hx
  constructor <;> linarith

theorem motor_motor (w : World) (s₁ s₂ : Side) (c₁ c₂ : MotorCall) :
    (w.motor s₁ c₁).motor s₂ c₂ = w.record [(s₁, c₁), (s₂, c₂)] := by
  simp [World.motor, World.record]

theorem motor_eq_record (w : World) (s : Side) (c : MotorCall) :
    w.motor s c = w.record [(s, c)] := rfl

theorem copysign_max_eq_spec (y z : ℚ) :
    std.copysign (std.max (std.abs y) (std.abs z)) y = Spec.maxInput y z := by
  have hnn : (0 : ℚ) ≤ Max.max |y| |z| := (abs_nonneg y).trans (le_max_left _ _)
  simp only [std.copysign, Spec.maxInput, Spec.sign, std.abs, std_max_eq, abs_of_nonneg hnn]
  split_ifs with h1 h2 h2
  · linarith
  · ring
  · ring
  · linarith

theorem arcadeOutputs_eq_spec (iy iz t : ℚ) :
    arcadeOutputs iy iz t = Spec.allocate (Spec.deadzone iy t) (Spec.deadzone iz t) := by
  simp only [arcadeOutputs, copysign_max_eq_spec, deadband_eq_spec, Spec.allocate, ge_iff_le]
  split_ifs <;> first | rfl | (exfalso; simp_all)

theorem abs_spec_clamp_le (v : ℚ) : |Spec.clamp v| ≤ 1 := by
  rw [← clamp_eq_spec]; exact abs_clamp_unit_le v

theorem static_cast_int16_wrap (n : Int) : static_cast_int16 (n : ℚ) = wrapInt16 n := by
  unfold static_cast_int16
  rw [truncToZero_intCast]

theorem spec_clamp_of_abs_le {v : ℚ} (h : |v| ≤ 1) : Spec.clamp v = v := by
  rw [← clamp_eq_spec]; exact clamp_unit_of_abs_le h

theorem run_append_single (maxOutput : ℚ) (ops : List Op) (op : Op) (w : World) :
    run maxOutput (ops ++ [op]) w = exec maxOutput op (run maxOutput ops w) := by
  simp [run, List.foldl_append]

/-! ## Symmetries of the helpers -/

theorem std_clamp_neg (v : ℚ) : std.clamp (-v) (-1) 1 = -std.clamp v (-1) 1 := by
  unfold std.clamp
  split_ifs <;> linarith

theorem std_clamp_idem (v : ℚ) :
    std.clamp (std.clamp v (-1) 1) (-1) 1 = std.clamp v (-1) 1 :=
  clamp_unit_of_abs_le (abs_clamp_unit_le v)

theorem std_clamp_spec_clamp (v : ℚ) :
    std.clamp (Spec.clamp v) (-1) 1 = std.clamp v (-1) 1 := by
  rw [← clamp_eq_spec, std_clamp_idem]

theorem deadband_neg (v t : ℚ) : deadband (-v) t = -deadband v t := by
  simp only [deadband, std.abs, std_clamp_neg, abs_neg]
  split_ifs <;> simp

theorem deadband_spec_clamp (v t : ℚ) : deadband (Spec.clamp v) t = deadband v t := by
  simp only [deadband, std_clamp_spec_clamp]

theorem spec_maxInput_eq (y z : ℚ) :
    Spec.maxInput y z = if 0 ≤ y then Max.max |y| |z| else -Max.max |y| |z| := by
  unfold Spec.maxInput Spec.sign
  split_ifs <;> ring

theorem spec_allocate_mirror (y z : ℚ) :
    Spec.allocate y (-z) = ((Spec.allocate y z).2, (Spec.allocate y z).1) := by
  rcases lt_trichotomy y 0 with hy | rfl | hy <;>
    rcases lt_trichotomy z 0 with hz | rfl | hz <;>
    simp [Spec.allocate, spec_maxInput_eq, le_of_lt, not_le_of_lt, lt_asymm, abs_of_neg,
      abs_of_pos, *]
  all_goals ring

theorem static_cast_int32_zero : static_cast_int32 0 = 0 := by
  simp [static_cast_int32, truncToZero, wrapInt32]

theorem driveVectorOutputs_no_rotation (s : ℚ) :
    driveVectorOutputs s 0 = (std.clamp s (-1) 1, std.clamp s (-1) 1) := by
  have hc : std.clamp 0 (-1) 1 = 0 := clamp_unit_of_abs_le (by norm_num)
  have hm : ¬ Max.max |std.clamp s (-1) 1| |std.clamp s (-1) 1| > 1 := by
    rw [max_self]; exact not_lt.mpr (abs_clamp_unit_le s)
  simp only [driveVectorOutputs, hc, add_zero, sub_zero, std.abs, std_max_eq, if_neg hm]

theorem driveVectorOutputs_no_translation (s : ℚ) :
    driveVectorOutputs 0 s = (std.clamp s (-1) 1, -std.clamp s (-1) 1) := by
  have hc : std.clamp 0 (-1) 1 = 0 := clamp_unit_of_abs_le (by norm_num)
  have hm : ¬ Max.max |std.clamp s (-1) 1| |(-std.clamp s (-1) 1)| > 1 := by
    rw [abs_neg, max_self]; exact not_lt.mpr (abs_clamp_unit_le s)
  simp only [driveVectorOutputs, hc, zero_add, zero_sub, std.abs, std_max_eq, if_neg hm]

theorem arcadeOutputs_mirror (iy iz t : ℚ) :
    arcadeOutputs iy (-iz) t = ((arcadeOutputs iy iz t).2, (arcadeOutputs iy iz t).1) := by
  rw [arcadeOutputs_eq_spec, arcadeOutputs_eq_spec, ← deadband_eq_spec (-iz), deadband_neg,
    deadband_eq_spec, spec_allocate_mirror]

/-! ## The claims -/

/-- C10: for every `maxOutput`, every initial record and every sequence of
operations executed before it, `stop()` sends the velocity command `0` to the
left motor, then the velocity command `0` to the right motor, and does nothing
else: the earlier calls and the sensor readings are unchanged. -/
theorem stop_after_any_sequence (maxOutput : ℚ) (ops : List Op) (w : World) :
    run maxOutput (ops ++ [Op.stop]) w
      = (run maxOutput ops w).record
          [(Side.left, MotorCall.moveVelocity 0), (Side.right, MotorCall.moveVelocity 0)]
    ∧ (run maxOutput (ops ++ [Op.stop]) w).calls
      = (run maxOutput ops w).calls
          ++ [(Side.left, MotorCall.moveVelocity 0), (Side.right, MotorCall.moveVelocity 0)]
    ∧ (run maxOutput (ops ++ [Op.stop]) w).leftSensor = (run maxOutput ops w).leftSensor
    ∧ (run maxOutput (ops ++ [Op.stop]) w).rightSensor = (run maxOutput ops w).rightSensor := by
  have h : run maxOutput (ops ++ [Op.stop]) w
      = (run maxOutput ops w).record
          [(Side.left, MotorCall.moveVelocity 0), (Side.right, MotorCall.moveVelocity 0)] := by
    rw [run_append_single]
    exact motor_motor _ _ _ _ _
  refine ⟨h, ?_, ?_, ?_⟩ <;> rw [h] <;> rfl

/-- C12: clamping absorbs out-of-range input.  For `forward`, `rotate`,
`driveVector`, `tank` and `arcade`, and for every input, replacing a speed
argument `x` by `clamp(x)` leaves the record of commands unchanged.  So
`forward(s)` is `forward(1)` for every `s ≥ 1` and `forward(-1)` for every
`s ≤ -1`. -/
theorem clamp_absorbs (maxOutput : ℚ) (w : World) :
    (∀ s, forward maxOutput (Spec.clamp s) w = forward maxOutput s w)
    ∧ (∀ s, rotate maxOutput (Spec.clamp s) w = rotate maxOutput s w)
    ∧ (∀ y z, driveVector maxOutput (Spec.clamp y) z w = driveVector maxOutput y z w
        ∧ driveVector maxOutput y (Spec.clamp z) w = driveVector maxOutput y z w)
    ∧ (∀ l r t, tank maxOutput (Spec.clamp l) r t w = tank maxOutput l r t w
        ∧ tank maxOutput l (Spec.clamp r) t w = tank maxOutput l r t w)
    ∧ (∀ y z t, arcade maxOutput (Spec.clamp y) z t w = arcade maxOutput y z t w
        ∧ arcade maxOutput y (Spec.clamp z) t w = arcade maxOutput y z t w)
    ∧ (∀ s, 1 ≤ s → forward maxOutput s w = forward maxOutput 1 w)
    ∧ (∀ s, s ≤ -1 → forward maxOutput s w = forward maxOutput (-1) w) := by
  have hge : ∀ s : ℚ, 1 ≤ s → std.clamp s (-1) 1 = std.clamp 1 (-1) 1 := by
    intro s hs
    unfold std.clamp
    split_ifs <;> linarith
  have hle : ∀ s : ℚ, s ≤ -1 → std.clamp s (-1) 1 = std.clamp (-1) (-1) 1 := by
    intro s hs
    unfold std.clamp
    split_ifs <;> linarith
  refine ⟨fun s => ?_, fun s => ?_, fun y z => ⟨?_, ?_⟩, fun l r t => ⟨?_, ?_⟩,
    fun y z t => ⟨?_, ?_⟩, fun s hs => ?_, fun s hs => ?_⟩
  · simp only [forward, std_clamp_spec_clamp]
  · simp only [rotate, std_clamp_spec_clamp]
  · simp only [driveVector, driveVectorOutputs, std_clamp_spec_clamp]
  · simp only [driveVector, driveVectorOutputs, std_clamp_spec_clamp]
  · simp only [tank, deadband_spec_clamp]
  · simp only [tank, deadband_spec_clamp]
  · simp only [arcade, arcadeOutputs, deadband_spec_clamp]
  · simp only [arcade, arcadeOutputs, deadband_spec_clamp]
  · simp only [forward, hge s hs]
  · simp only [forward, hle s hs]

/-- C13: every configuration setter makes exactly two motor calls: the call of
the same name on the left motor first, then on the right motor, both with
exactly the arguments the caller passed, in the same order and unchanged. -/
theorem setters_forward_to_both (w : World) :
    (∀ mode, setBrakeMode mode w
      = w.record [(Side.left, MotorCall.setBrakeMode mode),
                  (Side.right, MotorCall.setBrakeMode mode)])
    ∧ (∀ units, setEncoderUnits units w
      = w.record [(Side.left, MotorCall.setEncoderUnits units),
                  (Side.right, MotorCall.setEncoderUnits units)])
    ∧ (∀ gearset, setGearing gearset w
      = w.record [(Side.left, MotorCall.setGearing gearset),
                  (Side.right, MotorCall.setGearing gearset)])
    ∧ (∀ ikF ikP ikI ikD, setPosPID ikF ikP ikI ikD w
      = w.record [(Side.left, MotorCall.setPosPID ikF ikP ikI ikD),
                  (Side.right, MotorCall.setPosPID ikF ikP ikI ikD)])
    ∧ (∀ ikF ikP ikI ikD ifilter ilimit ithreshold iloopSpeed,
      setPosPIDFull ikF ikP ikI ikD ifilter ilimit ithreshold iloopSpeed w
      = w.record
          [(Side.left,
              MotorCall.setPosPIDFull ikF ikP ikI ikD ifilter ilimit ithreshold iloopSpeed),
           (Side.right,
              MotorCall.setPosPIDFull ikF ikP ikI ikD ifilter ilimit ithreshold iloopSpeed)])
    ∧ (∀ ikF ikP ikI ikD, setVelPID ikF ikP ikI ikD w
      = w.record [(Side.left, MotorCall.setVelPID ikF ikP ikI ikD),
                  (Side.right, MotorCall.setVelPID ikF ikP ikI ikD)])
    ∧ (∀ ikF ikP ikI ikD ifilter ilimit ithreshold iloopSpeed,
      setVelPIDFull ikF ikP ikI ikD ifilter ilimit ithreshold iloopSpeed w
      = w.record
          [(Side.left,
              MotorCall.setVelPIDFull ikF ikP ikI ikD ifilter ilimit ithreshold iloopSpeed),
           (Side.right,
              MotorCall.setVelPIDFull ikF ikP ikI ikD ifilter ilimit ithreshold iloopSpeed)]) :=
  ⟨fun _ => motor_motor _ _ _ _ _, fun _ => motor_motor _ _ _ _ _,
   fun _ => motor_motor _ _ _ _ _, fun _ _ _ _ => motor_motor _ _ _ _ _,
   fun _ _ _ _ _ _ _ _ => motor_motor _ _ _ _ _, fun _ _ _ _ => motor_motor _ _ _ _ _,
   fun _ _ _ _ _ _ _ _ => motor_motor _ _ _ _ _⟩

/-- C14: with sensors whose `reset()` zeroes the accumulated reading, calling
`resetSensors()` twice in succession leaves the same state as calling it once:
whatever the two readings were before, after one call and after two calls
`getSensorVals()` returns `(0, 0)`, left reading first, and the record of motor
calls is untouched. -/
theorem resetSensors_idempotent (w : World) :
    resetSensors (resetSensors w) = resetSensors w
    ∧ getSensorVals (resetSensors w) = (0, 0)
    ∧ getSensorVals (resetSensors (resetSensors w)) = (0, 0)
    ∧ (resetSensors w).calls = w.calls
    ∧ getSensorVals w = (static_cast_int32 w.leftSensor, static_cast_int32 w.rightSensor) := by
  have h1 : resetSensors w = { w with leftSensor := 0, rightSensor := 0 } := rfl
  have h2 : resetSensors (resetSensors w) = resetSensors w := rfl
  refine ⟨h2, ?_, ?_, rfl, rfl⟩
  · simp only [h1, getSensorVals, World.sensorGet, static_cast_int32_zero]
  · rw [h2, h1]
    simp only [getSensorVals, World.sensorGet, static_cast_int32_zero]

/-- C17: `driveVector` degenerates to the single-intent operations.  For every
`s`, `driveVector(s, 0)` sends exactly the two velocity commands of
`forward(s)` and `driveVector(0, s)` exactly the two velocity commands of
`rotate(s)`; in neither case is the rescale triggered. -/
theorem driveVector_degenerate (maxOutput s : ℚ) (w : World) :
    driveVector maxOutput s 0 w = forward maxOutput s w
    ∧ driveVector maxOutput 0 s w = rotate maxOutput s w
    ∧ ¬ 1 < Spec.driveVectorMag s 0
    ∧ ¬ 1 < Spec.driveVectorMag 0 s := by
  have hc0 : Spec.clamp 0 = 0 := spec_clamp_of_abs_le (by norm_num)
  refine ⟨?_, ?_, ?_, ?_⟩
  · simp only [driveVector, forward, driveVectorOutputs_no_rotation]
  · have hneg : -1 * std.clamp s (-1) 1 * maxOutput = -std.clamp s (-1) 1 * maxOutput := by
      ring
    simp only [driveVector, rotate, driveVectorOutputs_no_translation, hneg]
  · simp only [Spec.driveVectorMag, hc0, add_zero, sub_zero, max_self]
    exact not_lt.mpr (abs_spec_clamp_le s)
  · simp only [Spec.driveVectorMag, hc0, zero_add, zero_sub, abs_neg, max_self]
    exact not_lt.mpr (abs_spec_clamp_le s)

/-- C19: mirror symmetry of `arcade`.  For every `ySpeed`, `zRotation` and
`threshold`, `arcade(ySpeed, -zRotation, threshold)` sends to the left motor
the command that `arcade(ySpeed, zRotation, threshold)` sends to the right
motor, and to the right motor the command that it sends to the left one. -/
theorem arcade_mirror (maxOutput ySpeed zRotation threshold : ℚ) (w : World) :
    ∃ l r : Int,
      arcade maxOutput ySpeed zRotation threshold w
        = w.record [(Side.left, MotorCall.moveVoltage l), (Side.right, MotorCall.moveVoltage r)]
      ∧ arcade maxOutput ySpeed (-zRotation) threshold w
        = w.record
            [(Side.left, MotorCall.moveVoltage r), (Side.right, MotorCall.moveVoltage l)] := by
  refine ⟨_, _, motor_motor _ _ _ _ _, ?_⟩
  simp only [arcade, arcadeOutputs_mirror]
  exact motor_motor _ _ _ _ _

end okapi

/-! # The binary64 embedding: lemmas -/

namespace okapi

namespace binary64

open Double

/-! ## Rounding -/

theorem roundHalfEven_mem (t : ℚ) : roundHalfEven t = ⌊t⌋ ∨ roundHalfEven t = ⌊t⌋ + 1 := by
  unfold roundHalfEven
  split_ifs <;> simp

theorem floor_le_roundHalfEven (t : ℚ) : ⌊t⌋ ≤ roundHalfEven t := by
  rcases roundHalfEven_mem t with h | h <;> omega

theorem roundHalfEven_intCast (k : Int) : roundHalfEven (k : ℚ) = k := by
  unfold roundHalfEven
  simp

theorem roundHalfEven_le_of_le {t : ℚ} {k : Int} (h : t ≤ k) : roundHalfEven t ≤ k := by
  rcases eq_or_lt_of_le h with h | h
  · rw [h, roundHalfEven_intCast]
  · have hf : ⌊t⌋ < k := Int.floor_lt.mpr h
    rcases roundHalfEven_mem t with h' | h' <;> omega

theorem le_roundHalfEven_of_le {t : ℚ} {k : Int} (h : (k : ℚ) ≤ t) : k ≤ roundHalfEven t :=
  (Int.le_floor.mpr h).trans (floor_le_roundHalfEven t)

theorem roundHalfEven_eq_of_near {t : ℚ} {m : Int} (h1 : (m : ℚ) - 1 / 2 < t)
    (h2 : t < m + 1 / 2) : roundHalfEven t = m := by
  unfold roundHalfEven
  rcases le_or_lt (m : ℚ) t with h | h
  · have hf : ⌊t⌋ = m := Int.floor_eq_iff.mpr ⟨h, by linarith⟩
    rw [hf, if_pos (by linarith)]
  · have hf : ⌊t⌋ = m - 1 := Int.floor_eq_iff.mpr ⟨by push_cast; linarith, by push_cast; linarith⟩
    rw [hf]
    push_cast
    rw [if_neg (by linarith), if_pos (by linarith)]
    ring

theorem two_zpow_pos (e : Int) : (0 : ℚ) < 2 ^ e := zpow_pos (by norm_num) e

theorem roundMag_nonneg {a : ℚ} (ha : 0 ≤ a) : 0 ≤ roundMag a := by
  unfold roundMag
  have h0 : (0 : ℚ) ≤ a / 2 ^ ulpExp a := div_nonneg ha (two_zpow_pos _).le
  have : (0 : Int) ≤ roundHalfEven (a / 2 ^ ulpExp a) :=
    le_roundHalfEven_of_le (by simpa using h0)
  exact mul_nonneg (by exact_mod_cast this) (two_zpow_pos _).le

theorem ulpExp_mono {a b : ℚ} (ha : 0 < a) (hab : a ≤ b) : ulpExp a ≤ ulpExp b := by
  unfold ulpExp
  have := Int.log_mono_right (b := 2) ha hab
  exact max_le_max (by omega) le_rfl

/-- A rational that rounding leaves unchanged bounds the rounding of every
smaller positive rational. -/
theorem roundMag_le_of_le {a b : ℚ} (ha : 0 < a) (hab : a ≤ b) (hb : roundMag b = b) :
    roundMag a ≤ b := by
  have he := ulpExp_mono ha hab
  obtain ⟨n, hn⟩ := Int.eq_ofNat_of_zero_le (sub_nonneg.mpr he)
  have hpa := two_zpow_pos (ulpExp a)
  have hpb := two_zpow_pos (ulpExp b)
  have hsplit : (2 : ℚ) ^ ulpExp b = 2 ^ ulpExp a * ((2 ^ n : Int) : ℚ) := by
    have : ulpExp b = ulpExp a + (n : Int) := by omega
    rw [this, zpow_add₀ (by norm_num : (2 : ℚ) ≠ 0), zpow_natCast]
    push_cast
    ring
  -- `b` is an integer multiple of the unit of `a`
  obtain ⟨m, hm⟩ : ∃ m : Int, b = m * 2 ^ ulpExp b := ⟨_, hb.symm⟩
  have hbk : b / 2 ^ ulpExp a = ((m * 2 ^ n : Int) : ℚ) := by
    rw [eq_comm, hsplit] at hm
    rw [← hm]
    push_cast
    field_simp
    ring
  have hle : a / 2 ^ ulpExp a ≤ ((m * 2 ^ n : Int) : ℚ) := by
    rw [← hbk]
    exact div_le_div_of_nonneg_right hab hpa.le
  have hr := roundHalfEven_le_of_le hle
  have : roundMag a ≤ ((m * 2 ^ n : Int) : ℚ) * 2 ^ ulpExp a :=
    mul_le_mul_of_nonneg_right (by exact_mod_cast hr) hpa.le
  calc roundMag a ≤ _ := this
    _ = b := by rw [← hbk]; field_simp

theorem ulpExp_eq {a : ℚ} {E : Int} (ha : 0 < a) (h1 : (2 : ℚ) ^ E ≤ a)
    (h2 : a < 2 ^ (E + 1)) (hE : -1022 ≤ E) : ulpExp a = E - 52 := by
  have hlog : Int.log 2 a = E := by
    apply le_antisymm
    · have := (Int.lt_zpow_iff_log_lt (b := 2) (by norm_num) (x := E + 1) ha).mp
        (by exact_mod_cast h2)
      omega
    · exact (Int.zpow_le_iff_le_log (b := 2) (by norm_num) (x := E) ha).mp
        (by exact_mod_cast h1)
  unfold ulpExp
  rw [hlog]
  exact max_eq_left (by omega)

theorem round_of_pos {x : ℚ} (hx : 0 < x) (h1 : roundMag x < 2 ^ (1024 : ℕ))
    (h2 : roundMag x ≠ 0) : round x = Double.fin (roundMag x) := by
  unfold round
  rw [if_neg hx.ne', abs_of_pos hx, if_neg (not_le.mpr h1), if_neg h2,
    if_neg (not_lt.mpr hx.le)]

theorem round_neg {x : ℚ} (hx : x ≠ 0) : round (-x) = (round x).neg := by
  unfold round
  rw [if_neg hx, if_neg (neg_ne_zero.mpr hx), abs_neg]
  rcases lt_or_gt_of_ne hx with h | h
  · have h' : ¬ (-x < 0) := by linarith
    simp only [h, h', decide_True, decide_False, if_true, if_false]
    split_ifs with a b
    · rfl
    · rfl
    · simp [Double.neg, b]
  · have h' : ¬ (x < 0) := by linarith
    have h'' : -x < 0 := by linarith
    simp only [h', h'', decide_True, decide_False, if_true, if_false]
    split_ifs with a b
    · rfl
    · rfl
    · simp [Double.neg, b]

/-- Evaluation of `round` at a positive rational in the normal range, from the
binade `2^E ≤ x < 2^(E+1)` and the integer `m` nearest to `x / 2^(E-52)`. -/
theorem round_eq_of_near {x : ℚ} {E m : Int} (hx : 0 < x) (h1 : (2 : ℚ) ^ E ≤ x)
    (h2 : x < 2 ^ (E + 1)) (hE : -1022 ≤ E)
    (hm1 : (m : ℚ) - 1 / 2 < x / 2 ^ (E - 52)) (hm2 : x / 2 ^ (E - 52) < m + 1 / 2)
    (hm : m ≠ 0) (hbig : (m : ℚ) * 2 ^ (E - 52) < 2 ^ (1024 : ℕ)) :
    round x = Double.fin (m * 2 ^ (E - 52)) := by
  have hmag : roundMag x = m * 2 ^ (E - 52) := by
    unfold roundMag
    rw [ulpExp_eq hx h1 h2 hE, roundHalfEven_eq_of_near hm1 hm2]
  have hne : roundMag x ≠ 0 := by
    rw [hmag]
    exact mul_ne_zero (by exact_mod_cast hm) (two_zpow_pos _).ne'
  rw [round_of_pos hx (by rw [hmag]; exact hbig) hne, hmag]

/-- A positive rational in the normal range that is an integer multiple of its
unit in the last place is left unchanged by rounding. -/
theorem round_eq_self {x : ℚ} {E m : Int} (hx : 0 < x) (h1 : (2 : ℚ) ^ E ≤ x)
    (h2 : x < 2 ^ (E + 1)) (hE : -1022 ≤ E) (hE' : E ≤ 1022)
    (hm : x = m * 2 ^ (E - 52)) : round x = Double.fin x := by
  have hu := two_zpow_pos (E - 52)
  have hdiv : x / 2 ^ (E - 52) = m := by rw [hm]; field_simp
  have hm0 : m ≠ 0 := by
    rintro rfl
    simp at hm
    exact hx.ne' hm
  have hbig : (m : ℚ) * 2 ^ (E - 52) < 2 ^ (1024 : ℕ) := by
    rw [← hm]
    refine lt_of_lt_of_le h2 ?_
    rw [← zpow_natCast]
    exact zpow_le_zpow_right₀ (by norm_num) (by push_cast; omega)
  rw [round_eq_of_near hx h1 h2 hE (by rw [hdiv]; linarith) (by rw [hdiv]; linarith) hm0 hbig,
    ← hm]

theorem roundMag_eq_self_of_round {b : ℚ} (hb : 0 < b) (h : round b = Double.fin b) :
    roundMag b = b := by
  unfold round at h
  rw [if_neg hb.ne', abs_of_pos hb] at h
  split_ifs at h with h1 h2 h3
  · simp [Double.signedInf] at h
    split_ifs at h
  · simp [Double.signedZero] at h
    split_ifs at h
    · exact absurd (Double.fin.inj h).symm hb.ne'
  · linarith
  · exact Double.fin.inj h

/-! ## Finite doubles of bounded magnitude -/

theorem lt_huge_of_round_self {B : ℚ} (hB : 0 < B) (hr : round B = Double.fin B) :
    B < 2 ^ (1024 : ℕ) := by
  have hm := roundMag_eq_self_of_round hB hr
  by_contra hcon
  unfold round at hr
  rw [if_neg hB.ne', abs_of_pos hB, hm, if_pos (not_lt.mp hcon)] at hr
  unfold Double.signedInf at hr
  split_ifs at hr

theorem round_absLe {x B : ℚ} (hB : 0 < B) (hr : round B = Double.fin B) (hx : |x| ≤ B) :
    (round x).absLe B := by
  have hm := roundMag_eq_self_of_round hB hr
  have hbig := lt_huge_of_round_self hB hr
  unfold round
  by_cases h0 : x = 0
  · rw [if_pos h0]
    simpa [Double.absLe] using hB.le
  · rw [if_neg h0]
    have hle : roundMag |x| ≤ B := roundMag_le_of_le (abs_pos.mpr h0) hx hm
    have hnn : 0 ≤ roundMag |x| := roundMag_nonneg (abs_nonneg x)
    rw [if_neg (not_le.mpr (lt_of_le_of_lt hle hbig))]
    split_ifs with h1 h2
    · unfold Double.signedZero
      split_ifs <;> simpa [Double.absLe] using hB.le
    · simpa [Double.absLe, abs_of_nonneg hnn] using hle
    · simpa [Double.absLe, abs_of_nonneg hnn] using hle

theorem absLe_nonneg {d : Double} {B : ℚ} (h : d.absLe B) : 0 ≤ B := by
  cases d <;> simp only [Double.absLe] at h
  · exact h
  · exact (abs_nonneg _).trans h

theorem absLe_cases {d : Double} {B : ℚ} (h : d.absLe B) :
    d = Double.negZero ∨ ∃ q, d = Double.fin q ∧ |q| ≤ B := by
  cases d <;> simp only [Double.absLe] at h
  · exact Or.inl rfl
  · exact Or.inr ⟨_, rfl, h⟩

theorem signedZero_absLe (s : Bool) {B : ℚ} (hB : 0 ≤ B) : (Double.signedZero s).absLe B := by
  unfold Double.signedZero
  split_ifs <;> simpa [Double.absLe] using hB

theorem mul_absLe {a M : Double} {B : ℚ} (hB : 0 < B) (hr : round B = Double.fin B)
    (ha : a.absLe 1) (hM : M.absLe B) : (a.mul M).absLe B := by
  rcases absLe_cases ha with rfl | ⟨qa, rfl, hqa⟩ <;>
    rcases absLe_cases hM with rfl | ⟨qM, rfl, hqM⟩
  · simpa [Double.mul, Double.isNaN, Double.isInf, Double.isZero] using
      signedZero_absLe _ hB.le
  · simpa [Double.mul, Double.isNaN, Double.isInf, Double.isZero] using
      signedZero_absLe _ hB.le
  · simpa [Double.mul, Double.isNaN, Double.isInf, Double.isZero] using
      signedZero_absLe _ hB.le
  · simp only [Double.mul, Double.isNaN, Double.isInf, Double.isZero, Bool.or_self,
      Bool.false_eq_true, if_false, Double.toRat]
    split_ifs
    · exact signedZero_absLe _ hB.le
    · apply round_absLe hB hr
      rw [abs_mul]
      calc |qa| * |qM| ≤ 1 * B := mul_le_mul hqa hqM (abs_nonneg _) (by norm_num)
        _ = B := one_mul B

theorem round_one : round 1 = Double.fin 1 :=
  round_eq_self (E := 0) (m := 2 ^ 52) (by norm_num) (by norm_num) (by norm_num) (by norm_num)
    (by norm_num) (by norm_num)

theorem round_two : round 2 = Double.fin 2 :=
  round_eq_self (E := 1) (m := 2 ^ 52) (by norm_num) (by norm_num) (by norm_num) (by norm_num)
    (by norm_num) (by norm_num)

theorem round_32767 : round 32767 = Double.fin 32767 :=
  round_eq_self (E := 14) (m := 32767 * 2 ^ 38) (by norm_num) (by norm_num) (by norm_num)
    (by norm_num) (by norm_num) (by norm_num)

theorem clamp_absLe {v : Double} (h : v.isNaN = false) :
    (std.clamp v (Double.fin (-1)) (Double.fin 1)).absLe 1 := by
  cases v with
  | nan => simp [Double.isNaN] at h
  | posInf => simp [std.clamp, Double.lt, Double.absLe]
  | negInf => simp [std.clamp, Double.lt, Double.absLe]
  | negZero => norm_num [std.clamp, Double.lt, Double.absLe, Double.toRat]
  | fin q =>
    simp only [std.clamp, Double.lt, Double.toRat]
    split_ifs with h1 h2
    · simp [Double.absLe]
    · simp [Double.absLe]
    · simp only [decide_eq_true_eq, not_lt] at h1 h2
      simpa [Double.absLe, abs_le] using And.intro h1 h2

theorem static_cast_of_absLe {d : Double} (h : d.absLe 32767) :
    ∃ c, static_cast_int16 d = some c ∧ -32767 ≤ c ∧ c ≤ 32767 := by
  rcases absLe_cases h with rfl | ⟨q, rfl, hq⟩
  · exact ⟨0, rfl, by norm_num, by norm_num⟩
  · have hfit : fitsInt16 q := fitsInt16_of_abs_le hq le_rfl
    refine ⟨truncToZero q, by simp [static_cast_int16, hfit], ?_⟩
    have h1 : |(truncToZero q : ℚ)| ≤ 32767 := (abs_truncToZero_le q).trans hq
    rw [abs_le] at h1
    constructor
    · exact_mod_cast h1.1
    · exact_mod_cast h1.2

/-! ## The operations as pairs of conversions -/

theorem sendPair_some (w : World) (mk : Int → MotorCall) (a b : Int) :
    w.sendPair mk (some a) (some b) = some (w.record [(Side.left, mk a), (Side.right, mk b)]) :=
  rfl

theorem sendPair_none_left (w : World) (mk : Int → MotorCall) (r : Option Int) :
    w.sendPair mk none r = none := by
  cases r <;> rfl

theorem sendPair_none_right (w : World) (mk : Int → MotorCall) (l : Option Int) :
    w.sendPair mk l none = none := by
  cases l <;> rfl

theorem sendPair_eq_some {w w' : World} {mk : Int → MotorCall} {l r : Option Int}
    (h : w.sendPair mk l r = some w') :
    ∃ a b, l = some a ∧ r = some b ∧ w' = w.record [(Side.left, mk a), (Side.right, mk b)] := by
  cases l with
  | none => rw [sendPair_none_left] at h; cases h
  | some a =>
    cases r with
    | none => rw [sendPair_none_right] at h; cases h
    | some b => exact ⟨a, b, rfl, rfl, (Option.some.inj h).symm⟩

theorem bind_pair_eq_sendPair (w : World) (mk : Int → MotorCall) (l r : Option Int) :
    (l.bind fun a => r.bind fun b =>
      some ((w.motor Side.left (mk a)).motor Side.right (mk b))) = w.sendPair mk l r := by
  cases l <;> cases r <;> simp [World.sendPair, motor_motor]

theorem forward_eq_sendPair (maxOutput s : Double) (w : World) :
    SkidSteerModel.forward maxOutput s w
      = w.sendPair MotorCall.moveVelocity
          (static_cast_int16 ((std.clamp s (Double.fin (-1)) (Double.fin 1)).mul maxOutput))
          (static_cast_int16 ((std.clamp s (Double.fin (-1)) (Double.fin 1)).mul maxOutput)) :=
  bind_pair_eq_sendPair w _ _ _

theorem rotate_eq_sendPair (maxOutput s : Double) (w : World) :
    SkidSteerModel.rotate maxOutput s w
      = w.sendPair MotorCall.moveVelocity
          (static_cast_int16 ((std.clamp s (Double.fin (-1)) (Double.fin 1)).mul maxOutput))
          (static_cast_int16 (((Double.fin (-1)).mul
            (std.clamp s (Double.fin (-1)) (Double.fin 1))).mul maxOutput)) :=
  bind_pair_eq_sendPair w _ _ _

theorem driveVector_eq_sendPair (maxOutput y z : Double) (w : World) :
    SkidSteerModel.driveVector maxOutput y z w
      = w.sendPair MotorCall.moveVelocity
          (static_cast_int16 ((SkidSteerModel.driveVectorOutputs y z).1.mul maxOutput))
          (static_cast_int16 ((SkidSteerModel.driveVectorOutputs y z).2.mul maxOutput)) :=
  bind_pair_eq_sendPair w _ _ _

theorem tank_eq_sendPair (maxOutput l r t : Double) (w : World) :
    SkidSteerModel.tank maxOutput l r t w
      = w.sendPair MotorCall.moveVoltage
          (static_cast_int16 ((SkidSteerModel.deadband l t).mul maxOutput))
          (static_cast_int16 ((SkidSteerModel.deadband r t).mul maxOutput)) :=
  bind_pair_eq_sendPair w _ _ _

theorem arcade_eq_sendPair (maxOutput y z t : Double) (w : World) :
    SkidSteerModel.arcade maxOutput y z t w
      = w.sendPair MotorCall.moveVoltage
          (static_cast_int16 ((std.clamp (SkidSteerModel.arcadeOutputs y z t).1
            (Double.fin (-1)) (Double.fin 1)).mul maxOutput))
          (static_cast_int16 ((std.clamp (SkidSteerModel.arcadeOutputs y z t).2
            (Double.fin (-1)) (Double.fin 1)).mul maxOutput)) :=
  bind_pair_eq_sendPair w _ _ _

theorem left_eq_map (maxOutput s : Double) (w : World) :
    SkidSteerModel.left maxOutput s w
      = (static_cast_int16 (s.mul maxOutput)).map
          fun c => w.record [(Side.left, MotorCall.moveVelocity c)] := by
  unfold SkidSteerModel.left
  cases static_cast_int16 (s.mul maxOutput) <;> simp [motor_eq_record]

theorem right_eq_map (maxOutput s : Double) (w : World) :
    SkidSteerModel.right maxOutput s w
      = (static_cast_int16 (s.mul maxOutput)).map
          fun c => w.record [(Side.right, MotorCall.moveVelocity c)] := by
  unfold SkidSteerModel.right
  cases static_cast_int16 (s.mul maxOutput) <;> simp [motor_eq_record]

/-! ## Concrete roundings and conversions -/

theorem static_cast_int16_fin {q : ℚ} (h : fitsInt16 q) :
    static_cast_int16 (Double.fin q) = some (truncToZero q) := by
  simp [static_cast_int16, h]

theorem static_cast_int16_fin_none {q : ℚ} (h : ¬ fitsInt16 q) :
    static_cast_int16 (Double.fin q) = none := by
  simp [static_cast_int16, h]

theorem static_cast_int16_int {n : Int} (h1 : -32768 ≤ n) (h2 : n ≤ 32767) :
    static_cast_int16 (Double.fin (n : ℚ)) = some n := by
  have hfit : fitsInt16 (n : ℚ) := by
    constructor
    · have : (-32768 : ℚ) ≤ n := by exact_mod_cast h1
      linarith
    · have : (n : ℚ) ≤ 32767 := by exact_mod_cast h2
      linarith
  rw [static_cast_int16_fin hfit, truncToZero_intCast]

theorem mul_fin_fin {a b : ℚ} (ha : a ≠ 0) (hb : b ≠ 0) :
    (Double.fin a).mul (Double.fin b) = round (a * b) := by
  simp [Double.mul, Double.isNaN, Double.isInf, Double.isZero, Double.toRat, ha, hb]

theorem clamp_fin_of_abs_le {q : ℚ} (h : |q| ≤ 1) :
    std.clamp (Double.fin q) (Double.fin (-1)) (Double.fin 1) = Double.fin q := by
  rw [abs_le] at h
  simp [std.clamp, Double.lt, Double.toRat, not_lt.mpr h.1, not_lt.mpr h.2]

theorem d003_mul_100 : d003.mul (Double.fin 100) = Double.fin 3 := by
  unfold d003
  rw [mul_fin_fin (by norm_num) (by norm_num)]
  have := round_eq_of_near (x := 8646911284551352 * 2 ^ (-58 : Int) * 100) (E := 1)
    (m := 6755399441055744) (by norm_num) (by norm_num) (by norm_num) (by norm_num)
    (by norm_num) (by norm_num) (by norm_num) (by norm_num)
  rw [this]
  norm_num

/-! ## The dead zone -/

theorem static_cast_signedZero (s : Bool) : static_cast_int16 (Double.signedZero s) = some 0 := by
  cases s
  · have h : fitsInt16 0 := by norm_num [fitsInt16]
    simpa [Double.signedZero, truncToZero] using static_cast_int16_fin h
  · rfl

theorem zero_mul_cases (M : Double) :
    (Double.fin 0).mul M = Double.nan ∨ ∃ s, (Double.fin 0).mul M = Double.signedZero s := by
  cases M <;> simp [Double.mul, Double.isNaN, Double.isInf, Double.isZero]

theorem static_cast_zero_mul_eq {M : Double} {c : Int}
    (h : static_cast_int16 ((Double.fin 0).mul M) = some c) : c = 0 := by
  rcases zero_mul_cases M with h0 | ⟨s, h0⟩
  · rw [h0] at h
    cases h
  · rw [h0, static_cast_signedZero] at h
    exact (Option.some.inj h).symm

theorem static_cast_zero_mul {M : Double} {B : ℚ} (hM : M.absLe B) :
    static_cast_int16 ((Double.fin 0).mul M) = some 0 := by
  rcases absLe_cases hM with rfl | ⟨q, rfl, -⟩
  · simpa [Double.mul, Double.isNaN, Double.isInf, Double.isZero] using
      static_cast_signedZero _
  · simpa [Double.mul, Double.isNaN, Double.isInf, Double.isZero] using
      static_cast_signedZero _

theorem deadband_eq_deadzone (x t : Double) :
    SkidSteerModel.deadband x t = Spec.deadzone x t := rfl

theorem deadzone_of_lt {x t : Double}
    (h : (std.abs (std.clamp x (Double.fin (-1)) (Double.fin 1))).lt t = true) :
    Spec.deadzone x t = Double.fin 0 := by
  unfold Spec.deadzone
  rw [if_pos h]

theorem deadzone_of_not_lt {x t : Double}
    (h : (std.abs (std.clamp x (Double.fin (-1)) (Double.fin 1))).lt t = false) :
    Spec.deadzone x t = std.clamp x (Double.fin (-1)) (Double.fin 1) := by
  unfold Spec.deadzone
  rw [h]
  simp

theorem lt_self_eq_false (d : Double) : d.lt d = false := by
  cases d <;> simp [Double.lt]

theorem deadzone_absLe {x : Double} (t : Double) (h : x.isNaN = false) :
    (Spec.deadzone x t).absLe 1 := by
  unfold Spec.deadzone
  split_ifs
  · simp [Double.absLe]
  · exact clamp_absLe h

/-! ## Bounds on the outputs of `driveVector` and `arcade` -/

theorem neg_fin {a : ℚ} (ha : a ≠ 0) : (Double.fin a).neg = Double.fin (-a) := by
  simp [Double.neg, ha]

theorem add_fin_fin {a b : ℚ} (ha : a ≠ 0) (hab : a + b ≠ 0) :
    (Double.fin a).add (Double.fin b) = round (a + b) := by
  simp [Double.add, Double.isNaN, Double.isInf, Double.isZero, Double.toRat, ha, hab]

theorem div_fin_fin {a b : ℚ} (ha : a ≠ 0) (hb : b ≠ 0) :
    (Double.fin a).div (Double.fin b) = round (a / b) := by
  simp [Double.div, Double.isNaN, Double.isInf, Double.isZero, Double.toRat, ha, hb]

theorem static_cast_int16_floor {q : ℚ} {n : Int} (h0 : 0 ≤ n) (h3 : n ≤ 32767)
    (h1 : (n : ℚ) ≤ q) (h2 : q < n + 1) : static_cast_int16 (Double.fin q) = some n := by
  have hn0 : (0 : ℚ) ≤ n := by exact_mod_cast h0
  have hn3 : (n : ℚ) ≤ 32767 := by exact_mod_cast h3
  have hfit : fitsInt16 q := ⟨by linarith, by linarith⟩
  rw [static_cast_int16_fin hfit, truncToZero_of_nonneg (hn0.trans h1)]
  exact congrArg some (Int.floor_eq_iff.mpr ⟨h1, h2⟩)

theorem absLe_not_nan {d : Double} {B : ℚ} (h : d.absLe B) : d.isNaN = false := by
  rcases absLe_cases h with rfl | ⟨q, rfl, -⟩ <;> rfl

theorem neg_absLe {d : Double} {B : ℚ} (h : d.absLe B) : d.neg.absLe B := by
  rcases absLe_cases h with rfl | ⟨q, rfl, hq⟩
  · simpa [Double.neg, Double.absLe] using absLe_nonneg h
  · simp only [Double.neg]
    split_ifs
    · simpa [Double.absLe] using absLe_nonneg h
    · simpa [Double.absLe] using hq

theorem add_absLe {a b : Double} (ha : a.absLe 1) (hb : b.absLe 1) : (a.add b).absLe 2 := by
  rcases absLe_cases ha with rfl | ⟨qa, rfl, hqa⟩ <;>
    rcases absLe_cases hb with rfl | ⟨qb, rfl, hqb⟩
  · simp [Double.add, Double.isNaN, Double.isInf, Double.isZero, Double.signBit,
      Double.absLe]
  · simp only [Double.add, Double.isNaN, Double.isInf, Double.isZero, Double.signBit,
      Double.toRat, Bool.or_self, Bool.false_eq_true, if_false, zero_add, Bool.true_and]
    split_ifs
    · simp [Double.absLe]
    · simp [Double.absLe]
    · simp [Double.absLe]
    · exact round_absLe (by norm_num) round_two (hqb.trans (by norm_num))
  · simp only [Double.add, Double.isNaN, Double.isInf, Double.isZero, Double.signBit,
      Double.toRat, Bool.or_self, Bool.false_eq_true, if_false, add_zero, Bool.and_true]
    split_ifs
    · simp [Double.absLe]
    · simp [Double.absLe]
    · simp [Double.absLe]
    · exact round_absLe (by norm_num) round_two (hqa.trans (by norm_num))
  · simp only [Double.add, Double.isNaN, Double.isInf, Double.isZero, Double.signBit,
      Double.toRat, Bool.or_self, Bool.false_eq_true, if_false]
    split_ifs
    · simp [Double.absLe]
    · simp [Double.absLe]
    · simp [Double.absLe]
    · apply round_absLe (by norm_num) round_two
      calc |qa + qb| ≤ |qa| + |qb| := abs_add qa qb
        _ ≤ 2 := by linarith

theorem sub_absLe {a b : Double} (ha : a.absLe 1) (hb : b.absLe 1) : (a.sub b).absLe 2 :=
  add_absLe ha (neg_absLe hb)

theorem abs_of_absLe {d : Double} {B : ℚ} (h : d.absLe B) :
    std.abs d = Double.fin |d.toRat| := by
  rcases absLe_cases h with rfl | ⟨q, rfl, -⟩ <;> simp [std.abs, Double.toRat]

theorem max_fin (a b : ℚ) :
    std.max (Double.fin a) (Double.fin b) = Double.fin (Max.max a b) := by
  unfold std.max
  simp only [Double.lt, Double.toRat, decide_eq_true_eq]
  split_ifs with h
  · rw [max_eq_right h.le]
  · rw [max_eq_left (not_lt.mp h)]

theorem div_absLe {l : Double} {B m : ℚ} (hl : l.absLe B) (hm : 0 < m)
    (hlm : |l.toRat| ≤ m) : (l.div (Double.fin m)).absLe 1 := by
  rcases absLe_cases hl with rfl | ⟨q, rfl, -⟩
  · simpa [Double.div, Double.isNaN, Double.isInf, Double.isZero, hm.ne'] using
      signedZero_absLe _ zero_le_one
  · simp only [Double.div, Double.isNaN, Double.isInf, Double.isZero, Double.toRat,
      Bool.or_self, Bool.false_eq_true, if_false, decide_eq_true_eq, if_neg hm.ne']
    split_ifs
    · exact signedZero_absLe _ zero_le_one
    · apply round_absLe one_pos round_one
      rw [abs_div, abs_of_pos hm]
      exact (div_le_one hm).mpr hlm

theorem driveVectorOutputs_absLe {y z : Double} (hy : y.isNaN = false)
    (hz : z.isNaN = false) :
    (SkidSteerModel.driveVectorOutputs y z).1.absLe 1
      ∧ (SkidSteerModel.driveVectorOutputs y z).2.absLe 1 := by
  have hl := add_absLe (clamp_absLe hy) (clamp_absLe hz)
  have hr := sub_absLe (clamp_absLe hy) (clamp_absLe hz)
  simp only [SkidSteerModel.driveVectorOutputs]
  rw [abs_of_absLe hl, abs_of_absLe hr, max_fin]
  generalize (std.clamp y (Double.fin (-1)) (Double.fin 1)).add
    (std.clamp z (Double.fin (-1)) (Double.fin 1)) = l at hl ⊢
  generalize (std.clamp y (Double.fin (-1)) (Double.fin 1)).sub
    (std.clamp z (Double.fin (-1)) (Double.fin 1)) = r at hr ⊢
  simp only [Double.gt, Double.lt, Double.toRat, decide_eq_true_eq]
  split_ifs with h
  · have hm : (0 : ℚ) < Max.max |l.toRat| |r.toRat| := lt_trans one_pos h
    exact ⟨div_absLe hl hm (le_max_left _ _), div_absLe hr hm (le_max_right _ _)⟩
  · have h' := not_lt.mp h
    have h1 : |l.toRat| ≤ 1 := (le_max_left _ _).trans h'
    have h2 : |r.toRat| ≤ 1 := (le_max_right _ _).trans h'
    constructor
    · rcases absLe_cases hl with rfl | ⟨q, rfl, -⟩
      · simp [Double.absLe]
      · simpa [Double.absLe, Double.toRat] using h1
    · rcases absLe_cases hr with rfl | ⟨q, rfl, -⟩
      · simp [Double.absLe]
      · simpa [Double.absLe, Double.toRat] using h2

theorem copysign_absLe {x y : Double} {B : ℚ} (hx : x.absLe B) :
    (std.copysign x y).absLe B := by
  have habs : (std.abs x).absLe B := by
    rcases absLe_cases hx with rfl | ⟨q, rfl, hq⟩
    · simpa [std.abs, Double.absLe] using absLe_nonneg hx
    · simpa [std.abs, Double.absLe] using hq
  unfold std.copysign
  split_ifs
  · exact neg_absLe habs
  · exact habs

theorem abs_absLe {x : Double} {B : ℚ} (hx : x.absLe B) : (std.abs x).absLe B := by
  rcases absLe_cases hx with rfl | ⟨q, rfl, hq⟩
  · simpa [std.abs, Double.absLe] using absLe_nonneg hx
  · simpa [std.abs, Double.absLe] using hq

theorem max_absLe {a b : Double} {B : ℚ} (ha : a.absLe B) (hb : b.absLe B) :
    (std.max a b).absLe B := by
  unfold std.max
  split_ifs
  · exact hb
  · exact ha

theorem arcadeOutputs_not_nan {y z : Double} (t : Double) (hy : y.isNaN = false)
    (hz : z.isNaN = false) :
    (SkidSteerModel.arcadeOutputs y z t).1.isNaN = false
      ∧ (SkidSteerModel.arcadeOutputs y z t).2.isNaN = false := by
  have hY : (SkidSteerModel.deadband y t).absLe 1 := deadzone_absLe t hy
  have hZ : (SkidSteerModel.deadband z t).absLe 1 := deadzone_absLe t hz
  have hm := absLe_not_nan (copysign_absLe (y := SkidSteerModel.deadband y t)
    (max_absLe (abs_absLe hY) (abs_absLe hZ)))
  have ha := absLe_not_nan (add_absLe hY hZ)
  have hs := absLe_not_nan (sub_absLe hY hZ)
  simp only [SkidSteerModel.arcadeOutputs]
  split_ifs <;> exact ⟨by assumption, by assumption⟩

/-! ## The outputs of `driveVector` against the spec -/

theorem driveVectorOutputs_mul_eq_spec (maxOutput y z : Double) :
    ((SkidSteerModel.driveVectorOutputs y z).1.mul maxOutput,
      (SkidSteerModel.driveVectorOutputs y z).2.mul maxOutput)
      = Spec.driveVector maxOutput y z := by
  simp only [SkidSteerModel.driveVectorOutputs, Spec.driveVector, Spec.driveVectorMag]
  split_ifs <;> rfl

theorem gt_one_not_zero {m : Double} (h : m.gt (Double.fin 1) = true) :
    m.isZero = false ∧ m.isNaN = false := by
  cases m with
  | nan => simp [Double.gt, Double.lt] at h
  | posInf => exact ⟨rfl, rfl⟩
  | negInf => simp [Double.gt, Double.lt] at h
  | negZero =>
    simp only [Double.gt, Double.lt, Double.toRat, decide_eq_true_eq] at h
    norm_num at h
  | fin q =>
    simp only [Double.gt, Double.lt, Double.toRat, decide_eq_true_eq] at h
    have hq : q ≠ 0 := by linarith
    simp [Double.isZero, Double.isNaN, hq]

theorem round_five_quarters : round (5 / 4) = Double.fin (5 / 4) :=
  round_eq_self (E := 0) (m := 5 * 2 ^ 50) (by norm_num) (by norm_num) (by norm_num)
    (by norm_num) (by norm_num) (by norm_num)

theorem round_23_32 : round (23 / 32) = Double.fin (23 / 32) :=
  round_eq_self (E := -1) (m := 23 * 2 ^ 48) (by norm_num) (by norm_num) (by norm_num)
    (by norm_num) (by norm_num) (by norm_num)

theorem round_200 : round 200 = Double.fin 200 :=
  round_eq_self (E := 7) (m := 200 * 2 ^ 45) (by norm_num) (by norm_num) (by norm_num)
    (by norm_num) (by norm_num) (by norm_num)

theorem round_23_40 :
    round (23 / 32 / (5 / 4)) = Double.fin (5179139571476070 * 2 ^ (-53 : Int)) := by
  have := round_eq_of_near (x := 23 / 32 / (5 / 4)) (E := -1) (m := 5179139571476070)
    (by norm_num) (by norm_num) (by norm_num) (by norm_num) (by norm_num) (by norm_num)
    (by norm_num) (by norm_num)
  rw [this]
  norm_num

theorem round_23_40_mul_200 :
    round (5179139571476070 * 2 ^ (-53 : Int) * 200)
      = Double.fin (8092405580431359 * 2 ^ (-46 : Int)) := by
  have := round_eq_of_near (x := 5179139571476070 * 2 ^ (-53 : Int) * 200) (E := 6)
    (m := 8092405580431359)
    (by norm_num) (by norm_num) (by norm_num) (by norm_num) (by norm_num) (by norm_num)
    (by norm_num) (by norm_num)
  rw [this]
  norm_num

theorem driveVectorOutputs_example :
    SkidSteerModel.driveVectorOutputs (Double.fin (63 / 64)) (Double.fin (17 / 64))
      = (Double.fin 1, Double.fin (5179139571476070 * 2 ^ (-53 : Int))) := by
  have hy : std.clamp (Double.fin (63 / 64)) (Double.fin (-1)) (Double.fin 1)
      = Double.fin (63 / 64) := clamp_fin_of_abs_le (by norm_num [abs_le])
  have hz : std.clamp (Double.fin (17 / 64)) (Double.fin (-1)) (Double.fin 1)
      = Double.fin (17 / 64) := clamp_fin_of_abs_le (by norm_num [abs_le])
  have hl : (Double.fin (63 / 64)).add (Double.fin (17 / 64)) = Double.fin (5 / 4) := by
    rw [add_fin_fin (by norm_num) (by norm_num)]
    norm_num
    exact round_five_quarters
  have hr : (Double.fin (63 / 64)).sub (Double.fin (17 / 64)) = Double.fin (23 / 32) := by
    unfold Double.sub
    rw [neg_fin (by norm_num), add_fin_fin (by norm_num) (by norm_num)]
    norm_num
    exact round_23_32
  have hm : std.max (std.abs (Double.fin (5 / 4))) (std.abs (Double.fin (23 / 32)))
      = Double.fin (5 / 4) := by
    simp only [std.abs, max_fin]
    rw [abs_of_pos (by norm_num : (0 : ℚ) < 5 / 4), abs_of_pos (by norm_num : (0 : ℚ) < 23 / 32),
      max_eq_left (by norm_num)]
  have hgt : (Double.fin (5 / 4)).gt (Double.fin 1) = true := by
    norm_num [Double.gt, Double.lt, Double.toRat]
  have hd1 : (Double.fin (5 / 4)).div (Double.fin (5 / 4)) = Double.fin 1 := by
    rw [div_fin_fin (by norm_num) (by norm_num)]
    norm_num
    exact round_one
  have hd2 : (Double.fin (23 / 32)).div (Double.fin (5 / 4))
      = Double.fin (5179139571476070 * 2 ^ (-53 : Int)) := by
    rw [div_fin_fin (by norm_num) (by norm_num)]
    exact round_23_40
  simp only [SkidSteerModel.driveVectorOutputs]
  rw [hy, hz, hl, hr, hm, if_pos hgt, hd1, hd2]

/-! ## NaN inputs -/

theorem eq_nan_of_isNaN {d : Double} (h : d.isNaN = true) : d = Double.nan := by
  cases d <;> simp [Double.isNaN] at h ⊢

theorem clamp_nan (lo hi : Double) : std.clamp Double.nan lo hi = Double.nan := by
  cases hi <;> simp [std.clamp, Double.lt]

theorem nan_mul (M : Double) : Double.nan.mul M = Double.nan := by
  simp [Double.mul, Double.isNaN]

theorem mul_nan (a : Double) : a.mul Double.nan = Double.nan := by
  simp [Double.mul, Double.isNaN]

theorem nan_add (b : Double) : Double.nan.add b = Double.nan := by
  simp [Double.add, Double.isNaN]

theorem add_nan (a : Double) : a.add Double.nan = Double.nan := by
  simp [Double.add, Double.isNaN]

theorem nan_sub (b : Double) : Double.nan.sub b = Double.nan := nan_add _

theorem sub_nan (a : Double) : a.sub Double.nan = Double.nan := add_nan _

theorem static_cast_clamp_nan_mul (M : Double) :
    static_cast_int16 ((std.clamp Double.nan (Double.fin (-1)) (Double.fin 1)).mul M)
      = none := by
  rw [clamp_nan, nan_mul]
  rfl

theorem deadband_nan (t : Double) : SkidSteerModel.deadband Double.nan t = Double.nan := by
  simp [SkidSteerModel.deadband, clamp_nan, std.abs, Double.lt]

theorem forward_nan (maxOutput : Double) (w : World) :
    SkidSteerModel.forward maxOutput Double.nan w = none := by
  rw [forward_eq_sendPair, static_cast_clamp_nan_mul, sendPair_none_left]

theorem rotate_nan (maxOutput : Double) (w : World) :
    SkidSteerModel.rotate maxOutput Double.nan w = none := by
  rw [rotate_eq_sendPair, static_cast_clamp_nan_mul, sendPair_none_left]

theorem driveVectorOutputs_nan {y z : Double} (h : y.isNaN = true ∨ z.isNaN = true) :
    SkidSteerModel.driveVectorOutputs y z = (Double.nan, Double.nan) := by
  rcases h with h | h <;> rw [eq_nan_of_isNaN h] <;>
    simp [SkidSteerModel.driveVectorOutputs, clamp_nan, nan_add, add_nan, nan_sub, sub_nan,
      std.abs, std.max, Double.lt, Double.gt]

theorem driveVector_nan (maxOutput : Double) {y z : Double} (w : World)
    (h : y.isNaN = true ∨ z.isNaN = true) :
    SkidSteerModel.driveVector maxOutput y z w = none := by
  rw [driveVector_eq_sendPair, driveVectorOutputs_nan h, nan_mul]
  rfl

theorem tank_nan (maxOutput : Double) {l r : Double} (t : Double) (w : World)
    (h : l.isNaN = true ∨ r.isNaN = true) :
    SkidSteerModel.tank maxOutput l r t w = none := by
  rw [tank_eq_sendPair]
  rcases h with h | h <;> rw [eq_nan_of_isNaN h, deadband_nan, nan_mul]
  · exact sendPair_none_left _ _ _
  · exact sendPair_none_right _ _ _

theorem arcadeOutputs_nan {y z : Double} (t : Double) (h : y.isNaN = true ∨ z.isNaN = true) :
    (SkidSteerModel.arcadeOutputs y z t).1 = Double.nan
      ∨ (SkidSteerModel.arcadeOutputs y z t).2 = Double.nan := by
  rcases h with h | h <;> rw [eq_nan_of_isNaN h] <;>
    simp only [SkidSteerModel.arcadeOutputs, deadband_nan, nan_add, add_nan, nan_sub,
      sub_nan] <;>
    split_ifs <;> simp

theorem arcade_nan (maxOutput : Double) {y z : Double} (t : Double) (w : World)
    (h : y.isNaN = true ∨ z.isNaN = true) :
    SkidSteerModel.arcade maxOutput y z t w = none := by
  rw [arcade_eq_sendPair]
  rcases arcadeOutputs_nan t h with h1 | h1 <;> rw [h1, static_cast_clamp_nan_mul]
  · exact sendPair_none_left _ _ _
  · exact sendPair_none_right _ _ _

/-! ## Defined conversions -/

theorem round_neg_of_round {x : ℚ} (hx : 0 < x) (h : round x = Double.fin x) :
    round (-x) = Double.fin (-x) := by
  rw [round_neg hx.ne', h, neg_fin hx.ne']

theorem static_cast_int16_ceil {q : ℚ} {n : Int} (h0 : q < 0) (h3 : -32768 ≤ n)
    (h1 : (n : ℚ) - 1 < q) (h2 : q ≤ n) : static_cast_int16 (Double.fin q) = some n := by
  have hn3 : (-32768 : ℚ) ≤ n := by exact_mod_cast h3
  have hfit : fitsInt16 q := ⟨by linarith, by linarith⟩
  rw [static_cast_int16_fin hfit, truncToZero_of_neg h0]
  exact congrArg some (Int.ceil_eq_iff.mpr ⟨h1, h2⟩)

theorem neg_one_absLe : (Double.fin (-1)).absLe 1 := by
  simp [Double.absLe]

theorem sendPair_of_absLe (w : World) (mk : Int → MotorCall) {a b : Double}
    (ha : a.absLe 32767) (hb : b.absLe 32767) :
    ∃ l r, w.sendPair mk (static_cast_int16 a) (static_cast_int16 b)
        = some (w.record [(Side.left, mk l), (Side.right, mk r)])
      ∧ (-32768 ≤ l ∧ l ≤ 32767) ∧ (-32768 ≤ r ∧ r ≤ 32767) := by
  obtain ⟨l, hl, hl1, hl2⟩ := static_cast_of_absLe ha
  obtain ⟨r, hr, hr1, hr2⟩ := static_cast_of_absLe hb
  exact ⟨l, r, by rw [hl, hr, sendPair_some], ⟨by omega, hl2⟩, ⟨by omega, hr2⟩⟩

theorem static_cast_isSome_iff (d : Double) :
    (∃ c, static_cast_int16 d = some c)
      ↔ (d = Double.negZero ∨ ∃ p, d = Double.fin p ∧ fitsInt16 p) := by
  cases d with
  | nan => simp [static_cast_int16]
  | posInf => simp [static_cast_int16]
  | negInf => simp [static_cast_int16]
  | negZero => simp [static_cast_int16]
  | fin q =>
    by_cases h : fitsInt16 q
    · simp [static_cast_int16, h]
    · simp [static_cast_int16, h]

/-! ## Negation -/

theorem neg_neg_eq (d : Double) : d.neg.neg = d := by
  cases d with
  | nan => rfl
  | posInf => rfl
  | negInf => rfl
  | negZero => simp [Double.neg]
  | fin q =>
    by_cases h : q = 0
    · simp [Double.neg, h]
    · simp [Double.neg, h]

theorem isNaN_neg (d : Double) : d.neg.isNaN = d.isNaN := by
  cases d with
  | fin q => by_cases h : q = 0 <;> simp [Double.neg, Double.isNaN, h]
  | _ => rfl

theorem isInf_neg (d : Double) : d.neg.isInf = d.isInf := by
  cases d with
  | fin q => by_cases h : q = 0 <;> simp [Double.neg, Double.isInf, h]
  | _ => rfl

theorem isZero_neg (d : Double) : d.neg.isZero = d.isZero := by
  cases d with
  | fin q => by_cases h : q = 0 <;> simp [Double.neg, Double.isZero, h]
  | _ => simp [Double.neg, Double.isZero]

theorem toRat_neg (d : Double) : d.neg.toRat = -d.toRat := by
  cases d with
  | fin q => by_cases h : q = 0 <;> simp [Double.neg, Double.toRat, h]
  | _ => simp [Double.neg, Double.toRat]

theorem signBit_neg {d : Double} (h : d.isNaN = false) : d.neg.signBit = !d.signBit := by
  cases d with
  | nan => simp [Double.isNaN] at h
  | fin q =>
    rcases lt_trichotomy q 0 with hq | hq | hq
    · have h1 : ¬ (0 : ℚ) < q := not_lt.mpr hq.le
      simp [Double.neg, Double.signBit, hq, hq.ne, h1]
    · simp [Double.neg, Double.signBit, hq]
    · have h1 : ¬ q < 0 := not_lt.mpr hq.le
      simp [Double.neg, Double.signBit, hq, hq.ne', h1]
  | _ => simp [Double.neg, Double.signBit]

theorem neg_signedZero (s : Bool) : (Double.signedZero s).neg = Double.signedZero (!s) := by
  cases s <;> simp [Double.signedZero, Double.neg]

theorem neg_signedInf (s : Bool) : (Double.signedInf s).neg = Double.signedInf (!s) := by
  cases s <;> simp [Double.signedInf, Double.neg]

theorem bne_not_left (a b : Bool) : ((!a) != b) = !(a != b) := by
  cases a <;> cases b <;> rfl

theorem bne_not_right (a b : Bool) : (a != (!b)) = !(a != b) := by
  cases a <;> cases b <;> rfl

theorem toRat_ne_zero {a : Double} (hn : a.isNaN = false) (hi : a.isInf = false)
    (h : a.isZero = false) : a.toRat ≠ 0 := by
  cases a with
  | nan => simp [Double.isNaN] at hn
  | posInf => simp [Double.isInf] at hi
  | negInf => simp [Double.isInf] at hi
  | negZero => simp [Double.isZero] at h
  | fin q => simpa [Double.isZero, Double.toRat] using h

theorem mul_neg_left (a M : Double) : a.neg.mul M = (a.mul M).neg := by
  by_cases hn : a.isNaN = true
  · rw [eq_nan_of_isNaN hn]
    simp [Double.neg, Double.mul, Double.isNaN]
  have hn' : a.isNaN = false := by simpa using hn
  unfold Double.mul
  rw [isNaN_neg, isInf_neg, isZero_neg, toRat_neg, signBit_neg hn', bne_not_left, hn']
  by_cases hM : M.isNaN = true
  · simp [hM, Double.neg]
  have hM' : M.isNaN = false := by simpa using hM
  simp only [hM', Bool.or_self, Bool.false_eq_true, if_false]
  split_ifs with h1 h2 h3
  · rfl
  · rw [neg_signedInf]
  · rw [neg_signedZero]
  · simp only [Bool.or_eq_true, not_or, Bool.not_eq_true] at h1 h3
    rw [neg_mul, round_neg (mul_ne_zero (toRat_ne_zero hn' h1.1 h3.1)
      (toRat_ne_zero hM' h1.2 h3.2))]

theorem mul_neg_right (a M : Double) : a.mul M.neg = (a.mul M).neg := by
  by_cases hn : M.isNaN = true
  · rw [eq_nan_of_isNaN hn]
    simp [Double.neg, Double.mul, Double.isNaN]
  have hn' : M.isNaN = false := by simpa using hn
  unfold Double.mul
  rw [isNaN_neg, isInf_neg, isZero_neg, toRat_neg, signBit_neg hn', bne_not_right, hn']
  by_cases hM : a.isNaN = true
  · simp [hM, Double.neg]
  have hM' : a.isNaN = false := by simpa using hM
  simp only [hM', Bool.or_self, Bool.false_eq_true, if_false]
  split_ifs with h1 h2 h3
  · rfl
  · rw [neg_signedInf]
  · rw [neg_signedZero]
  · simp only [Bool.or_eq_true, not_or, Bool.not_eq_true] at h1 h3
    rw [mul_neg, round_neg (mul_ne_zero (toRat_ne_zero hM' h1.1 h3.1)
      (toRat_ne_zero hn' h1.2 h3.2))]

theorem div_neg_left (a m : Double) : a.neg.div m = (a.div m).neg := by
  by_cases hn : a.isNaN = true
  · rw [eq_nan_of_isNaN hn]
    simp [Double.neg, Double.div, Double.isNaN]
  have hn' : a.isNaN = false := by simpa using hn
  unfold Double.div
  rw [isNaN_neg, isInf_neg, isZero_neg, toRat_neg, signBit_neg hn', bne_not_left, hn']
  by_cases hM : m.isNaN = true
  · simp [hM, Double.neg]
  have hM' : m.isNaN = false := by simpa using hM
  simp only [hM', Bool.or_self, Bool.false_eq_true, if_false]
  split_ifs with h1 h2 h3 h4 h5
  · rfl
  · rw [neg_signedInf]
  · rw [neg_signedZero]
  · rfl
  · rw [neg_signedInf]
  · rw [neg_signedZero]
  · rename_i h5
    simp only [Bool.not_eq_true] at h1 h3 h4 h5
    rw [neg_div, round_neg (div_ne_zero (toRat_ne_zero hn' h1 h5) (toRat_ne_zero hM' h3 h4))]

theorem clamp_neg (v : Double) :
    std.clamp v.neg (Double.fin (-1)) (Double.fin 1)
      = (std.clamp v (Double.fin (-1)) (Double.fin 1)).neg := by
  cases v with
  | nan => simp [Double.neg, clamp_nan]
  | posInf => norm_num [Double.neg, std.clamp, Double.lt]
  | negInf => norm_num [Double.neg, std.clamp, Double.lt]
  | negZero => norm_num [Double.neg, std.clamp, Double.lt, Double.toRat]
  | fin q =>
    by_cases h0 : q = 0
    · subst h0
      norm_num [Double.neg, std.clamp, Double.lt, Double.toRat]
    · rw [neg_fin h0]
      simp only [std.clamp, Double.lt, Double.toRat, decide_eq_true_eq]
      by_cases h1 : q < -1
      · have h2 : (1 : ℚ) < -q := by linarith
        have h3 : ¬ (-q < -1) := by linarith
        rw [if_pos h1, if_neg h3, if_pos h2]
        norm_num [Double.neg]
      · by_cases h2 : 1 < q
        · have h3 : -q < -1 := by linarith
          rw [if_neg h1, if_pos h2, if_pos h3]
          norm_num [Double.neg]
        · have h3 : ¬ (-q < -1) := by linarith
          have h4 : ¬ (1 < -q) := by linarith
          rw [if_neg h1, if_neg h2, if_neg h3, if_neg h4, neg_fin h0]

theorem abs_neg_eq (v : Double) : std.abs v.neg = std.abs v := by
  cases v with
  | fin q => by_cases h : q = 0 <;> simp [Double.neg, std.abs, h]
  | _ => simp [Double.neg, std.abs]

theorem static_cast_of_isZero {d : Double} (h : d.isZero = true) :
    static_cast_int16 d = some 0 := by
  cases d with
  | negZero => rfl
  | fin q =>
    have hq : q = 0 := by simpa [Double.isZero] using h
    subst hq
    exact static_cast_signedZero false
  | _ => simp [Double.isZero] at h

theorem static_cast_neg {d : Double} {c c' : Int} (h : static_cast_int16 d = some c)
    (h' : static_cast_int16 d.neg = some c') : c' = -c := by
  by_cases hz : d.isZero = true
  · rw [static_cast_of_isZero hz] at h
    rw [static_cast_of_isZero (by rw [isZero_neg]; exact hz)] at h'
    cases h
    cases h'
    rfl
  · cases d with
    | nan => cases h
    | posInf => cases h
    | negInf => cases h
    | negZero => simp [Double.isZero] at hz
    | fin q =>
      have hq : q ≠ 0 := by simpa [Double.isZero] using hz
      rw [neg_fin hq] at h'
      simp only [static_cast_int16] at h h'
      split_ifs at h h' with h1 h2
      cases h
      cases h'
      exact truncToZero_neg q

theorem negRel_neg (b : Double) : Double.NegRel b.neg b := Or.inl rfl

theorem negRel_symm {a b : Double} (h : Double.NegRel a b) : Double.NegRel b a := by
  rcases h with h | ⟨h1, h2⟩
  · left
    rw [h, neg_neg_eq]
  · exact Or.inr ⟨h2, h1⟩

theorem static_cast_negRel {a b : Double} {c c' : Int} (h : Double.NegRel a b)
    (ha : static_cast_int16 a = some c) (hb : static_cast_int16 b = some c') : c = -c' := by
  rcases h with h | ⟨h1, h2⟩
  · rw [h] at ha
    exact static_cast_neg hb ha
  · rw [static_cast_of_isZero h1] at ha
    rw [static_cast_of_isZero h2] at hb
    cases ha
    cases hb
    rfl

theorem clamp_of_isZero {d : Double} (h : d.isZero = true) :
    std.clamp d (Double.fin (-1)) (Double.fin 1) = d := by
  cases d with
  | negZero => norm_num [std.clamp, Double.lt, Double.toRat]
  | fin q =>
    have hq : q = 0 := by simpa [Double.isZero] using h
    subst hq
    exact clamp_fin_of_abs_le (by norm_num)
  | _ => simp [Double.isZero] at h

theorem negRel_clamp {a b : Double} (h : Double.NegRel a b) :
    Double.NegRel (std.clamp a (Double.fin (-1)) (Double.fin 1))
      (std.clamp b (Double.fin (-1)) (Double.fin 1)) := by
  rcases h with h | ⟨h1, h2⟩
  · left
    rw [h, clamp_neg]
  · right
    rw [clamp_of_isZero h1, clamp_of_isZero h2]
    exact ⟨h1, h2⟩

theorem isZero_cases {d : Double} (h : d.isZero = true) :
    d = Double.negZero ∨ d = Double.fin 0 := by
  cases d with
  | negZero => exact Or.inl rfl
  | fin q =>
    have hq : q = 0 := by simpa [Double.isZero] using h
    subst hq
    exact Or.inr rfl
  | _ => simp [Double.isZero] at h

theorem zero_mul_nan_or_zero {a : Double} (h : a.isZero = true) (M : Double) :
    (a.mul M = Double.nan ∧ (M.isNaN = true ∨ M.isInf = true))
      ∨ ((a.mul M).isZero = true ∧ M.isNaN = false ∧ M.isInf = false) := by
  rcases isZero_cases h with rfl | rfl <;> cases M <;>
    simp [Double.mul, Double.isNaN, Double.isInf, Double.isZero, Double.signedZero] <;>
    split_ifs <;> simp

theorem negRel_mul {a b : Double} (h : Double.NegRel a b) (M : Double) :
    Double.NegRel (a.mul M) (b.mul M) := by
  rcases h with h | ⟨h1, h2⟩
  · left
    rw [h, mul_neg_left]
  · rcases zero_mul_nan_or_zero h1 M with ⟨e1, hM⟩ | ⟨e1, hM⟩ <;>
      rcases zero_mul_nan_or_zero h2 M with ⟨e2, hM2⟩ | ⟨e2, hM2⟩
    · left
      rw [e1, e2]
      rfl
    · rcases hM with hM | hM
      · rw [hM2.1] at hM
        cases hM
      · rw [hM2.2] at hM
        cases hM
    · rcases hM2 with hM2 | hM2
      · rw [hM.1] at hM2
        cases hM2
      · rw [hM.2] at hM2
        cases hM2
    · exact Or.inr ⟨e1, e2⟩

/-! ## Representable values -/

theorem round_zero : round 0 = Double.fin 0 := by
  simp [round]

theorem round_neg_one : round (-1) = Double.fin (-1) :=
  round_neg_of_round one_pos round_one

theorem isDouble_fin {q : ℚ} (h : round q = Double.fin q) : (Double.fin q).IsDouble := h

theorem round_of_isDouble {q : ℚ} (h : (Double.fin q).IsDouble) : round q = Double.fin q := h

theorem isDouble_neg {d : Double} (h : d.IsDouble) : d.neg.IsDouble := by
  cases d with
  | fin q =>
    by_cases hq : q = 0
    · simp [Double.neg, hq, Double.IsDouble]
    · rw [neg_fin hq]
      show round (-q) = Double.fin (-q)
      rw [round_neg hq, round_of_isDouble h, neg_fin hq]
  | _ => simp [Double.neg, Double.IsDouble, round_zero]

theorem isDouble_clamp {v : Double} (h : v.IsDouble) :
    (std.clamp v (Double.fin (-1)) (Double.fin 1)).IsDouble := by
  unfold std.clamp
  split_ifs
  · exact round_neg_one
  · exact round_one
  · exact h

theorem isDouble_deadband {v : Double} (t : Double) (h : v.IsDouble) :
    (SkidSteerModel.deadband v t).IsDouble := by
  simp only [SkidSteerModel.deadband]
  split_ifs
  · exact round_zero
  · exact isDouble_clamp h

theorem neg_one_mul_eq_neg {c : Double} (h : c.IsDouble) : (Double.fin (-1)).mul c = c.neg := by
  cases c with
  | nan => rfl
  | posInf => simp [Double.mul, Double.isNaN, Double.isInf, Double.isZero, Double.signBit,
      Double.signedInf, Double.neg]
  | negInf => simp [Double.mul, Double.isNaN, Double.isInf, Double.isZero, Double.signBit,
      Double.signedInf, Double.neg]
  | negZero => simp [Double.mul, Double.isNaN, Double.isInf, Double.isZero, Double.signBit,
      Double.signedZero, Double.neg]
  | fin q =>
    by_cases hq : q = 0
    · subst hq
      simp [Double.mul, Double.isNaN, Double.isInf, Double.isZero, Double.signBit,
        Double.signedZero, Double.neg]
    · rw [mul_fin_fin (by norm_num) hq, neg_one_mul, round_neg hq, round_of_isDouble h]

theorem record_pair_inj {w : World} {mk : Int → MotorCall} (hmk : Function.Injective mk)
    {a b c d : Int}
    (h : w.record [(Side.left, mk a), (Side.right, mk b)]
      = w.record [(Side.left, mk c), (Side.right, mk d)]) : a = c ∧ b = d := by
  have hcalls := congrArg World.calls h
  simp only [World.record, List.append_cancel_left_eq, List.cons.injEq, Prod.mk.injEq,
    true_and, and_true] at hcalls
  exact ⟨hmk hcalls.1, hmk hcalls.2⟩

theorem moveVelocity_injective : Function.Injective MotorCall.moveVelocity := by
  intro a b h
  cases h
  rfl

theorem moveVoltage_injective : Function.Injective MotorCall.moveVoltage := by
  intro a b h
  cases h
  rfl

theorem sendPair_eq_record {w : World} {mk : Int → MotorCall} (hmk : Function.Injective mk)
    {x y : Option Int} {l r : Int}
    (h : w.sendPair mk x y = some (w.record [(Side.left, mk l), (Side.right, mk r)])) :
    x = some l ∧ y = some r := by
  obtain ⟨a, b, rfl, rfl, hw⟩ := sendPair_eq_some h
  obtain ⟨h1, h2⟩ := record_pair_inj hmk hw
  rw [h1, h2]
  exact ⟨rfl, rfl⟩

/-! ## The case split of `arcade` -/

theorem max_eq_or (a b : Double) : std.max a b = a ∨ std.max a b = b := by
  unfold std.max
  split_ifs
  · exact Or.inr rfl
  · exact Or.inl rfl

theorem abs_abs_eq (x : Double) : std.abs (std.abs x) = std.abs x := by
  cases x <;> simp [std.abs]

theorem abs_max_abs (a b : Double) :
    std.abs (std.max (std.abs a) (std.abs b)) = std.max (std.abs a) (std.abs b) := by
  rcases max_eq_or (std.abs a) (std.abs b) with h | h <;> rw [h, abs_abs_eq]

theorem copysign_eq_maxInput (y z : Double) :
    std.copysign (std.max (std.abs y) (std.abs z)) y = Spec.maxInput y z := by
  unfold std.copysign Spec.maxInput
  rw [abs_max_abs]

theorem ge_zero_eq_not_lt {d : Double} (h : d.isNaN = false) :
    d.ge (Double.fin 0) = !d.lt (Double.fin 0) := by
  unfold Double.ge
  rw [h]
  rfl

theorem arcadeOutputs_eq_allocate {y z : Double} (t : Double) (hy : y.isNaN = false)
    (hz : z.isNaN = false) :
    SkidSteerModel.arcadeOutputs y z t
      = Spec.allocate (Spec.deadzone y t) (Spec.deadzone z t) := by
  have hY : (Spec.deadzone y t).isNaN = false := absLe_not_nan (deadzone_absLe t hy)
  have hZ : (Spec.deadzone z t).isNaN = false := absLe_not_nan (deadzone_absLe t hz)
  simp only [SkidSteerModel.arcadeOutputs, Spec.allocate, deadband_eq_deadzone,
    copysign_eq_maxInput, ge_zero_eq_not_lt hY, ge_zero_eq_not_lt hZ]
  cases (Spec.deadzone y t).lt (Double.fin 0) <;>
    cases (Spec.deadzone z t).lt (Double.fin 0) <;> simp

theorem deadzone_nan (t : Double) : Spec.deadzone Double.nan t = Double.nan :=
  deadband_nan t

theorem allocate_nan {y z : Double} (h : y.isNaN = true ∨ z.isNaN = true) :
    (Spec.allocate y z).2 = Double.nan := by
  rcases h with h | h <;> rw [eq_nan_of_isNaN h] <;>
    simp [Spec.allocate, Double.ge, Double.lt, Double.isNaN, nan_sub, sub_nan]

theorem arcade_eq_spec (maxOutput y z t : Double) (w : World) :
    SkidSteerModel.arcade maxOutput y z t w
      = w.sendPair MotorCall.moveVoltage
          (static_cast_int16 (Spec.arcade maxOutput y z t).1)
          (static_cast_int16 (Spec.arcade maxOutput y z t).2) := by
  by_cases hy : y.isNaN = true
  · rw [arcade_nan maxOutput t w (Or.inl hy)]
    simp only [Spec.arcade]
    rw [allocate_nan (Or.inl (by rw [eq_nan_of_isNaN hy, deadzone_nan]; rfl)),
      static_cast_clamp_nan_mul, sendPair_none_right]
  by_cases hz : z.isNaN = true
  · rw [arcade_nan maxOutput t w (Or.inr hz)]
    simp only [Spec.arcade]
    rw [allocate_nan (Or.inr (by rw [eq_nan_of_isNaN hz, deadzone_nan]; rfl)),
      static_cast_clamp_nan_mul, sendPair_none_right]
  rw [arcade_eq_sendPair, arcadeOutputs_eq_allocate t (by simpa using hy) (by simpa using hz)]
  rfl

/-! ## `arcade` with a zero forward speed -/

theorem ge_fin (a b : ℚ) : (Double.fin a).ge (Double.fin b) = decide (b ≤ a) := by
  by_cases h : a < b
  · simp [Double.ge, Double.lt, Double.isNaN, Double.toRat, h, not_le.mpr h]
  · simp [Double.ge, Double.lt, Double.isNaN, Double.toRat, h, not_lt.mp h]

theorem lt_fin (a b : ℚ) : (Double.fin a).lt (Double.fin b) = decide (a < b) := by
  simp [Double.lt, Double.toRat]

theorem zero_add_fin {q : ℚ} (hq : q ≠ 0) (hd : (Double.fin q).IsDouble) :
    (Double.fin 0).add (Double.fin q) = Double.fin q := by
  simp [Double.add, Double.isNaN, Double.isInf, Double.isZero, Double.toRat, hq,
    round_of_isDouble hd]

theorem zero_sub_fin {q : ℚ} (hq : q ≠ 0) (hd : (Double.fin q).IsDouble) :
    (Double.fin 0).sub (Double.fin q) = Double.fin (-q) := by
  unfold Double.sub
  rw [neg_fin hq]
  exact zero_add_fin (neg_ne_zero.mpr hq) (by rw [← neg_fin hq]; exact isDouble_neg hd)

theorem maxInput_zero_fin (q : ℚ) :
    Spec.maxInput (Double.fin 0) (Double.fin q) = Double.fin |q| := by
  simp [Spec.maxInput, Double.signBit, std.abs, max_fin]

theorem allocate_zero_fin {q : ℚ} (hq : q ≠ 0) (hd : (Double.fin q).IsDouble) :
    Spec.allocate (Double.fin 0) (Double.fin q) = (Double.fin q, Double.fin (-q)) := by
  simp only [Spec.allocate, ge_fin, lt_fin, maxInput_zero_fin, zero_add_fin hq hd,
    zero_sub_fin hq hd]
  rcases lt_or_gt_of_ne hq with h | h
  · have h1 : ¬ (0 : ℚ) ≤ q := not_le.mpr h
    simp [h, h1, abs_of_neg h]
  · simp [h.le, abs_of_pos h]

theorem allocate_zero_zero :
    Spec.allocate (Double.fin 0) (Double.fin 0) = (Double.fin 0, Double.fin 0) := by
  simp [Spec.allocate, ge_fin, lt_fin, maxInput_zero_fin, Double.sub, Double.add, Double.neg,
    Double.isNaN, Double.isInf, Double.isZero, Double.signBit]

theorem allocate_zero_negZero :
    Spec.allocate (Double.fin 0) Double.negZero = (Double.fin 0, Double.fin 0) := by
  simp [Spec.allocate, Spec.maxInput, std.abs, std.max, Double.ge, Double.lt, Double.sub,
    Double.add, Double.neg, Double.isNaN, Double.isInf, Double.isZero, Double.signBit,
    Double.toRat]

theorem allocate_zero_left {z : Double} (hz : z.absLe 1) (hd : z.IsDouble) :
    Double.NegRel (Spec.allocate (Double.fin 0) z).1 z.neg
      ∧ Double.NegRel (Spec.allocate (Double.fin 0) z).2 z := by
  rcases absLe_cases hz with rfl | ⟨q, rfl, -⟩
  · rw [allocate_zero_negZero]
    exact ⟨Or.inr ⟨rfl, rfl⟩, Or.inr ⟨rfl, rfl⟩⟩
  · by_cases hq : q = 0
    · subst hq
      rw [allocate_zero_zero]
      exact ⟨Or.inr ⟨rfl, by simp [Double.neg, Double.isZero]⟩, Or.inr ⟨rfl, rfl⟩⟩
    · rw [allocate_zero_fin hq hd]
      exact ⟨Or.inl (neg_neg_eq _).symm, Or.inl (neg_fin hq).symm⟩

theorem clamp_of_absLe {d : Double} (h : d.absLe 1) :
    std.clamp d (Double.fin (-1)) (Double.fin 1) = d := by
  rcases absLe_cases h with rfl | ⟨q, rfl, hq⟩
  · exact clamp_of_isZero rfl
  · exact clamp_fin_of_abs_le hq

theorem static_cast_eq_of_negRel_neg {a b : Double} (h : Double.NegRel a b.neg) :
    static_cast_int16 a = static_cast_int16 b := by
  rcases h with h | ⟨h1, h2⟩
  · rw [h, neg_neg_eq]
  · rw [isZero_neg] at h2
    rw [static_cast_of_isZero h1, static_cast_of_isZero h2]

theorem negRel_neg_right {a b : Double} (h : Double.NegRel a b) :
    Double.NegRel a b.neg.neg := by
  rw [neg_neg_eq]
  exact h

theorem deadzone_eq_zero_not_nan {y t : Double} (h : Spec.deadzone y t = Double.fin 0) :
    y.isNaN = false := by
  cases y with
  | nan => rw [deadzone_nan] at h; cases h
  | _ => rfl

theorem arcade_of_zero_ySpeed (maxOutput : Double) {y z : Double} (t : Double) (w : World)
    (hy : Spec.deadzone y t = Double.fin 0) (hz : z.IsDouble) :
    SkidSteerModel.arcade maxOutput y z t w
      = w.sendPair MotorCall.moveVoltage
          (static_cast_int16 ((Spec.deadzone z t).mul maxOutput))
          (static_cast_int16 ((Spec.deadzone z t).mul maxOutput).neg) := by
  by_cases hn : z.isNaN = true
  · rw [arcade_nan maxOutput t w (Or.inr hn), eq_nan_of_isNaN hn, deadzone_nan, nan_mul]
    exact (sendPair_none_left _ _ _).symm
  have hn' : z.isNaN = false := by simpa using hn
  have hZ := deadzone_absLe t hn'
  have hZd : (Spec.deadzone z t).IsDouble := isDouble_deadband t hz
  obtain ⟨h1, h2⟩ := allocate_zero_left hZ hZd
  have e1 := static_cast_eq_of_negRel_neg (b := (Spec.deadzone z t).mul maxOutput) (by
    rw [← mul_neg_left]
    have := negRel_mul (negRel_clamp h1) maxOutput
    rwa [clamp_neg, clamp_of_absLe hZ] at this)
  have e2 := static_cast_eq_of_negRel_neg (b := ((Spec.deadzone z t).mul maxOutput).neg) (by
    apply negRel_neg_right
    have := negRel_mul (negRel_clamp h2) maxOutput
    rwa [clamp_of_absLe hZ] at this)
  rw [arcade_eq_sendPair, arcadeOutputs_eq_allocate t (deadzone_eq_zero_not_nan hy) hn', hy,
    e1, e2]

/-! ## A value and its negation -/

theorem round_half : round (1 / 2) = Double.fin (1 / 2) :=
  round_eq_self (E := -1) (m := 2 ^ 52) (by norm_num) (by norm_num) (by norm_num)
    (by norm_num) (by norm_num) (by norm_num)

theorem round_neg_half : round (-(1 / 2)) = Double.fin (-(1 / 2)) :=
  round_neg_of_round (by norm_num) round_half

theorem round_127_half : round (127 / 2) = Double.fin (127 / 2) :=
  round_eq_self (E := 5) (m := 127 * 2 ^ 46) (by norm_num) (by norm_num) (by norm_num)
    (by norm_num) (by norm_num) (by norm_num)

theorem half_mul_127 : (Double.fin (1 / 2)).mul (Double.fin 127) = Double.fin (127 / 2) := by
  rw [mul_fin_fin (by norm_num) (by norm_num)]
  have e : (1 / 2 * 127 : ℚ) = 127 / 2 := by norm_num
  rw [e, round_127_half]

theorem truncToZero_127_half : truncToZero (127 / 2) = 63 := by
  rw [truncToZero_of_nonneg (by norm_num)]
  exact Int.floor_eq_iff.mpr ⟨by norm_num, by norm_num⟩

theorem static_cast_neg_defined {p : ℚ} (h : |p| < 32768) :
    static_cast_int16 (Double.fin p) = some (truncToZero p)
      ∧ static_cast_int16 (Double.fin p).neg = some (-truncToZero p) := by
  have h' := abs_lt.mp h
  have hl : static_cast_int16 (Double.fin p) = some (truncToZero p) :=
    static_cast_int16_fin ⟨by linarith, h'.2⟩
  refine ⟨hl, ?_⟩
  by_cases h0 : p = 0
  · subst h0
    simp [Double.neg, static_cast_int16, truncToZero]
  · rw [neg_fin h0, static_cast_int16_fin ⟨by linarith, by linarith⟩, truncToZero_neg]

theorem sendPair_neg (w : World) (mk : Int → MotorCall) {P : Double} {l r : Int}
    (hl : static_cast_int16 P = some l) (hr : static_cast_int16 P.neg = some r) :
    w.sendPair mk (static_cast_int16 P) (static_cast_int16 P.neg)
      = some (w.record [(Side.left, mk l), (Side.right, mk (-l))]) := by
  rw [hl, hr, sendPair_some, static_cast_neg hl hr]

theorem sendPair_neg_of_absLe (w : World) (mk : Int → MotorCall) {P : Double}
    (h : P.absLe 32767) :
    ∃ l, w.sendPair mk (static_cast_int16 P) (static_cast_int16 P.neg)
      = some (w.record [(Side.left, mk l), (Side.right, mk (-l))]) := by
  obtain ⟨l, hl, -⟩ := static_cast_of_absLe h
  obtain ⟨r, hr, -⟩ := static_cast_of_absLe (neg_absLe h)
  exact ⟨l, sendPair_neg w mk hl hr⟩

theorem maxInput_zero_left {z : Double} {B : ℚ} (hz : z.absLe B) :
    std.copysign (std.max (std.abs (Double.fin 0)) (std.abs z)) (Double.fin 0) = std.abs z := by
  rw [copysign_eq_maxInput]
  rcases absLe_cases hz with rfl | ⟨q, rfl, -⟩
  · simp [Spec.maxInput, Double.signBit, std.abs, max_fin]
  · simp [Spec.maxInput, Double.signBit, std.abs, max_fin]

theorem deadband_zero_eq (t : Double) :
    SkidSteerModel.deadband (Double.fin 0) t = Double.fin 0 := by
  simp only [SkidSteerModel.deadband]
  rw [clamp_fin_of_abs_le (by norm_num)]
  split_ifs <;> rfl

/-! ## Negated inputs -/

theorem bne_not_not (a b : Bool) : ((!a) != (!b)) = (a != b) := by
  cases a <;> cases b <;> rfl

theorem negRel_nan : Double.NegRel Double.nan Double.nan := Or.inl rfl

theorem add_neg_neg (a b : Double) : Double.NegRel (a.neg.add b.neg) (a.add b) := by
  by_cases ha : a.isNaN = true
  · rw [eq_nan_of_isNaN ha]
    simp only [Double.neg, nan_add]
    exact negRel_nan
  by_cases hb : b.isNaN = true
  · rw [eq_nan_of_isNaN hb]
    simp only [Double.neg, add_nan]
    exact negRel_nan
  have ha' : a.isNaN = false := by simpa using ha
  have hb' : b.isNaN = false := by simpa using hb
  unfold Double.add
  rw [isNaN_neg, isNaN_neg, isInf_neg, isInf_neg, isZero_neg, isZero_neg, toRat_neg,
    toRat_neg, signBit_neg ha', signBit_neg hb', bne_not_not, ha', hb']
  simp only [Bool.or_self, Bool.false_eq_true, if_false]
  by_cases hia : a.isInf = true
  · rw [if_pos hia, if_pos hia]
    split_ifs
    · exact negRel_nan
    · exact negRel_neg a
  rw [if_neg hia, if_neg hia]
  by_cases hib : b.isInf = true
  · rw [if_pos hib, if_pos hib]
    exact negRel_neg b
  rw [if_neg hib, if_neg hib]
  by_cases hz : (a.isZero && b.isZero) = true
  · rw [if_pos hz, if_pos hz]
    right
    constructor <;> split_ifs <;> rfl
  rw [if_neg hz, if_neg hz]
  have hsum : -a.toRat + -b.toRat = -(a.toRat + b.toRat) := by ring
  rw [hsum]
  by_cases h0 : a.toRat + b.toRat = 0
  · rw [if_pos h0, if_pos (by rw [h0, neg_zero])]
    exact Or.inr ⟨rfl, rfl⟩
  · rw [if_neg h0, if_neg (neg_ne_zero.mpr h0), round_neg h0]
    exact Or.inl rfl

theorem sub_neg_neg (a b : Double) : Double.NegRel (a.neg.sub b.neg) (a.sub b) :=
  add_neg_neg a b.neg

theorem abs_of_isZero {d : Double} (h : d.isZero = true) : std.abs d = Double.fin 0 := by
  rcases isZero_cases h with rfl | rfl <;> simp [std.abs]

theorem negRel_abs {a b : Double} (h : Double.NegRel a b) : std.abs a = std.abs b := by
  rcases h with h | ⟨h1, h2⟩
  · rw [h, abs_neg_eq]
  · rw [abs_of_isZero h1, abs_of_isZero h2]

theorem zero_div_nan_or_zero {a : Double} (h : a.isZero = true) (m : Double) :
    (a.div m = Double.nan ∧ (m.isNaN = true ∨ m.isZero = true))
      ∨ ((a.div m).isZero = true ∧ m.isNaN = false ∧ m.isZero = false) := by
  rcases isZero_cases h with rfl | rfl <;> cases m <;>
    simp [Double.div, Double.isNaN, Double.isInf, Double.isZero, Double.signedZero] <;>
    split_ifs <;> simp_all

theorem negRel_div {a b : Double} (h : Double.NegRel a b) (m : Double) :
    Double.NegRel (a.div m) (b.div m) := by
  rcases h with h | ⟨h1, h2⟩
  · left
    rw [h, div_neg_left]
  · rcases zero_div_nan_or_zero h1 m with ⟨e1, hM⟩ | ⟨e1, hM⟩ <;>
      rcases zero_div_nan_or_zero h2 m with ⟨e2, hM2⟩ | ⟨e2, hM2⟩
    · left
      rw [e1, e2]
      rfl
    · rcases hM with hM | hM
      · rw [hM2.1] at hM
        cases hM
      · rw [hM2.2] at hM
        cases hM
    · rcases hM2 with hM2 | hM2
      · rw [hM.1] at hM2
        cases hM2
      · rw [hM.2] at hM2
        cases hM2
    · exact Or.inr ⟨e1, e2⟩

theorem deadband_negRel (s t : Double) :
    Double.NegRel (SkidSteerModel.deadband s.neg t) (SkidSteerModel.deadband s t) := by
  simp only [SkidSteerModel.deadband]
  rw [clamp_neg, abs_neg_eq]
  split_ifs
  · exact Or.inr ⟨rfl, rfl⟩
  · exact Or.inl rfl

theorem driveVectorOutputs_negRel (y z : Double) :
    Double.NegRel (SkidSteerModel.driveVectorOutputs y.neg z.neg).1
        (SkidSteerModel.driveVectorOutputs y z).1
      ∧ Double.NegRel (SkidSteerModel.driveVectorOutputs y.neg z.neg).2
        (SkidSteerModel.driveVectorOutputs y z).2 := by
  simp only [SkidSteerModel.driveVectorOutputs]
  rw [clamp_neg, clamp_neg]
  have hl := add_neg_neg (std.clamp y (Double.fin (-1)) (Double.fin 1))
    (std.clamp z (Double.fin (-1)) (Double.fin 1))
  have hr := sub_neg_neg (std.clamp y (Double.fin (-1)) (Double.fin 1))
    (std.clamp z (Double.fin (-1)) (Double.fin 1))
  rw [negRel_abs hl, negRel_abs hr]
  split_ifs
  · exact ⟨negRel_div hl _, negRel_div hr _⟩
  · exact ⟨hl, hr⟩

theorem commands_negRel {mk : Int → MotorCall} (hmk : Function.Injective mk) {w : World}
    {a b a' b' : Double} {l r l' r' : Int} (ha : Double.NegRel a' a) (hb : Double.NegRel b' b)
    (h : w.sendPair mk (static_cast_int16 a) (static_cast_int16 b)
      = some (w.record [(Side.left, mk l), (Side.right, mk r)]))
    (h' : w.sendPair mk (static_cast_int16 a') (static_cast_int16 b')
      = some (w.record [(Side.left, mk l'), (Side.right, mk r')])) :
    l' = -l ∧ r' = -r := by
  obtain ⟨h1, h2⟩ := sendPair_eq_record hmk h
  obtain ⟨h1', h2'⟩ := sendPair_eq_record hmk h'
  exact ⟨static_cast_negRel ha h1' h1, static_cast_negRel hb h2' h2⟩

/-! ## Negated inputs of `arcade` -/

theorem negRel_of_both {a a' z : Double} (h : Double.NegRel a z.neg) (h' : Double.NegRel a' z) :
    Double.NegRel a' a := by
  rcases h with h | ⟨h1, h2⟩
  · rw [neg_neg_eq] at h
    rw [h]
    exact h'
  · rw [isZero_neg] at h2
    rcases h' with h' | ⟨h3, -⟩
    · right
      exact ⟨by rw [h', isZero_neg]; exact h2, h1⟩
    · exact Or.inr ⟨h3, h1⟩

theorem maxInput_neg {y : Double} (z : Double) (hy : y.isNaN = false) :
    Spec.maxInput y.neg z.neg = (Spec.maxInput y z).neg := by
  unfold Spec.maxInput
  rw [abs_neg_eq, abs_neg_eq, signBit_neg hy]
  cases y.signBit
  · simp
  · simp [neg_neg_eq]

theorem sub_zero_fin {q : ℚ} (hq : q ≠ 0) (hd : (Double.fin q).IsDouble) {z : Double}
    (hz : z.isZero = true) : (Double.fin q).sub z = Double.fin q := by
  rcases isZero_cases hz with rfl | rfl <;>
    simp [Double.sub, Double.neg, Double.add, Double.isNaN, Double.isInf, Double.isZero,
      Double.toRat, hq, round_of_isDouble hd]

theorem add_zero_fin {q : ℚ} (hq : q ≠ 0) (hd : (Double.fin q).IsDouble) {z : Double}
    (hz : z.isZero = true) : (Double.fin q).add z = Double.fin q := by
  rcases isZero_cases hz with rfl | rfl <;>
    simp [Double.add, Double.isNaN, Double.isInf, Double.isZero, Double.toRat, hq,
      round_of_isDouble hd]

theorem maxInput_fin_zero {q : ℚ} (hq : q ≠ 0) {z : Double} (hz : z.isZero = true) :
    Spec.maxInput (Double.fin q) z = Double.fin q := by
  unfold Spec.maxInput
  rw [abs_of_isZero hz]
  simp only [std.abs, max_fin, Double.signBit, decide_eq_true_eq,
    max_eq_left (abs_nonneg q)]
  split_ifs with h
  · rw [neg_fin (abs_ne_zero.mpr hq), abs_of_neg h, neg_neg]
  · rw [abs_of_nonneg (not_lt.mp h)]

theorem allocate_fin_zero {q : ℚ} (hq : q ≠ 0) (hd : (Double.fin q).IsDouble) {z : Double}
    (hz : z.isZero = true) :
    Spec.allocate (Double.fin q) z = (Double.fin q, Double.fin q) := by
  simp only [Spec.allocate, maxInput_fin_zero hq hz, sub_zero_fin hq hd hz,
    add_zero_fin hq hd hz]
  split_ifs <;> rfl

theorem allocate_same_sign {q r : ℚ} (h : (0 < q ∧ 0 < r) ∨ (q < 0 ∧ r < 0)) :
    Spec.allocate (Double.fin q) (Double.fin r)
      = (Spec.maxInput (Double.fin q) (Double.fin r), (Double.fin q).sub (Double.fin r)) := by
  simp only [Spec.allocate, ge_fin, lt_fin]
  rcases h with ⟨h1, h2⟩ | ⟨h1, h2⟩
  · simp [h1.le, h2.le]
  · simp [h1, h2, not_le.mpr h1, not_le.mpr h2]

theorem allocate_opposite_sign {q r : ℚ} (h : (0 < q ∧ r < 0) ∨ (q < 0 ∧ 0 < r)) :
    Spec.allocate (Double.fin q) (Double.fin r)
      = ((Double.fin q).add (Double.fin r), Spec.maxInput (Double.fin q) (Double.fin r)) := by
  simp only [Spec.allocate, ge_fin, lt_fin]
  rcases h with ⟨h1, h2⟩ | ⟨h1, h2⟩
  · simp [h1.le, h2, not_le.mpr h2]
  · simp [h1, h2.le, not_le.mpr h1]

theorem allocate_neg_neg {q r : ℚ} (hq : q ≠ 0) (hr : r ≠ 0) :
    Double.NegRel (Spec.allocate (Double.fin q).neg (Double.fin r).neg).1
        (Spec.allocate (Double.fin q) (Double.fin r)).1
      ∧ Double.NegRel (Spec.allocate (Double.fin q).neg (Double.fin r).neg).2
        (Spec.allocate (Double.fin q) (Double.fin r)).2 := by
  have hm : Spec.maxInput (Double.fin q).neg (Double.fin r).neg
      = (Spec.maxInput (Double.fin q) (Double.fin r)).neg := maxInput_neg _ rfl
  have ha := add_neg_neg (Double.fin q) (Double.fin r)
  have hs := sub_neg_neg (Double.fin q) (Double.fin r)
  rcases lt_or_gt_of_ne hq with h1 | h1 <;> rcases lt_or_gt_of_ne hr with h2 | h2
  · have e := allocate_same_sign (Or.inr ⟨h1, h2⟩)
    have e' := allocate_same_sign (q := -q) (r := -r)
      (Or.inl ⟨by linarith, by linarith⟩)
    rw [← neg_fin hq, ← neg_fin hr] at e'
    rw [e, e', hm]
    exact ⟨Or.inl rfl, hs⟩
  · have e := allocate_opposite_sign (Or.inr ⟨h1, h2⟩)
    have e' := allocate_opposite_sign (q := -q) (r := -r)
      (Or.inl ⟨by linarith, by linarith⟩)
    rw [← neg_fin hq, ← neg_fin hr] at e'
    rw [e, e', hm]
    exact ⟨ha, Or.inl rfl⟩
  · have e := allocate_opposite_sign (Or.inl ⟨h1, h2⟩)
    have e' := allocate_opposite_sign (q := -q) (r := -r)
      (Or.inr ⟨by linarith, by linarith⟩)
    rw [← neg_fin hq, ← neg_fin hr] at e'
    rw [e, e', hm]
    exact ⟨ha, Or.inl rfl⟩
  · have e := allocate_same_sign (Or.inl ⟨h1, h2⟩)
    have e' := allocate_same_sign (q := -q) (r := -r)
      (Or.inr ⟨by linarith, by linarith⟩)
    rw [← neg_fin hq, ← neg_fin hr] at e'
    rw [e, e', hm]
    exact ⟨Or.inl rfl, hs⟩

theorem allocate_negRel {y y' z z' : Double}
    (hy : (y = Double.fin 0 ∧ y' = Double.fin 0) ∨ (y' = y.neg ∧ y.isZero = false))
    (hz : (z = Double.fin 0 ∧ z' = Double.fin 0) ∨ z' = z.neg)
    (hyb : y.absLe 1) (hzb : z.absLe 1) (hyd : y.IsDouble) (hzd : z.IsDouble) :
    Double.NegRel (Spec.allocate y' z').1 (Spec.allocate y z).1
      ∧ Double.NegRel (Spec.allocate y' z').2 (Spec.allocate y z).2 := by
  rcases hy with ⟨rfl, rfl⟩ | ⟨rfl, hy0⟩
  · rcases hz with ⟨rfl, rfl⟩ | rfl
    · rw [allocate_zero_zero]
      exact ⟨Or.inr ⟨rfl, rfl⟩, Or.inr ⟨rfl, rfl⟩⟩
    · obtain ⟨h1, h2⟩ := allocate_zero_left hzb hzd
      obtain ⟨h1', h2'⟩ := allocate_zero_left (neg_absLe hzb) (isDouble_neg hzd)
      rw [neg_neg_eq] at h1'
      exact ⟨negRel_of_both h1 h1', negRel_symm (negRel_of_both h2' h2)⟩
  · rcases absLe_cases hyb with rfl | ⟨q, rfl, -⟩
    · simp [Double.isZero] at hy0
    have hq : q ≠ 0 := by simpa [Double.isZero] using hy0
    by_cases hz0 : z.isZero = true
    · have hz0' : z'.isZero = true := by
        rcases hz with ⟨-, rfl⟩ | rfl
        · rfl
        · rw [isZero_neg]
          exact hz0
      rw [allocate_fin_zero hq hyd hz0, neg_fin hq,
        allocate_fin_zero (neg_ne_zero.mpr hq)
          (by rw [← neg_fin hq]; exact isDouble_neg hyd) hz0', ← neg_fin hq]
      exact ⟨Or.inl rfl, Or.inl rfl⟩
    · rcases absLe_cases hzb with rfl | ⟨r, rfl, -⟩
      · simp [Double.isZero] at hz0
      have hr : r ≠ 0 := by simpa [Double.isZero] using hz0
      rcases hz with ⟨h, -⟩ | rfl
      · exact absurd (Double.fin.inj h) hr
      · exact allocate_neg_neg hq hr

theorem clamp_isZero (v : Double) :
    (std.clamp v (Double.fin (-1)) (Double.fin 1)).isZero = v.isZero := by
  cases v with
  | nan => rw [clamp_nan]
  | posInf => norm_num [std.clamp, Double.lt, Double.isZero]
  | negInf => norm_num [std.clamp, Double.lt, Double.isZero]
  | negZero => rw [clamp_of_isZero (show Double.negZero.isZero = true from rfl)]
  | fin q =>
    simp only [std.clamp, lt_fin, decide_eq_true_eq]
    split_ifs with h1 h2
    · have : q ≠ 0 := by linarith
      norm_num [Double.isZero, this]
    · have : q ≠ 0 := by linarith
      norm_num [Double.isZero, this]
    · rfl

theorem deadzone_pair (y t : Double) :
    (Spec.deadzone y t = Double.fin 0 ∧ Spec.deadzone y.neg t = Double.fin 0)
      ∨ (Spec.deadzone y.neg t = (Spec.deadzone y t).neg
        ∧ Spec.deadzone y t = std.clamp y (Double.fin (-1)) (Double.fin 1)
        ∧ (std.abs (std.clamp y (Double.fin (-1)) (Double.fin 1))).lt t = false) := by
  unfold Spec.deadzone
  rw [clamp_neg, abs_neg_eq]
  by_cases h : (std.abs (std.clamp y (Double.fin (-1)) (Double.fin 1))).lt t = true
  · rw [if_pos h, if_pos h]
    exact Or.inl ⟨rfl, rfl⟩
  · rw [if_neg h, if_neg h]
    exact Or.inr ⟨rfl, rfl, by simpa using h⟩

theorem arcadeOutputs_negRel {y z : Double} (t : Double) (hy : y.IsDouble) (hz : z.IsDouble)
    (hyn : y.isNaN = false) (hzn : z.isNaN = false)
    (hcond : y.isZero = false ∨ (Double.fin 0).lt t = true) :
    Double.NegRel (SkidSteerModel.arcadeOutputs y.neg z.neg t).1
        (SkidSteerModel.arcadeOutputs y z t).1
      ∧ Double.NegRel (SkidSteerModel.arcadeOutputs y.neg z.neg t).2
        (SkidSteerModel.arcadeOutputs y z t).2 := by
  rw [arcadeOutputs_eq_allocate t hyn hzn,
    arcadeOutputs_eq_allocate t (by rw [isNaN_neg]; exact hyn) (by rw [isNaN_neg]; exact hzn)]
  apply allocate_negRel _ _ (deadzone_absLe t hyn) (deadzone_absLe t hzn)
    (isDouble_deadband t hy) (isDouble_deadband t hz)
  · rcases deadzone_pair y t with h | ⟨h1, h2, h3⟩
    · exact Or.inl h
    · refine Or.inr ⟨h1, ?_⟩
      rw [h2, clamp_isZero]
      rcases hcond with hc | hc
      · exact hc
      · by_contra hzero
        have hz' : y.isZero = true := by simpa using hzero
        have : (std.clamp y (Double.fin (-1)) (Double.fin 1)).isZero = true := by
          rw [clamp_isZero]
          exact hz'
        rw [abs_of_isZero this, hc] at h3
        cases h3
  · rcases deadzone_pair z t with h | ⟨h1, -, -⟩
    · exact Or.inl h
    · exact Or.inr h1

/-! ## The claims on the values sent -/

/-- C2, as amended: in binary64 arithmetic, each operation rounding to the
nearest double, `driveVector` computes `y = clamp(ySpeed,-1,1)`,
`z = clamp(zRotation,-1,1)`, `l = y + z`, `r = y - z` and `m = max(|l|,|r|)`,
and hands to the conversion to `int16_t` the values `(l/m)*maxOutput` and
`(r/m)*maxOutput` if `m > 1`, and `l*maxOutput` and `r*maxOutput` otherwise.
The division happens only when `m > 1`, when `m` is neither zero nor NaN.
Whenever both conversions are defined `driveVector` sends exactly the two
results as velocity commands, left then right, the conversion of a finite
value `p` with `-32769 < p < 32768` being truncation toward zero; whenever one
is undefined the behaviour of `driveVector` is undefined.  Both are defined
when no input is NaN and `|maxOutput| <= 32767`.  For example
`driveVector(63/64, 17/64)` with `maxOutput = 200` sends `200` and `114`. -/
theorem driveVector_sends_rescaled (maxOutput ySpeed zRotation : Double) (w : World) :
    (∀ l r, static_cast_int16 (Spec.driveVector maxOutput ySpeed zRotation).1 = some l →
        static_cast_int16 (Spec.driveVector maxOutput ySpeed zRotation).2 = some r →
        SkidSteerModel.driveVector maxOutput ySpeed zRotation w
          = some (w.record [(Side.left, MotorCall.moveVelocity l),
              (Side.right, MotorCall.moveVelocity r)]))
    ∧ (static_cast_int16 (Spec.driveVector maxOutput ySpeed zRotation).1 = none
        ∨ static_cast_int16 (Spec.driveVector maxOutput ySpeed zRotation).2 = none →
        SkidSteerModel.driveVector maxOutput ySpeed zRotation w = none)
    ∧ ((Spec.driveVectorMag ySpeed zRotation).gt (Double.fin 1) = true →
        (Spec.driveVectorMag ySpeed zRotation).isZero = false
        ∧ (Spec.driveVectorMag ySpeed zRotation).isNaN = false)
    ∧ (∀ p, fitsInt16 p → static_cast_int16 (Double.fin p) = some (truncToZero p))
    ∧ (ySpeed.isNaN = false → zRotation.isNaN = false → maxOutput.absLe 32767 →
        ∃ l r, SkidSteerModel.driveVector maxOutput ySpeed zRotation w
          = some (w.record [(Side.left, MotorCall.moveVelocity l),
              (Side.right, MotorCall.moveVelocity r)]))
    ∧ SkidSteerModel.driveVector (Double.fin 200) (Double.fin (63 / 64))
          (Double.fin (17 / 64)) w
        = some (w.record [(Side.left, MotorCall.moveVelocity 200),
            (Side.right, MotorCall.moveVelocity 114)]) := by
  have hspec := driveVectorOutputs_mul_eq_spec maxOutput ySpeed zRotation
  have h1 : (SkidSteerModel.driveVectorOutputs ySpeed zRotation).1.mul maxOutput
      = (Spec.driveVector maxOutput ySpeed zRotation).1 := congrArg Prod.fst hspec
  have h2 : (SkidSteerModel.driveVectorOutputs ySpeed zRotation).2.mul maxOutput
      = (Spec.driveVector maxOutput ySpeed zRotation).2 := congrArg Prod.snd hspec
  refine ⟨?_, ?_, ?_, ?_, ?_, ?_⟩
  · intro l r hl hr
    rw [driveVector_eq_sendPair, h1, h2, hl, hr, sendPair_some]
  · rintro (h | h)
    · rw [driveVector_eq_sendPair, h1, h2, h, sendPair_none_left]
    · rw [driveVector_eq_sendPair, h1, h2, h, sendPair_none_right]
  · exact gt_one_not_zero
  · intro p hp
    exact static_cast_int16_fin hp
  · intro hy hz hM
    obtain ⟨hl, hr⟩ := driveVectorOutputs_absLe hy hz
    obtain ⟨a, ha, -⟩ := static_cast_of_absLe (mul_absLe (by norm_num) round_32767 hl hM)
    obtain ⟨b, hb, -⟩ := static_cast_of_absLe (mul_absLe (by norm_num) round_32767 hr hM)
    exact ⟨a, b, by rw [driveVector_eq_sendPair, ha, hb, sendPair_some]⟩
  · rw [driveVector_eq_sendPair, driveVectorOutputs_example]
    have hl : (Double.fin 1).mul (Double.fin 200) = Double.fin ((200 : Int) : ℚ) := by
      rw [mul_fin_fin (by norm_num) (by norm_num), one_mul, round_200]
      norm_num
    have hr : (Double.fin (5179139571476070 * 2 ^ (-53 : Int))).mul (Double.fin 200)
        = Double.fin (8092405580431359 * 2 ^ (-46 : Int)) := by
      rw [mul_fin_fin (by norm_num) (by norm_num)]
      exact round_23_40_mul_200
    have hcr : static_cast_int16 (Double.fin (8092405580431359 * 2 ^ (-46 : Int)))
        = some 114 :=
      static_cast_int16_floor (by norm_num) (by norm_num) (by norm_num) (by norm_num)
    simp only []
    rw [hl, hr, static_cast_int16_int (by norm_num) (by norm_num), hcr, sendPair_some]

/-- C2 counterexample: with `maxOutput = 40000`, `driveVector(1, 0)` has
`l = r = 1` and `m = 1`, so no rescale, and hands `40000` to the conversion to
`int16_t` for each side.  The value is out of range, the conversion is
undefined, and `driveVector` sends no command that is the truncation of
`l*maxOutput`. -/
theorem driveVector_undefined_at_40000 :
    Spec.driveVector (Double.fin 40000) (Double.fin 1) (Double.fin 0)
        = (Double.fin 40000, Double.fin 40000)
    ∧ ¬ fitsInt16 40000
    ∧ SkidSteerModel.driveVector (Double.fin 40000) (Double.fin 1) (Double.fin 0)
        World.initial = none := by
  have hy : std.clamp (Double.fin 1) (Double.fin (-1)) (Double.fin 1) = Double.fin 1 :=
    clamp_fin_of_abs_le (by norm_num)
  have hz : std.clamp (Double.fin 0) (Double.fin (-1)) (Double.fin 1) = Double.fin 0 :=
    clamp_fin_of_abs_le (by norm_num)
  have hl : (Double.fin 1).add (Double.fin 0) = Double.fin 1 := by
    rw [add_fin_fin (by norm_num) (by norm_num), add_zero, round_one]
  have hr : (Double.fin 1).sub (Double.fin 0) = Double.fin 1 := by
    simp [Double.sub, Double.neg, Double.add, Double.isNaN, Double.isInf, Double.isZero,
      Double.toRat, round_one]
  have hmul : (Double.fin 1).mul (Double.fin 40000) = Double.fin 40000 := by
    rw [mul_fin_fin (by norm_num) (by norm_num), one_mul]
    exact round_eq_self (E := 15) (m := 40000 * 2 ^ 37) (by norm_num)
      (by norm_num) (by norm_num) (by norm_num) (by norm_num) (by norm_num)
  have hfit : ¬ fitsInt16 40000 := by norm_num [fitsInt16]
  have hspec : Spec.driveVector (Double.fin 40000) (Double.fin 1) (Double.fin 0)
      = (Double.fin 40000, Double.fin 40000) := by
    simp only [Spec.driveVector, Spec.driveVectorMag]
    rw [hy, hz, hl, hr]
    norm_num [std.abs, max_fin, Double.gt, Double.lt, Double.toRat, hmul]
  refine ⟨hspec, hfit, ?_⟩
  have hcode := driveVectorOutputs_mul_eq_spec (Double.fin 40000) (Double.fin 1)
    (Double.fin 0)
  rw [hspec] at hcode
  have hfst : (SkidSteerModel.driveVectorOutputs (Double.fin 1) (Double.fin 0)).1.mul
      (Double.fin 40000) = Double.fin 40000 := congrArg Prod.fst hcode
  rw [driveVector_eq_sendPair, hfst, static_cast_int16_fin_none hfit, sendPair_none_left]

/-- C3, as amended: in binary64 arithmetic, each operation rounding to the
nearest double, `arcade` computes `y` and `z` by clamping each input to
`[-1,1]` and then replacing it by `+0.0` if its magnitude is below `threshold`,
sets `maxInput` to `max(|y|,|z|)` with the sign bit of `y` (so negative for
`y = -0.0`), and chooses `(left, right) = (maxInput, y - z)` when `y >= 0` and
`z >= 0`, `(y + z, maxInput)` when `y >= 0` and `z < 0`, `(y + z, maxInput)`
when `y < 0` and `z >= 0`, and `(maxInput, y - z)` otherwise; it hands
`clamp(left,-1,1)*maxOutput` and `clamp(right,-1,1)*maxOutput` to the conversion
to `int16_t`.  Whenever both conversions are defined `arcade` sends exactly
their results as voltage commands, left then right, the conversion of a finite
value `p` with `-32769 < p < 32768` being truncation toward zero; whenever one
is undefined the behaviour of `arcade` is undefined.  Both are defined when no
input is NaN and `|maxOutput| <= 32767`.  In particular `arcade(0.5, 0.5, 0.0)`
sends the conversion of `0.5*maxOutput` and `0`, which is `63` and `0` for
`maxOutput = 127`. -/
theorem arcade_sends_allocation (maxOutput ySpeed zRotation threshold : Double) (w : World) :
    (∀ l r, static_cast_int16 (Spec.arcade maxOutput ySpeed zRotation threshold).1 = some l →
        static_cast_int16 (Spec.arcade maxOutput ySpeed zRotation threshold).2 = some r →
        SkidSteerModel.arcade maxOutput ySpeed zRotation threshold w
          = some (w.record [(Side.left, MotorCall.moveVoltage l),
              (Side.right, MotorCall.moveVoltage r)]))
    ∧ (static_cast_int16 (Spec.arcade maxOutput ySpeed zRotation threshold).1 = none
        ∨ static_cast_int16 (Spec.arcade maxOutput ySpeed zRotation threshold).2 = none →
        SkidSteerModel.arcade maxOutput ySpeed zRotation threshold w = none)
    ∧ (∀ p, fitsInt16 p → static_cast_int16 (Double.fin p) = some (truncToZero p))
    ∧ (ySpeed.isNaN = false → zRotation.isNaN = false → maxOutput.absLe 32767 →
        ∃ l r, SkidSteerModel.arcade maxOutput ySpeed zRotation threshold w
          = some (w.record [(Side.left, MotorCall.moveVoltage l),
              (Side.right, MotorCall.moveVoltage r)]))
    ∧ (∀ l, static_cast_int16 ((Double.fin (1 / 2)).mul maxOutput) = some l →
        SkidSteerModel.arcade maxOutput (Double.fin (1 / 2)) (Double.fin (1 / 2))
            (Double.fin 0) w
          = some (w.record [(Side.left, MotorCall.moveVoltage l),
              (Side.right, MotorCall.moveVoltage 0)]))
    ∧ SkidSteerModel.arcade (Double.fin 127) (Double.fin (1 / 2)) (Double.fin (1 / 2))
          (Double.fin 0) w
        = some (w.record [(Side.left, MotorCall.moveVoltage 63),
            (Side.right, MotorCall.moveVoltage 0)]) := by
  have hhalf : ∀ M : Double, Spec.arcade M (Double.fin (1 / 2)) (Double.fin (1 / 2))
      (Double.fin 0) = ((Double.fin (1 / 2)).mul M, (Double.fin 0).mul M) := by
    intro M
    have hd : Spec.deadzone (Double.fin (1 / 2)) (Double.fin 0) = Double.fin (1 / 2) := by
      rw [deadzone_of_not_lt, clamp_fin_of_abs_le (by norm_num [abs_le])]
      rw [clamp_fin_of_abs_le (by norm_num [abs_le])]
      norm_num [std.abs, lt_fin]
    have ha : Spec.allocate (Double.fin (1 / 2)) (Double.fin (1 / 2))
        = (Double.fin (1 / 2), Double.fin 0) := by
      norm_num [Spec.allocate, Spec.maxInput, ge_fin, lt_fin, std.abs, max_fin,
        Double.signBit, Double.sub, Double.neg, Double.add, Double.isNaN, Double.isInf,
        Double.isZero, Double.toRat]
    simp only [Spec.arcade, hd, ha]
    rw [clamp_fin_of_abs_le (by norm_num [abs_le]), clamp_fin_of_abs_le (by norm_num)]
  have hgen : ∀ M : Double, ∀ l, static_cast_int16 ((Double.fin (1 / 2)).mul M) = some l →
      SkidSteerModel.arcade M (Double.fin (1 / 2)) (Double.fin (1 / 2)) (Double.fin 0) w
        = some (w.record [(Side.left, MotorCall.moveVoltage l),
            (Side.right, MotorCall.moveVoltage 0)]) := by
    intro M l hl
    have hr : static_cast_int16 ((Double.fin 0).mul M) = some 0 := by
      cases M with
      | nan => rw [mul_nan] at hl; cases hl
      | posInf =>
        norm_num [Double.mul, Double.isNaN, Double.isInf, Double.isZero, Double.signedInf,
          Double.signBit, static_cast_int16] at hl
        cases hl
      | negInf =>
        norm_num [Double.mul, Double.isNaN, Double.isInf, Double.isZero, Double.signedInf,
          Double.signBit, static_cast_int16] at hl
        cases hl
      | negZero => exact static_cast_zero_mul (B := 0) (by simp [Double.absLe])
      | fin q => exact static_cast_zero_mul (B := |q|) (by simp [Double.absLe])
    rw [arcade_eq_spec, hhalf, hl, hr, sendPair_some]
  refine ⟨?_, ?_, ?_, ?_, hgen maxOutput, ?_⟩
  · intro l r hl hr
    rw [arcade_eq_spec, hl, hr, sendPair_some]
  · rintro (h | h)
    · rw [arcade_eq_spec, h, sendPair_none_left]
    · rw [arcade_eq_spec, h, sendPair_none_right]
  · intro p hp
    exact static_cast_int16_fin hp
  · intro hy hz hM
    obtain ⟨h1, h2⟩ := arcadeOutputs_not_nan threshold hy hz
    obtain ⟨a, ha, -⟩ := static_cast_of_absLe
      (mul_absLe (by norm_num) round_32767 (clamp_absLe h1) hM)
    obtain ⟨b, hb, -⟩ := static_cast_of_absLe
      (mul_absLe (by norm_num) round_32767 (clamp_absLe h2) hM)
    exact ⟨a, b, by rw [arcade_eq_sendPair, ha, hb, sendPair_some]⟩
  · apply hgen
    rw [mul_fin_fin (by norm_num) (by norm_num)]
    have hr : round (1 / 2 * 127) = Double.fin (127 / 2) := by
      have := round_eq_self (x := 1 / 2 * 127) (E := 5) (m := 127 * 2 ^ 46) (by norm_num)
        (by norm_num) (by norm_num) (by norm_num) (by norm_num) (by norm_num)
      rw [this]
      norm_num
    rw [hr]
    exact static_cast_int16_floor (by norm_num) (by norm_num) (by norm_num) (by norm_num)

/-- C3 counterexample: with `maxOutput = 100` and threshold `0`,
`arcade(-0.0, 1, 0)` filters nothing, has `y >= 0` and `z >= 0`, and sends
`-100` to both motors, because `copysign` gives `maxInput` the sign bit of
`-0.0`; the value `sign(y) * max(|y|,|z|)` of the claim is `+1`, for a left
command of `+100`.  And with `maxOutput = 40000`, `arcade(1, 0, 0)` hands
`40000` to the conversion to `int16_t`, which is undefined: no command is the
truncation of `clamp(left,-1,1)*maxOutput`. -/
theorem arcade_negative_zero_left :
    SkidSteerModel.deadband Double.negZero (Double.fin 0) = Double.negZero
    ∧ Double.negZero.ge (Double.fin 0) = true
    ∧ (Double.fin 1).ge (Double.fin 0) = true
    ∧ SkidSteerModel.arcade (Double.fin 100) Double.negZero (Double.fin 1) (Double.fin 0)
          World.initial
        = some (World.initial.record [(Side.left, MotorCall.moveVoltage (-100)),
            (Side.right, MotorCall.moveVoltage (-100))])
    ∧ (Spec.signValue Double.negZero).mul
          (std.max (std.abs Double.negZero) (std.abs (Double.fin 1))) = Double.fin 1
    ∧ static_cast_int16
          ((std.clamp (Double.fin 1) (Double.fin (-1)) (Double.fin 1)).mul (Double.fin 100))
        = some 100
    ∧ SkidSteerModel.arcade (Double.fin 40000) (Double.fin 1) (Double.fin 0) (Double.fin 0)
          World.initial = none := by
  have hdz : SkidSteerModel.deadband Double.negZero (Double.fin 0) = Double.negZero := by
    norm_num [SkidSteerModel.deadband, std.clamp, std.abs, Double.lt, Double.toRat]
  have hd1 : SkidSteerModel.deadband (Double.fin 1) (Double.fin 0) = Double.fin 1 := by
    norm_num [SkidSteerModel.deadband, std.clamp, std.abs, Double.lt, Double.toRat]
  have hd0 : SkidSteerModel.deadband (Double.fin 0) (Double.fin 0) = Double.fin 0 := by
    norm_num [SkidSteerModel.deadband, std.clamp, std.abs, Double.lt, Double.toRat]
  have hout : SkidSteerModel.arcadeOutputs Double.negZero (Double.fin 1) (Double.fin 0)
      = (Double.fin (-1), Double.fin (-1)) := by
    simp only [SkidSteerModel.arcadeOutputs, hdz, hd1]
    norm_num [std.copysign, std.max, std.abs, Double.ge, Double.lt, Double.sub, Double.add,
      Double.neg, Double.isNaN, Double.isInf, Double.isZero, Double.signBit, Double.toRat,
      round_neg_one]
  have hout2 : SkidSteerModel.arcadeOutputs (Double.fin 1) (Double.fin 0) (Double.fin 0)
      = (Double.fin 1, Double.fin 1) := by
    simp only [SkidSteerModel.arcadeOutputs, hd1, hd0]
    norm_num [std.copysign, std.max, std.abs, Double.ge, Double.lt, Double.sub, Double.add,
      Double.neg, Double.isNaN, Double.isInf, Double.isZero, Double.signBit, Double.toRat,
      round_one]
  have hc1 : std.clamp (Double.fin 1) (Double.fin (-1)) (Double.fin 1) = Double.fin 1 :=
    clamp_fin_of_abs_le (by norm_num)
  have hcm : std.clamp (Double.fin (-1)) (Double.fin (-1)) (Double.fin 1) = Double.fin (-1) :=
    clamp_fin_of_abs_le (by norm_num)
  have hm100 : (Double.fin (-1)).mul (Double.fin 100) = Double.fin (((-100 : Int)) : ℚ) := by
    rw [mul_fin_fin (by norm_num) (by norm_num)]
    have h := round_neg_of_round (x := 100) (by norm_num)
      (round_eq_self (E := 6) (m := 100 * 2 ^ 46) (by norm_num) (by norm_num) (by norm_num)
        (by norm_num) (by norm_num) (by norm_num))
    have e : (-1 * 100 : ℚ) = -100 := by norm_num
    rw [e, h]
    norm_num
  have hp100 : (Double.fin 1).mul (Double.fin 100) = Double.fin (((100 : Int)) : ℚ) := by
    rw [mul_fin_fin (by norm_num) (by norm_num), one_mul]
    have h := round_eq_self (x := 100) (E := 6) (m := 100 * 2 ^ 46) (by norm_num)
      (by norm_num) (by norm_num) (by norm_num) (by norm_num) (by norm_num)
    rw [h]
    norm_num
  have h40 : (Double.fin 1).mul (Double.fin 40000) = Double.fin 40000 := by
    rw [mul_fin_fin (by norm_num) (by norm_num), one_mul]
    exact round_eq_self (E := 15) (m := 40000 * 2 ^ 37) (by norm_num)
      (by norm_num) (by norm_num) (by norm_num) (by norm_num) (by norm_num)
  refine ⟨hdz, by norm_num [Double.ge, Double.lt, Double.isNaN, Double.toRat],
    by norm_num [ge_fin], ?_, ?_, ?_, ?_⟩
  · rw [arcade_eq_sendPair, hout]
    simp only []
    rw [hcm, hm100, static_cast_int16_int (by norm_num) (by norm_num), sendPair_some]
  · norm_num [Spec.signValue, std.max, std.abs, Double.lt, Double.toRat, Double.mul,
      Double.isNaN, Double.isInf, Double.isZero, round_one]
  · rw [hc1, hp100]
    exact static_cast_int16_int (by norm_num) (by norm_num)
  · rw [arcade_eq_sendPair, hout2]
    simp only []
    rw [hc1, h40, static_cast_int16_fin_none (by norm_num [fitsInt16]), sendPair_none_left]

/-- C4, as amended: in binary64 arithmetic `tank` hands to the conversion to
`int16_t`, for each side, the rounded product `d*maxOutput`, where `d` is that
side's speed after the dead zone: `+0.0` when the magnitude of the speed
clamped to `[-1,1]` is strictly below `threshold`, and the clamped speed
otherwise, in particular when the magnitude equals `threshold`.  Each side's
value depends on that side's speed only.  Whenever both conversions are
defined `tank` sends exactly the two results as voltage commands, left then
right, a zeroed side receiving `0`; whenever one is undefined the behaviour of
`tank` is undefined.  Both are defined when no speed is NaN and
`|maxOutput| <= 32767`.  In particular `tank(0.05, -0.05, 0.1)` sends `0` to
both sides for every finite `maxOutput`. -/
theorem tank_sends_deadzone (maxOutput leftSpeed rightSpeed threshold : Double) (w : World) :
    (∀ l r, static_cast_int16 ((Spec.deadzone leftSpeed threshold).mul maxOutput) = some l →
        static_cast_int16 ((Spec.deadzone rightSpeed threshold).mul maxOutput) = some r →
        SkidSteerModel.tank maxOutput leftSpeed rightSpeed threshold w
          = some (w.record [(Side.left, MotorCall.moveVoltage l),
              (Side.right, MotorCall.moveVoltage r)]))
    ∧ (static_cast_int16 ((Spec.deadzone leftSpeed threshold).mul maxOutput) = none
        ∨ static_cast_int16 ((Spec.deadzone rightSpeed threshold).mul maxOutput) = none →
        SkidSteerModel.tank maxOutput leftSpeed rightSpeed threshold w = none)
    ∧ (∀ speed c,
        (std.abs (std.clamp speed (Double.fin (-1)) (Double.fin 1))).lt threshold = true →
        static_cast_int16 ((Spec.deadzone speed threshold).mul maxOutput) = some c → c = 0)
    ∧ (∀ speed,
        (std.abs (std.clamp speed (Double.fin (-1)) (Double.fin 1))).lt threshold = false →
        Spec.deadzone speed threshold = std.clamp speed (Double.fin (-1)) (Double.fin 1))
    ∧ (∀ speed, std.abs (std.clamp speed (Double.fin (-1)) (Double.fin 1)) = threshold →
        Spec.deadzone speed threshold = std.clamp speed (Double.fin (-1)) (Double.fin 1))
    ∧ (∀ p, fitsInt16 p → static_cast_int16 (Double.fin p) = some (truncToZero p))
    ∧ (leftSpeed.isNaN = false → rightSpeed.isNaN = false → maxOutput.absLe 32767 →
        ∃ l r, SkidSteerModel.tank maxOutput leftSpeed rightSpeed threshold w
          = some (w.record [(Side.left, MotorCall.moveVoltage l),
              (Side.right, MotorCall.moveVoltage r)]))
    ∧ (∀ B, maxOutput.absLe B →
        SkidSteerModel.tank maxOutput d005 d005.neg d01 w
          = some (w.record [(Side.left, MotorCall.moveVoltage 0),
              (Side.right, MotorCall.moveVoltage 0)])) := by
  refine ⟨?_, ?_, ?_, ?_, ?_, ?_, ?_, ?_⟩
  · intro l r hl hr
    rw [tank_eq_sendPair, deadband_eq_deadzone, deadband_eq_deadzone, hl, hr, sendPair_some]
  · rintro (h | h)
    · rw [tank_eq_sendPair, deadband_eq_deadzone, deadband_eq_deadzone, h, sendPair_none_left]
    · rw [tank_eq_sendPair, deadband_eq_deadzone, deadband_eq_deadzone, h,
        sendPair_none_right]
  · intro speed c hlt hc
    rw [deadzone_of_lt hlt] at hc
    exact static_cast_zero_mul_eq hc
  · intro speed h
    exact deadzone_of_not_lt h
  · intro speed h
    apply deadzone_of_not_lt
    rw [h]
    exact lt_self_eq_false threshold
  · intro p hp
    exact static_cast_int16_fin hp
  · intro hl hr hM
    obtain ⟨a, ha, -⟩ := static_cast_of_absLe
      (mul_absLe (by norm_num) round_32767 (deadzone_absLe threshold hl) hM)
    obtain ⟨b, hb, -⟩ := static_cast_of_absLe
      (mul_absLe (by norm_num) round_32767 (deadzone_absLe threshold hr) hM)
    exact ⟨a, b, by
      rw [tank_eq_sendPair, deadband_eq_deadzone, deadband_eq_deadzone, ha, hb,
        sendPair_some]⟩
  · intro B hB
    have h1 : Spec.deadzone d005 d01 = Double.fin 0 := by
      norm_num [Spec.deadzone, d005, d01, std.clamp, std.abs, Double.lt, Double.toRat,
        abs_lt]
    have h2 : Spec.deadzone d005.neg d01 = Double.fin 0 := by
      norm_num [Spec.deadzone, d005, d01, std.clamp, std.abs, Double.lt, Double.toRat,
        Double.neg, abs_lt]
    rw [tank_eq_sendPair, deadband_eq_deadzone, deadband_eq_deadzone, h1, h2,
      static_cast_zero_mul hB, sendPair_some]

/-- C4 counterexample: with `maxOutput = 40000` and threshold `0`, `tank(1, 1, 0)`
hands `40000` to the conversion to `int16_t` for each side.  The value is out of
range, the conversion is undefined, and `tank` sends no command that is the
truncation of `clamp(speed,-1,1)*maxOutput`. -/
theorem tank_undefined_at_40000 :
    (std.clamp (Double.fin 1) (Double.fin (-1)) (Double.fin 1)).mul (Double.fin 40000)
        = Double.fin 40000
    ∧ (std.abs (std.clamp (Double.fin 1) (Double.fin (-1)) (Double.fin 1))).lt (Double.fin 0)
        = false
    ∧ ¬ fitsInt16 40000
    ∧ SkidSteerModel.tank (Double.fin 40000) (Double.fin 1) (Double.fin 1) (Double.fin 0)
        World.initial = none := by
  have hcl : std.clamp (Double.fin 1) (Double.fin (-1)) (Double.fin 1) = Double.fin 1 :=
    clamp_fin_of_abs_le (by norm_num)
  have hmul : (Double.fin 1).mul (Double.fin 40000) = Double.fin 40000 := by
    rw [mul_fin_fin (by norm_num) (by norm_num), one_mul]
    exact round_eq_self (E := 15) (m := 40000 * 2 ^ 37) (by norm_num)
      (by norm_num) (by norm_num) (by norm_num) (by norm_num) (by norm_num)
  have hlt : (std.abs (Double.fin 1)).lt (Double.fin 0) = false := by
    norm_num [std.abs, Double.lt, Double.toRat]
  have hfit : ¬ fitsInt16 40000 := by norm_num [fitsInt16]
  have hd : Spec.deadzone (Double.fin 1) (Double.fin 0) = Double.fin 1 := by
    rw [deadzone_of_not_lt (by rw [hcl]; exact hlt), hcl]
  refine ⟨by rw [hcl, hmul], by rw [hcl]; exact hlt, hfit, ?_⟩
  rw [tank_eq_sendPair, deadband_eq_deadzone, hd, hmul, static_cast_int16_fin_none hfit,
    sendPair_none_left]

/-- C5, as amended: in binary64 arithmetic `forward(s)` hands the rounded
product `clamp(s,-1,1)*maxOutput` to the conversion to `int16_t`, once for
each motor.  Whenever that conversion is defined, with result `c`, `forward`
sends exactly two velocity commands, `c` to the left motor and then `c` to the
right motor; whenever it is undefined the behaviour of `forward` is undefined.
The conversion is defined, and is truncation toward zero, when the product `p`
satisfies `-32769 < p < 32768`, which holds for every `s` that is not NaN when
`|maxOutput| <= 32767`.  The product is the rounded one: `forward(0.03)` with
`maxOutput = 100` sends `3` and `3`, though the exact product of the double
`0.03` and `100` is below `3`. -/
theorem forward_sends_product (maxOutput s : Double) (w : World) :
    (∀ c, static_cast_int16
          ((std.clamp s (Double.fin (-1)) (Double.fin 1)).mul maxOutput) = some c →
        SkidSteerModel.forward maxOutput s w
          = some (w.record [(Side.left, MotorCall.moveVelocity c),
              (Side.right, MotorCall.moveVelocity c)]))
    ∧ (static_cast_int16
          ((std.clamp s (Double.fin (-1)) (Double.fin 1)).mul maxOutput) = none →
        SkidSteerModel.forward maxOutput s w = none)
    ∧ (∀ p, (std.clamp s (Double.fin (-1)) (Double.fin 1)).mul maxOutput = Double.fin p →
        fitsInt16 p →
        SkidSteerModel.forward maxOutput s w
          = some (w.record [(Side.left, MotorCall.moveVelocity (truncToZero p)),
              (Side.right, MotorCall.moveVelocity (truncToZero p))]))
    ∧ (s.isNaN = false → maxOutput.absLe 32767 →
        ∃ c, static_cast_int16
          ((std.clamp s (Double.fin (-1)) (Double.fin 1)).mul maxOutput) = some c)
    ∧ (SkidSteerModel.forward (Double.fin 100) d003 w
          = some (w.record [(Side.left, MotorCall.moveVelocity 3),
              (Side.right, MotorCall.moveVelocity 3)])
        ∧ d003.toRat * 100 < 3) := by
  refine ⟨?_, ?_, ?_, ?_, ?_, ?_⟩
  · intro c hc
    rw [forward_eq_sendPair, hc, sendPair_some]
  · intro hc
    rw [forward_eq_sendPair, hc, sendPair_none_left]
  · intro p hp hfit
    rw [forward_eq_sendPair, hp, static_cast_int16_fin hfit, sendPair_some]
  · intro hs hM
    obtain ⟨c, hc, -⟩ := static_cast_of_absLe
      (mul_absLe (by norm_num) round_32767 (clamp_absLe hs) hM)
    exact ⟨c, hc⟩
  · rw [forward_eq_sendPair]
    have hcl : std.clamp d003 (Double.fin (-1)) (Double.fin 1) = d003 :=
      clamp_fin_of_abs_le (by norm_num [abs_le])
    rw [hcl, d003_mul_100]
    have h3 : static_cast_int16 (Double.fin 3) = some 3 := by
      have := static_cast_int16_int (n := 3) (by norm_num) (by norm_num)
      simpa using this
    rw [h3, sendPair_some]
  · norm_num [d003, Double.toRat]

/-- C5 counterexample: with `maxOutput = 32768` and `s = 1` the value handed to
the conversion is `32768`, which is not in the range of `int16_t`: the
conversion is undefined and `forward` sends no command that is the truncation
of `clamp(s,-1,1)*maxOutput`. -/
theorem forward_undefined_at_32768 :
    (std.clamp (Double.fin 1) (Double.fin (-1)) (Double.fin 1)).mul (Double.fin 32768)
        = Double.fin 32768
    ∧ ¬ fitsInt16 32768
    ∧ SkidSteerModel.forward (Double.fin 32768) (Double.fin 1) World.initial = none := by
  have hcl : std.clamp (Double.fin 1) (Double.fin (-1)) (Double.fin 1) = Double.fin 1 :=
    clamp_fin_of_abs_le (by norm_num)
  have hmul : (Double.fin 1).mul (Double.fin 32768) = Double.fin 32768 := by
    rw [mul_fin_fin (by norm_num) (by norm_num)]
    rw [one_mul]
    exact round_eq_self (E := 15) (m := 2 ^ 52) (by norm_num)
      (by norm_num) (by norm_num) (by norm_num) (by norm_num) (by norm_num)
  have hfit : ¬ fitsInt16 32768 := by norm_num [fitsInt16]
  refine ⟨by rw [hcl, hmul], hfit, ?_⟩
  rw [forward_eq_sendPair, hcl, hmul, static_cast_int16_fin_none hfit, sendPair_none_left]

/-- C6, as amended: in binary64 arithmetic, for every double `s`, `rotate(s)`
hands to the conversion to `int16_t` the rounded product
`p = clamp(s,-1,1)*maxOutput` for the left motor and `-1*clamp(s,-1,1)*maxOutput`
for the right motor, and the second is exactly `-p`.  Whenever both conversions
are defined `rotate` sends their results as velocity commands, left then right,
and the right command is exactly the negation of the left command; whenever
one is undefined the behaviour of `rotate` is undefined.  Both are defined
when `|p| < 32768`, the left command being `p` truncated toward zero, which is
the case when `s` is not NaN and `|maxOutput| <= 32767`. -/
theorem rotate_right_negates_left (maxOutput s : Double) (w : World) (hs : s.IsDouble) :
    ((Double.fin (-1)).mul (std.clamp s (Double.fin (-1)) (Double.fin 1))).mul maxOutput
        = ((std.clamp s (Double.fin (-1)) (Double.fin 1)).mul maxOutput).neg
    ∧ (∀ l r, SkidSteerModel.rotate maxOutput s w
          = some (w.record [(Side.left, MotorCall.moveVelocity l),
              (Side.right, MotorCall.moveVelocity r)]) →
        static_cast_int16 ((std.clamp s (Double.fin (-1)) (Double.fin 1)).mul maxOutput)
          = some l ∧ r = -l)
    ∧ (∀ l r,
        static_cast_int16 ((std.clamp s (Double.fin (-1)) (Double.fin 1)).mul maxOutput)
          = some l →
        static_cast_int16 ((std.clamp s (Double.fin (-1)) (Double.fin 1)).mul maxOutput).neg
          = some r →
        SkidSteerModel.rotate maxOutput s w
          = some (w.record [(Side.left, MotorCall.moveVelocity l),
              (Side.right, MotorCall.moveVelocity (-l))]))
    ∧ (static_cast_int16 ((std.clamp s (Double.fin (-1)) (Double.fin 1)).mul maxOutput)
          = none
        ∨ static_cast_int16
            ((std.clamp s (Double.fin (-1)) (Double.fin 1)).mul maxOutput).neg = none →
        SkidSteerModel.rotate maxOutput s w = none)
    ∧ (∀ p, (std.clamp s (Double.fin (-1)) (Double.fin 1)).mul maxOutput = Double.fin p →
        |p| < 32768 →
        SkidSteerModel.rotate maxOutput s w
          = some (w.record [(Side.left, MotorCall.moveVelocity (truncToZero p)),
              (Side.right, MotorCall.moveVelocity (-truncToZero p))]))
    ∧ (s.isNaN = false → maxOutput.absLe 32767 →
        ∃ l, SkidSteerModel.rotate maxOutput s w
          = some (w.record [(Side.left, MotorCall.moveVelocity l),
              (Side.right, MotorCall.moveVelocity (-l))])) := by
  have hval : ((Double.fin (-1)).mul (std.clamp s (Double.fin (-1)) (Double.fin 1))).mul
      maxOutput = ((std.clamp s (Double.fin (-1)) (Double.fin 1)).mul maxOutput).neg := by
    rw [neg_one_mul_eq_neg (isDouble_clamp hs), mul_neg_left]
  have hrot : SkidSteerModel.rotate maxOutput s w
      = w.sendPair MotorCall.moveVelocity
          (static_cast_int16 ((std.clamp s (Double.fin (-1)) (Double.fin 1)).mul maxOutput))
          (static_cast_int16
            ((std.clamp s (Double.fin (-1)) (Double.fin 1)).mul maxOutput).neg) := by
    rw [rotate_eq_sendPair, hval]
  have hboth : ∀ l r,
      static_cast_int16 ((std.clamp s (Double.fin (-1)) (Double.fin 1)).mul maxOutput)
          = some l →
      static_cast_int16 ((std.clamp s (Double.fin (-1)) (Double.fin 1)).mul maxOutput).neg
          = some r →
      SkidSteerModel.rotate maxOutput s w
        = some (w.record [(Side.left, MotorCall.moveVelocity l),
            (Side.right, MotorCall.moveVelocity (-l))]) := by
    intro l r hl hr
    rw [hrot, hl, hr, sendPair_some, static_cast_neg hl hr]
  refine ⟨hval, ?_, hboth, ?_, ?_, ?_⟩
  · intro l r h
    rw [hrot] at h
    obtain ⟨hl, hr⟩ := sendPair_eq_record moveVelocity_injective h
    exact ⟨hl, static_cast_neg hl hr⟩
  · rintro (h | h)
    · rw [hrot, h, sendPair_none_left]
    · rw [hrot, h, sendPair_none_right]
  · intro p hp hlt
    have h := abs_lt.mp hlt
    have hfit : fitsInt16 p := ⟨by linarith, h.2⟩
    have hl : static_cast_int16
        ((std.clamp s (Double.fin (-1)) (Double.fin 1)).mul maxOutput)
          = some (truncToZero p) := by
      rw [hp, static_cast_int16_fin hfit]
    have hr : ∃ r, static_cast_int16
        ((std.clamp s (Double.fin (-1)) (Double.fin 1)).mul maxOutput).neg = some r := by
      rw [hp]
      by_cases h0 : p = 0
      · subst h0
        exact ⟨0, rfl⟩
      · rw [neg_fin h0]
        exact ⟨_, static_cast_int16_fin ⟨by linarith, by linarith⟩⟩
    obtain ⟨r, hr⟩ := hr
    exact hboth _ r hl hr
  · intro hn hM
    have hP := mul_absLe (by norm_num) round_32767 (clamp_absLe hn) hM
    obtain ⟨l, hl, -⟩ := static_cast_of_absLe hP
    obtain ⟨r, hr, -⟩ := static_cast_of_absLe (neg_absLe hP)
    exact ⟨l, hboth l r hl hr⟩

/-- The amended C6 at `maxOutput = 127` and `s = 1/2`: the product is `63.5`, and
`rotate` sends `63` to the left motor and `-63` to the right motor. -/
theorem rotate_right_negates_left_witness :
    (Double.fin (1 / 2)).IsDouble
    ∧ SkidSteerModel.rotate (Double.fin 127) (Double.fin (1 / 2)) World.initial
        = some (World.initial.record [(Side.left, MotorCall.moveVelocity 63),
            (Side.right, MotorCall.moveVelocity (-63))]) := by
  have hd : (Double.fin (1 / 2)).IsDouble :=
    round_eq_self (E := -1) (m := 2 ^ 52) (by norm_num) (by norm_num) (by norm_num)
      (by norm_num) (by norm_num) (by norm_num)
  have hcl : std.clamp (Double.fin (1 / 2)) (Double.fin (-1)) (Double.fin 1)
      = Double.fin (1 / 2) := clamp_fin_of_abs_le (by norm_num [abs_le])
  have hp : (std.clamp (Double.fin (1 / 2)) (Double.fin (-1)) (Double.fin 1)).mul
      (Double.fin 127) = Double.fin (127 / 2) := by
    rw [hcl, mul_fin_fin (by norm_num) (by norm_num)]
    have := round_eq_self (x := 1 / 2 * 127) (E := 5) (m := 127 * 2 ^ 46) (by norm_num)
      (by norm_num) (by norm_num) (by norm_num) (by norm_num) (by norm_num)
    rw [this]
    norm_num
  have ht : truncToZero (127 / 2) = 63 := by
    rw [truncToZero_of_nonneg (by norm_num)]
    exact Int.floor_eq_iff.mpr ⟨by norm_num, by norm_num⟩
  have h := (rotate_right_negates_left (Double.fin 127) (Double.fin (1 / 2)) World.initial
    hd).2.2.2.2.1 (127 / 2) hp (by norm_num [abs_lt])
  rw [ht] at h
  exact ⟨hd, h⟩

/-- C8, as amended: in binary64 arithmetic, when the dead-zone-filtered ySpeed
is the positive zero `+0.0` (as for the input `0.0` with any threshold, and for
any input zeroed by the dead zone), `arcade` follows the `ySpeed >= 0` branch
with `maxInput = |z|`, `z` being the clamped, dead-zone-filtered zRotation, and
hands the rounded product `p = z*maxOutput` and `-p` to the conversion to
`int16_t`.  Whenever both conversions are defined `arcade` sends their results
as voltage commands, left then right, and the right command is the negation of
the left one; whenever one is undefined the behaviour of `arcade` is
undefined.  Both are defined when `|p| < 32768`, the left command being `p`
truncated toward zero, which is the case when zRotation is not NaN and
`|maxOutput| <= 32767`. -/
theorem arcade_positive_zero_ySpeed (maxOutput ySpeed zRotation threshold : Double)
    (w : World) (hy : SkidSteerModel.deadband ySpeed threshold = Double.fin 0)
    (hz : zRotation.IsDouble) :
    (SkidSteerModel.deadband ySpeed threshold).ge (Double.fin 0) = true
    ∧ (zRotation.isNaN = false →
        std.copysign
          (std.max (std.abs (SkidSteerModel.deadband ySpeed threshold))
            (std.abs (SkidSteerModel.deadband zRotation threshold)))
          (SkidSteerModel.deadband ySpeed threshold)
        = std.abs (SkidSteerModel.deadband zRotation threshold))
    ∧ (∀ l r,
        static_cast_int16 ((SkidSteerModel.deadband zRotation threshold).mul maxOutput)
          = some l →
        static_cast_int16 ((SkidSteerModel.deadband zRotation threshold).mul maxOutput).neg
          = some r →
        SkidSteerModel.arcade maxOutput ySpeed zRotation threshold w
          = some (w.record [(Side.left, MotorCall.moveVoltage l),
              (Side.right, MotorCall.moveVoltage (-l))]))
    ∧ (∀ l r, SkidSteerModel.arcade maxOutput ySpeed zRotation threshold w
          = some (w.record [(Side.left, MotorCall.moveVoltage l),
              (Side.right, MotorCall.moveVoltage r)]) →
        static_cast_int16 ((SkidSteerModel.deadband zRotation threshold).mul maxOutput)
          = some l ∧ r = -l)
    ∧ (static_cast_int16 ((SkidSteerModel.deadband zRotation threshold).mul maxOutput)
          = none
        ∨ static_cast_int16
            ((SkidSteerModel.deadband zRotation threshold).mul maxOutput).neg = none →
        SkidSteerModel.arcade maxOutput ySpeed zRotation threshold w = none)
    ∧ (∀ p, (SkidSteerModel.deadband zRotation threshold).mul maxOutput = Double.fin p →
        |p| < 32768 →
        SkidSteerModel.arcade maxOutput ySpeed zRotation threshold w
          = some (w.record [(Side.left, MotorCall.moveVoltage (truncToZero p)),
              (Side.right, MotorCall.moveVoltage (-truncToZero p))]))
    ∧ (zRotation.isNaN = false → maxOutput.absLe 32767 →
        ∃ l, SkidSteerModel.arcade maxOutput ySpeed zRotation threshold w
          = some (w.record [(Side.left, MotorCall.moveVoltage l),
              (Side.right, MotorCall.moveVoltage (-l))]))
    ∧ (∀ t, SkidSteerModel.deadband (Double.fin 0) t = Double.fin 0) := by
  have harc := arcade_of_zero_ySpeed maxOutput threshold w hy hz
  rw [← deadband_eq_deadzone] at harc
  refine ⟨?_, ?_, ?_, ?_, ?_, ?_, ?_, deadband_zero_eq⟩
  · rw [hy, ge_fin]
    simp
  · intro hn
    rw [hy]
    exact maxInput_zero_left (deadzone_absLe threshold hn)
  · intro l r hl hr
    rw [harc]
    exact sendPair_neg w _ hl hr
  · intro l r h
    rw [harc] at h
    obtain ⟨hl, hr⟩ := sendPair_eq_record moveVoltage_injective h
    exact ⟨hl, static_cast_neg hl hr⟩
  · rintro (h | h)
    · rw [harc, h, sendPair_none_left]
    · rw [harc, h, sendPair_none_right]
  · intro p hp hlt
    obtain ⟨hl, hr⟩ := static_cast_neg_defined hlt
    rw [harc, hp]
    exact sendPair_neg w _ hl hr
  · intro hn hM
    rw [harc]
    exact sendPair_neg_of_absLe w _
      (mul_absLe (by norm_num) round_32767 (deadzone_absLe threshold hn) hM)

/-- The amended C8 at `maxOutput = 127`: `arcade(0, 1/2, 0)` converts `63.5` and
`-63.5`, and sends `63` to the left motor and `-63` to the right motor. -/
theorem arcade_positive_zero_ySpeed_witness :
    SkidSteerModel.deadband (Double.fin 0) (Double.fin 0) = Double.fin 0
    ∧ (Double.fin (1 / 2)).IsDouble
    ∧ SkidSteerModel.arcade (Double.fin 127) (Double.fin 0) (Double.fin (1 / 2))
          (Double.fin 0) World.initial
        = some (World.initial.record [(Side.left, MotorCall.moveVoltage 63),
            (Side.right, MotorCall.moveVoltage (-63))]) := by
  have hd : SkidSteerModel.deadband (Double.fin (1 / 2)) (Double.fin 0)
      = Double.fin (1 / 2) := by
    rw [deadband_eq_deadzone, deadzone_of_not_lt,
      clamp_fin_of_abs_le (by norm_num [abs_le])]
    rw [clamp_fin_of_abs_le (by norm_num [abs_le])]
    norm_num [std.abs, lt_fin]
  have hp : (SkidSteerModel.deadband (Double.fin (1 / 2)) (Double.fin 0)).mul
      (Double.fin 127) = Double.fin (127 / 2) := by
    rw [hd, half_mul_127]
  have h := (arcade_positive_zero_ySpeed (Double.fin 127) (Double.fin 0)
    (Double.fin (1 / 2)) (Double.fin 0) World.initial (deadband_zero_eq _)
    round_half).2.2.2.2.2.1 (127 / 2) hp (by norm_num [abs_lt])
  rw [truncToZero_127_half] at h
  exact ⟨deadband_zero_eq _, round_half, h⟩

/-- C8 counterexample: with `maxOutput = 127` and threshold `0`, the input
`ySpeed = -0.0` is exactly zero and is not changed by the dead zone;
`arcade(-0.0, 1/2, 0)` follows the `ySpeed >= 0` branch, but `copysign` reads
the sign bit of `-0.0`, so `maxInput = -1/2`, not `|z| = 1/2`, and both motors
receive `-63`, whereas `z*maxOutput` truncated toward zero is `63`. -/
theorem arcade_negative_zero_not_rotation :
    Double.negZero.isZero = true
    ∧ SkidSteerModel.deadband Double.negZero (Double.fin 0) = Double.negZero
    ∧ Double.negZero.ge (Double.fin 0) = true
    ∧ std.copysign (std.max (std.abs Double.negZero) (std.abs (Double.fin (1 / 2))))
          Double.negZero = Double.fin (-(1 / 2))
    ∧ SkidSteerModel.arcade (Double.fin 127) Double.negZero (Double.fin (1 / 2))
          (Double.fin 0) World.initial
        = some (World.initial.record [(Side.left, MotorCall.moveVoltage (-63)),
            (Side.right, MotorCall.moveVoltage (-63))])
    ∧ static_cast_int16 ((Double.fin (1 / 2)).mul (Double.fin 127)) = some 63 := by
  have hdz : SkidSteerModel.deadband Double.negZero (Double.fin 0) = Double.negZero := by
    norm_num [SkidSteerModel.deadband, std.clamp, std.abs, Double.lt, Double.toRat]
  have hd : SkidSteerModel.deadband (Double.fin (1 / 2)) (Double.fin 0)
      = Double.fin (1 / 2) := by
    rw [deadband_eq_deadzone, deadzone_of_not_lt,
      clamp_fin_of_abs_le (by norm_num [abs_le])]
    rw [clamp_fin_of_abs_le (by norm_num [abs_le])]
    norm_num [std.abs, lt_fin]
  have hcs : std.copysign (std.max (std.abs Double.negZero) (std.abs (Double.fin (1 / 2))))
      Double.negZero = Double.fin (-(1 / 2)) := by
    norm_num [std.copysign, std.max, std.abs, Double.lt, Double.toRat, Double.signBit,
      Double.neg]
  have hsub : Double.negZero.sub (Double.fin (1 / 2)) = Double.fin (-(1 / 2)) := by
    unfold Double.sub
    rw [neg_fin (by norm_num)]
    simp only [Double.add, Double.isNaN, Double.isInf, Double.isZero, Double.toRat]
    norm_num
    exact round_neg_half
  have hout : SkidSteerModel.arcadeOutputs Double.negZero (Double.fin (1 / 2)) (Double.fin 0)
      = (Double.fin (-(1 / 2)), Double.fin (-(1 / 2))) := by
    simp only [SkidSteerModel.arcadeOutputs, hdz, hd, hcs, hsub]
    norm_num [Double.ge, Double.lt, Double.isNaN, Double.toRat]
  have hcl : std.clamp (Double.fin (-(1 / 2))) (Double.fin (-1)) (Double.fin 1)
      = Double.fin (-(1 / 2)) := clamp_fin_of_abs_le (by norm_num [abs_le])
  have hmul : (Double.fin (-(1 / 2))).mul (Double.fin 127) = Double.fin (-(127 / 2)) := by
    rw [mul_fin_fin (by norm_num) (by norm_num)]
    have e : (-(1 / 2) * 127 : ℚ) = -(127 / 2) := by norm_num
    rw [e]
    exact round_neg_of_round (by norm_num) round_127_half
  have hcast : static_cast_int16 (Double.fin (-(127 / 2))) = some (-63) :=
    static_cast_int16_ceil (by norm_num) (by norm_num) (by norm_num) (by norm_num)
  refine ⟨rfl, hdz, by norm_num [Double.ge, Double.lt, Double.isNaN, Double.toRat], hcs,
    ?_, ?_⟩
  · rw [arcade_eq_sendPair, hout]
    simp only []
    rw [hcl, hmul, hcast, sendPair_some]
  · rw [half_mul_127]
    exact static_cast_int16_floor (by norm_num) (by norm_num) (by norm_num) (by norm_num)

/-- C9, as amended: in binary64 arithmetic `left(speed)` hands the rounded
product `speed*maxOutput` to the conversion to `int16_t`, with no clamping of
`speed`.  Whenever that conversion is defined, with result `c`, `left` issues
exactly one command, the velocity command `c` to the left motor, and nothing
to the right motor; whenever it is undefined the behaviour of `left` is
undefined.  The conversion is defined exactly when the product `p` is finite
with `-32769 < p < 32768`, and is then truncation toward zero.  `right` does
the same with the sides exchanged.  For example `left(2)` with
`maxOutput = 127` commands `254`. -/
theorem left_right_send_product (maxOutput speed : Double) (w : World) :
    (∀ c, static_cast_int16 (speed.mul maxOutput) = some c →
        SkidSteerModel.left maxOutput speed w
            = some (w.record [(Side.left, MotorCall.moveVelocity c)])
        ∧ SkidSteerModel.right maxOutput speed w
            = some (w.record [(Side.right, MotorCall.moveVelocity c)]))
    ∧ (static_cast_int16 (speed.mul maxOutput) = none →
        SkidSteerModel.left maxOutput speed w = none
        ∧ SkidSteerModel.right maxOutput speed w = none)
    ∧ (∀ p, speed.mul maxOutput = Double.fin p → fitsInt16 p →
        static_cast_int16 (speed.mul maxOutput) = some (truncToZero p))
    ∧ (∀ p, speed.mul maxOutput = Double.fin p → ¬ fitsInt16 p →
        static_cast_int16 (speed.mul maxOutput) = none)
    ∧ ((speed.mul maxOutput).isNaN = true ∨ (speed.mul maxOutput).isInf = true →
        static_cast_int16 (speed.mul maxOutput) = none)
    ∧ SkidSteerModel.left (Double.fin 127) (Double.fin 2) w
        = some (w.record [(Side.left, MotorCall.moveVelocity 254)])
    ∧ SkidSteerModel.right (Double.fin 127) (Double.fin 2) w
        = some (w.record [(Side.right, MotorCall.moveVelocity 254)]) := by
  have h254 : static_cast_int16 ((Double.fin 2).mul (Double.fin 127)) = some 254 := by
    rw [mul_fin_fin (by norm_num) (by norm_num)]
    have hr : round (2 * 127) = Double.fin ((254 : Int) : ℚ) := by
      have := round_eq_self (x := 2 * 127) (E := 7) (m := 254 * 2 ^ 45) (by norm_num)
        (by norm_num) (by norm_num) (by norm_num) (by norm_num) (by norm_num)
      rw [this]
      norm_num
    rw [hr]
    exact static_cast_int16_int (by norm_num) (by norm_num)
  refine ⟨?_, ?_, ?_, ?_, ?_, ?_, ?_⟩
  · intro c hc
    rw [left_eq_map, right_eq_map, hc]
    exact ⟨rfl, rfl⟩
  · intro hc
    rw [left_eq_map, right_eq_map, hc]
    exact ⟨rfl, rfl⟩
  · intro p hp hfit
    rw [hp, static_cast_int16_fin hfit]
  · intro p hp hfit
    rw [hp, static_cast_int16_fin_none hfit]
  · intro h
    cases hp : speed.mul maxOutput <;> rw [hp] at h <;>
      simp [Double.isNaN, Double.isInf, static_cast_int16] at h ⊢
  · rw [left_eq_map, h254]
    rfl
  · rw [right_eq_map, h254]
    rfl

/-- C9 counterexample: with `maxOutput = 20000`, `left(2)` hands `40000` to the
conversion to `int16_t`.  The value is out of range, the conversion is
undefined, and no 16-bit command has the value `speed*maxOutput`. -/
theorem left_undefined_at_40000 :
    (Double.fin 2).mul (Double.fin 20000) = Double.fin 40000
    ∧ ¬ fitsInt16 40000
    ∧ SkidSteerModel.left (Double.fin 20000) (Double.fin 2) World.initial = none
    ∧ SkidSteerModel.right (Double.fin 20000) (Double.fin 2) World.initial = none := by
  have hmul : (Double.fin 2).mul (Double.fin 20000) = Double.fin 40000 := by
    rw [mul_fin_fin (by norm_num) (by norm_num)]
    have := round_eq_self (x := 2 * 20000) (E := 15) (m := 40000 * 2 ^ 37) (by norm_num)
      (by norm_num) (by norm_num) (by norm_num) (by norm_num) (by norm_num)
    rw [this]
    norm_num
  have hfit : ¬ fitsInt16 40000 := by norm_num [fitsInt16]
  refine ⟨hmul, hfit, ?_, ?_⟩
  · rw [left_eq_map, hmul, static_cast_int16_fin_none hfit]
    rfl
  · rw [right_eq_map, hmul, static_cast_int16_fin_none hfit]
    rfl

/-- C16, as amended: in binary64 arithmetic, if `maxOutput` is finite with
`|maxOutput| <= 32767` (in particular if `0 < maxOutput <= 32767`) then for
every input whose speed arguments are not NaN every conversion
`static_cast<int16_t>` that `forward`, `rotate`, `driveVector`, `tank` and
`arcade` perform is defined, that is in range, and the operation sends two
commands in `[-32768, 32767]`.  A NaN speed argument makes a conversion
undefined.  For `left` and `right` the conversion is defined exactly when the
rounded product `speed*maxOutput` is finite and lies strictly between `-32769`
and `32768`, for which `|speed*maxOutput| < 32768` is sufficient. -/
theorem conversions_defined (maxOutput : Double) (w : World)
    (hmax : maxOutput.absLe 32767) :
    (∀ s, s.isNaN = false →
      ∃ l r, SkidSteerModel.forward maxOutput s w
          = some (w.record [(Side.left, MotorCall.moveVelocity l),
              (Side.right, MotorCall.moveVelocity r)])
        ∧ (-32768 ≤ l ∧ l ≤ 32767) ∧ (-32768 ≤ r ∧ r ≤ 32767))
    ∧ (∀ s, s.isNaN = false →
      ∃ l r, SkidSteerModel.rotate maxOutput s w
          = some (w.record [(Side.left, MotorCall.moveVelocity l),
              (Side.right, MotorCall.moveVelocity r)])
        ∧ (-32768 ≤ l ∧ l ≤ 32767) ∧ (-32768 ≤ r ∧ r ≤ 32767))
    ∧ (∀ y z, y.isNaN = false → z.isNaN = false →
      ∃ l r, SkidSteerModel.driveVector maxOutput y z w
          = some (w.record [(Side.left, MotorCall.moveVelocity l),
              (Side.right, MotorCall.moveVelocity r)])
        ∧ (-32768 ≤ l ∧ l ≤ 32767) ∧ (-32768 ≤ r ∧ r ≤ 32767))
    ∧ (∀ x y t, x.isNaN = false → y.isNaN = false →
      ∃ l r, SkidSteerModel.tank maxOutput x y t w
          = some (w.record [(Side.left, MotorCall.moveVoltage l),
              (Side.right, MotorCall.moveVoltage r)])
        ∧ (-32768 ≤ l ∧ l ≤ 32767) ∧ (-32768 ≤ r ∧ r ≤ 32767))
    ∧ (∀ y z t, y.isNaN = false → z.isNaN = false →
      ∃ l r, SkidSteerModel.arcade maxOutput y z t w
          = some (w.record [(Side.left, MotorCall.moveVoltage l),
              (Side.right, MotorCall.moveVoltage r)])
        ∧ (-32768 ≤ l ∧ l ≤ 32767) ∧ (-32768 ≤ r ∧ r ≤ 32767))
    ∧ (∀ x y t, x.isNaN = true →
      SkidSteerModel.forward maxOutput x w = none
        ∧ SkidSteerModel.rotate maxOutput x w = none
        ∧ SkidSteerModel.driveVector maxOutput x y w = none
        ∧ SkidSteerModel.driveVector maxOutput y x w = none
        ∧ SkidSteerModel.tank maxOutput x y t w = none
        ∧ SkidSteerModel.tank maxOutput y x t w = none
        ∧ SkidSteerModel.arcade maxOutput x y t w = none
        ∧ SkidSteerModel.arcade maxOutput y x t w = none)
    ∧ (∀ s, ((∃ c, SkidSteerModel.left maxOutput s w
            = some (w.record [(Side.left, MotorCall.moveVelocity c)])
              ∧ -32768 ≤ c ∧ c ≤ 32767)
          ↔ (s.mul maxOutput = Double.negZero
              ∨ ∃ p, s.mul maxOutput = Double.fin p ∧ -32769 < p ∧ p < 32768))
        ∧ ((∃ c, SkidSteerModel.right maxOutput s w
            = some (w.record [(Side.right, MotorCall.moveVelocity c)])
              ∧ -32768 ≤ c ∧ c ≤ 32767)
          ↔ (s.mul maxOutput = Double.negZero
              ∨ ∃ p, s.mul maxOutput = Double.fin p ∧ -32769 < p ∧ p < 32768)))
    ∧ (∀ p : ℚ, |p| < 32768 → -32769 < p ∧ p < 32768) := by
  have h32 : (0 : ℚ) < 32767 := by norm_num
  refine ⟨?_, ?_, ?_, ?_, ?_, ?_, ?_, ?_⟩
  · intro s hs
    rw [forward_eq_sendPair]
    exact sendPair_of_absLe w _ (mul_absLe h32 round_32767 (clamp_absLe hs) hmax)
      (mul_absLe h32 round_32767 (clamp_absLe hs) hmax)
  · intro s hs
    rw [rotate_eq_sendPair]
    exact sendPair_of_absLe w _ (mul_absLe h32 round_32767 (clamp_absLe hs) hmax)
      (mul_absLe h32 round_32767
        (mul_absLe one_pos round_one neg_one_absLe (clamp_absLe hs)) hmax)
  · intro y z hy hz
    rw [driveVector_eq_sendPair]
    obtain ⟨hl, hr⟩ := driveVectorOutputs_absLe hy hz
    exact sendPair_of_absLe w _ (mul_absLe h32 round_32767 hl hmax)
      (mul_absLe h32 round_32767 hr hmax)
  · intro x y t hx hy
    rw [tank_eq_sendPair]
    exact sendPair_of_absLe w _
      (mul_absLe h32 round_32767 (deadzone_absLe t hx) hmax)
      (mul_absLe h32 round_32767 (deadzone_absLe t hy) hmax)
  · intro y z t hy hz
    rw [arcade_eq_sendPair]
    obtain ⟨h1, h2⟩ := arcadeOutputs_not_nan t hy hz
    exact sendPair_of_absLe w _ (mul_absLe h32 round_32767 (clamp_absLe h1) hmax)
      (mul_absLe h32 round_32767 (clamp_absLe h2) hmax)
  · intro x y t hx
    have hx' := eq_nan_of_isNaN hx
    subst hx'
    exact ⟨forward_nan _ _, rotate_nan _ _, driveVector_nan _ _ (Or.inl rfl),
      driveVector_nan _ _ (Or.inr rfl), tank_nan _ _ _ (Or.inl rfl),
      tank_nan _ _ _ (Or.inr rfl), arcade_nan _ _ _ (Or.inl rfl),
      arcade_nan _ _ _ (Or.inr rfl)⟩
  · intro s
    have key : ∀ side : Side,
        (∃ c, (static_cast_int16 (s.mul maxOutput)).map
            (fun c => w.record [(side, MotorCall.moveVelocity c)])
              = some (w.record [(side, MotorCall.moveVelocity c)])
            ∧ -32768 ≤ c ∧ c ≤ 32767)
          ↔ (s.mul maxOutput = Double.negZero
              ∨ ∃ p, s.mul maxOutput = Double.fin p ∧ -32769 < p ∧ p < 32768) := by
      intro side
      constructor
      · rintro ⟨c, hc, -⟩
        cases hd : static_cast_int16 (s.mul maxOutput) with
        | none => rw [hd] at hc; cases hc
        | some d => exact (static_cast_isSome_iff _).mp ⟨d, hd⟩
      · intro h
        obtain ⟨c, hc⟩ := (static_cast_isSome_iff _).mpr h
        refine ⟨c, by rw [hc]; rfl, ?_⟩
        rcases h with h | ⟨p, hp, hfit⟩
        · rw [h] at hc
          cases hc
          norm_num
        · rw [hp, static_cast_int16_fin hfit] at hc
          cases hc
          exact truncToZero_fits hfit
    rw [left_eq_map, right_eq_map]
    exact ⟨key Side.left, key Side.right⟩
  · intro p hp
    rw [abs_lt] at hp
    exact ⟨by linarith, hp.2⟩

/-- The amended C16 at `maxOutput = 127`. -/
theorem conversions_defined_witness :
    (Double.fin 127).absLe 32767
    ∧ ∀ s, s.isNaN = false →
      ∃ l r, SkidSteerModel.forward (Double.fin 127) s World.initial
          = some (World.initial.record [(Side.left, MotorCall.moveVelocity l),
              (Side.right, MotorCall.moveVelocity r)])
        ∧ (-32768 ≤ l ∧ l ≤ 32767) ∧ (-32768 ≤ r ∧ r ≤ 32767) :=
  ⟨by norm_num [Double.absLe],
    (conversions_defined (Double.fin 127) World.initial (by norm_num [Double.absLe])).1⟩

/-- C16 counterexample: with `maxOutput = 127`, inside `0 < maxOutput <= 32767`,
`forward(NaN)` hands NaN to the conversion to `int16_t`, which is undefined, so
the conversion is not in range for every input.  And with `maxOutput = 1`,
`left(-32768.5)` converts `-32768.5`, in range with result `-32768`, although
`|speed*maxOutput| < 32768` does not hold: the extra precondition is not the
only case in which the conversion of `left` is in range. -/
theorem conversion_of_nan_undefined :
    (std.clamp Double.nan (Double.fin (-1)) (Double.fin 1)).mul (Double.fin 127) = Double.nan
    ∧ static_cast_int16 Double.nan = none
    ∧ SkidSteerModel.forward (Double.fin 127) Double.nan World.initial = none
    ∧ (Double.fin (-65537 / 2)).mul (Double.fin 1) = Double.fin (-65537 / 2)
    ∧ ¬ (|(-65537 / 2 : ℚ)| < 32768)
    ∧ SkidSteerModel.left (Double.fin 1) (Double.fin (-65537 / 2)) World.initial
        = some (World.initial.record [(Side.left, MotorCall.moveVelocity (-32768))]) := by
  have hmul : (Double.fin (-65537 / 2)).mul (Double.fin 1) = Double.fin (-65537 / 2) := by
    rw [mul_fin_fin (by norm_num) (by norm_num), mul_one]
    have h := round_neg_of_round (x := 65537 / 2) (by norm_num)
      (round_eq_self (E := 15) (m := 65537 * 2 ^ 36) (by norm_num) (by norm_num)
        (by norm_num) (by norm_num) (by norm_num) (by norm_num))
    have e : (-65537 / 2 : ℚ) = -(65537 / 2) := by norm_num
    rw [e]
    exact h
  refine ⟨by rw [clamp_nan, nan_mul], rfl, forward_nan _ _, hmul, by norm_num [abs_lt], ?_⟩
  rw [left_eq_map, hmul,
    static_cast_int16_ceil (n := -32768) (by norm_num) (by norm_num) (by norm_num)
      (by norm_num)]
  rfl

/-- C20, as amended: odd symmetry of every clamped operation in binary64
arithmetic, whenever the conversions to `int16_t` are defined for the input
and for its negation.  For `forward`, `rotate`, `driveVector` and `tank`, and
for every input: if the operation sends the commands `l`, `r` and, with all
speed arguments negated and `threshold` unchanged, sends `l'`, `r'`, then
`l' = -l` and `r' = -r`.  The same holds for `arcade` when ySpeed is not a zero
or `threshold > 0`; for `ySpeed = 0.0` and `threshold <= 0` the negation `-0.0`
is not filtered and `maxInput` takes its sign bit.  Both conversions are
defined when no speed argument is NaN and `|maxOutput| <= 32767`. -/
theorem negated_inputs_negate_defined_commands (maxOutput : Double) (w : World) :
    (∀ s l r l' r',
      SkidSteerModel.forward maxOutput s w
          = some (w.record [(Side.left, MotorCall.moveVelocity l),
              (Side.right, MotorCall.moveVelocity r)]) →
      SkidSteerModel.forward maxOutput s.neg w
          = some (w.record [(Side.left, MotorCall.moveVelocity l'),
              (Side.right, MotorCall.moveVelocity r')]) →
      l' = -l ∧ r' = -r)
    ∧ (∀ s l r l' r',
      SkidSteerModel.rotate maxOutput s w
          = some (w.record [(Side.left, MotorCall.moveVelocity l),
              (Side.right, MotorCall.moveVelocity r)]) →
      SkidSteerModel.rotate maxOutput s.neg w
          = some (w.record [(Side.left, MotorCall.moveVelocity l'),
              (Side.right, MotorCall.moveVelocity r')]) →
      l' = -l ∧ r' = -r)
    ∧ (∀ y z l r l' r',
      SkidSteerModel.driveVector maxOutput y z w
          = some (w.record [(Side.left, MotorCall.moveVelocity l),
              (Side.right, MotorCall.moveVelocity r)]) →
      SkidSteerModel.driveVector maxOutput y.neg z.neg w
          = some (w.record [(Side.left, MotorCall.moveVelocity l'),
              (Side.right, MotorCall.moveVelocity r')]) →
      l' = -l ∧ r' = -r)
    ∧ (∀ x y t l r l' r',
      SkidSteerModel.tank maxOutput x y t w
          = some (w.record [(Side.left, MotorCall.moveVoltage l),
              (Side.right, MotorCall.moveVoltage r)]) →
      SkidSteerModel.tank maxOutput x.neg y.neg t w
          = some (w.record [(Side.left, MotorCall.moveVoltage l'),
              (Side.right, MotorCall.moveVoltage r')]) →
      l' = -l ∧ r' = -r)
    ∧ (∀ y z t l r l' r', y.IsDouble → z.IsDouble →
      (y.isZero = false ∨ (Double.fin 0).lt t = true) →
      SkidSteerModel.arcade maxOutput y z t w
          = some (w.record [(Side.left, MotorCall.moveVoltage l),
              (Side.right, MotorCall.moveVoltage r)]) →
      SkidSteerModel.arcade maxOutput y.neg z.neg t w
          = some (w.record [(Side.left, MotorCall.moveVoltage l'),
              (Side.right, MotorCall.moveVoltage r')]) →
      l' = -l ∧ r' = -r)
    ∧ (maxOutput.absLe 32767 → ∀ x y t, x.isNaN = false → y.isNaN = false →
      (∃ l r l' r', SkidSteerModel.forward maxOutput x w
            = some (w.record [(Side.left, MotorCall.moveVelocity l),
                (Side.right, MotorCall.moveVelocity r)])
          ∧ SkidSteerModel.forward maxOutput x.neg w
            = some (w.record [(Side.left, MotorCall.moveVelocity l'),
                (Side.right, MotorCall.moveVelocity r')]))
      ∧ (∃ l r l' r', SkidSteerModel.rotate maxOutput x w
            = some (w.record [(Side.left, MotorCall.moveVelocity l),
                (Side.right, MotorCall.moveVelocity r)])
          ∧ SkidSteerModel.rotate maxOutput x.neg w
            = some (w.record [(Side.left, MotorCall.moveVelocity l'),
                (Side.right, MotorCall.moveVelocity r')]))
      ∧ (∃ l r l' r', SkidSteerModel.driveVector maxOutput x y w
            = some (w.record [(Side.left, MotorCall.moveVelocity l),
                (Side.right, MotorCall.moveVelocity r)])
          ∧ SkidSteerModel.driveVector maxOutput x.neg y.neg w
            = some (w.record [(Side.left, MotorCall.moveVelocity l'),
                (Side.right, MotorCall.moveVelocity r')]))
      ∧ (∃ l r l' r', SkidSteerModel.tank maxOutput x y t w
            = some (w.record [(Side.left, MotorCall.moveVoltage l),
                (Side.right, MotorCall.moveVoltage r)])
          ∧ SkidSteerModel.tank maxOutput x.neg y.neg t w
            = some (w.record [(Side.left, MotorCall.moveVoltage l'),
                (Side.right, MotorCall.moveVoltage r')]))
      ∧ (∃ l r l' r', SkidSteerModel.arcade maxOutput x y t w
            = some (w.record [(Side.left, MotorCall.moveVoltage l),
                (Side.right, MotorCall.moveVoltage r)])
          ∧ SkidSteerModel.arcade maxOutput x.neg y.neg t w
            = some (w.record [(Side.left, MotorCall.moveVoltage l'),
                (Side.right, MotorCall.moveVoltage r')]))) := by
  refine ⟨?_, ?_, ?_, ?_, ?_, ?_⟩
  · intro s l r l' r' h h'
    rw [forward_eq_sendPair] at h h'
    have hrel : Double.NegRel
        ((std.clamp s.neg (Double.fin (-1)) (Double.fin 1)).mul maxOutput)
        ((std.clamp s (Double.fin (-1)) (Double.fin 1)).mul maxOutput) :=
      negRel_mul (negRel_clamp (negRel_neg s)) maxOutput
    exact commands_negRel moveVelocity_injective hrel hrel h h'
  · intro s l r l' r' h h'
    rw [rotate_eq_sendPair] at h h'
    have hc := negRel_clamp (negRel_neg s)
    have hl := negRel_mul hc maxOutput
    have hr : Double.NegRel
        (((Double.fin (-1)).mul (std.clamp s.neg (Double.fin (-1)) (Double.fin 1))).mul
          maxOutput)
        (((Double.fin (-1)).mul (std.clamp s (Double.fin (-1)) (Double.fin 1))).mul
          maxOutput) := by
      rw [clamp_neg, mul_neg_right]
      exact negRel_mul (negRel_neg _) maxOutput
    exact commands_negRel moveVelocity_injective hl hr h h'
  · intro y z l r l' r' h h'
    rw [driveVector_eq_sendPair] at h h'
    obtain ⟨h1, h2⟩ := driveVectorOutputs_negRel y z
    exact commands_negRel moveVelocity_injective (negRel_mul h1 maxOutput)
      (negRel_mul h2 maxOutput) h h'
  · intro x y t l r l' r' h h'
    rw [tank_eq_sendPair] at h h'
    exact commands_negRel moveVoltage_injective (negRel_mul (deadband_negRel x t) maxOutput)
      (negRel_mul (deadband_negRel y t) maxOutput) h h'
  · intro y z t l r l' r' hy hz hcond h h'
    have hyn : y.isNaN = false := by
      by_contra hn
      rw [arcade_nan maxOutput t w (Or.inl (by simpa using hn))] at h
      cases h
    have hzn : z.isNaN = false := by
      by_contra hn
      rw [arcade_nan maxOutput t w (Or.inr (by simpa using hn))] at h
      cases h
    rw [arcade_eq_sendPair] at h h'
    obtain ⟨h1, h2⟩ := arcadeOutputs_negRel t hy hz hyn hzn hcond
    exact commands_negRel moveVoltage_injective
      (negRel_mul (negRel_clamp h1) maxOutput) (negRel_mul (negRel_clamp h2) maxOutput) h h'
  · intro hM x y t hx hy
    have hx' : x.neg.isNaN = false := by rw [isNaN_neg]; exact hx
    have hy' : y.neg.isNaN = false := by rw [isNaN_neg]; exact hy
    have h32 : (0 : ℚ) < 32767 := by norm_num
    have pair : ∀ (mk : Int → MotorCall) (a b a' b' : Double), a.absLe 32767 →
        b.absLe 32767 → a'.absLe 32767 → b'.absLe 32767 →
        ∃ l r l' r',
          w.sendPair mk (static_cast_int16 a) (static_cast_int16 b)
            = some (w.record [(Side.left, mk l), (Side.right, mk r)])
          ∧ w.sendPair mk (static_cast_int16 a') (static_cast_int16 b')
            = some (w.record [(Side.left, mk l'), (Side.right, mk r')]) := by
      intro mk a b a' b' ha hb ha' hb'
      obtain ⟨l, r, h, -⟩ := sendPair_of_absLe w mk ha hb
      obtain ⟨l', r', h', -⟩ := sendPair_of_absLe w mk ha' hb'
      exact ⟨l, r, l', r', h, h'⟩
    refine ⟨?_, ?_, ?_, ?_, ?_⟩
    · rw [forward_eq_sendPair, forward_eq_sendPair]
      exact pair _ _ _ _ _ (mul_absLe h32 round_32767 (clamp_absLe hx) hM)
        (mul_absLe h32 round_32767 (clamp_absLe hx) hM)
        (mul_absLe h32 round_32767 (clamp_absLe hx') hM)
        (mul_absLe h32 round_32767 (clamp_absLe hx') hM)
    · rw [rotate_eq_sendPair, rotate_eq_sendPair]
      exact pair _ _ _ _ _ (mul_absLe h32 round_32767 (clamp_absLe hx) hM)
        (mul_absLe h32 round_32767
          (mul_absLe one_pos round_one neg_one_absLe (clamp_absLe hx)) hM)
        (mul_absLe h32 round_32767 (clamp_absLe hx') hM)
        (mul_absLe h32 round_32767
          (mul_absLe one_pos round_one neg_one_absLe (clamp_absLe hx')) hM)
    · rw [driveVector_eq_sendPair, driveVector_eq_sendPair]
      obtain ⟨h1, h2⟩ := driveVectorOutputs_absLe hx hy
      obtain ⟨h1', h2'⟩ := driveVectorOutputs_absLe hx' hy'
      exact pair _ _ _ _ _ (mul_absLe h32 round_32767 h1 hM)
        (mul_absLe h32 round_32767 h2 hM) (mul_absLe h32 round_32767 h1' hM)
        (mul_absLe h32 round_32767 h2' hM)
    · rw [tank_eq_sendPair, tank_eq_sendPair]
      exact pair _ _ _ _ _ (mul_absLe h32 round_32767 (deadzone_absLe t hx) hM)
        (mul_absLe h32 round_32767 (deadzone_absLe t hy) hM)
        (mul_absLe h32 round_32767 (deadzone_absLe t hx') hM)
        (mul_absLe h32 round_32767 (deadzone_absLe t hy') hM)
    · rw [arcade_eq_sendPair, arcade_eq_sendPair]
      obtain ⟨h1, h2⟩ := arcadeOutputs_not_nan t hx hy
      obtain ⟨h1', h2'⟩ := arcadeOutputs_not_nan t hx' hy'
      exact pair _ _ _ _ _ (mul_absLe h32 round_32767 (clamp_absLe h1) hM)
        (mul_absLe h32 round_32767 (clamp_absLe h2) hM)
        (mul_absLe h32 round_32767 (clamp_absLe h1') hM)
        (mul_absLe h32 round_32767 (clamp_absLe h2') hM)

/-- The amended C20 at `maxOutput = 127`: `rotate(1/2)` sends `63` and `-63`, and
whatever commands `rotate(-1/2)` sends are their negations. -/
theorem negated_inputs_negate_defined_commands_witness :
    SkidSteerModel.rotate (Double.fin 127) (Double.fin (1 / 2)) World.initial
        = some (World.initial.record [(Side.left, MotorCall.moveVelocity 63),
            (Side.right, MotorCall.moveVelocity (-63))])
    ∧ ∀ l' r', SkidSteerModel.rotate (Double.fin 127) (Double.fin (1 / 2)).neg World.initial
          = some (World.initial.record [(Side.left, MotorCall.moveVelocity l'),
              (Side.right, MotorCall.moveVelocity r')]) →
        l' = -63 ∧ r' = - -63 := by
  have hcl : std.clamp (Double.fin (1 / 2)) (Double.fin (-1)) (Double.fin 1)
      = Double.fin (1 / 2) := clamp_fin_of_abs_le (by norm_num [abs_le])
  have hrot : SkidSteerModel.rotate (Double.fin 127) (Double.fin (1 / 2)) World.initial
      = some (World.initial.record [(Side.left, MotorCall.moveVelocity 63),
          (Side.right, MotorCall.moveVelocity (-63))]) := by
    rw [rotate_eq_sendPair, hcl, neg_one_mul_eq_neg (isDouble_fin round_half), mul_neg_left,
      half_mul_127]
    obtain ⟨h1, h2⟩ := static_cast_neg_defined (p := 127 / 2) (by norm_num [abs_lt])
    rw [h1, h2, truncToZero_127_half, sendPair_some]
  exact ⟨hrot, fun l' r' h =>
    (negated_inputs_negate_defined_commands (Double.fin 127) World.initial).2.1
      (Double.fin (1 / 2)) 63 (-63) l' r' hrot h⟩

/-- C20 counterexample: with `maxOutput = 127` and threshold `0`,
`arcade(0.0, 1/2, 0)` sends `63` and `-63`.  The negated inputs are `-0.0` and
`-1/2`: `arcade(-0.0, -1/2, 0)` follows the `ySpeed >= 0` branch too, but
`maxInput` takes the sign bit of `-0.0`, and the commands are `-63` and `-63`:
the right command is not negated. -/
theorem arcade_zero_ySpeed_not_odd :
    (Double.fin 0).neg = Double.negZero
    ∧ (Double.fin (1 / 2)).neg = Double.fin (-(1 / 2))
    ∧ SkidSteerModel.arcade (Double.fin 127) (Double.fin 0) (Double.fin (1 / 2))
          (Double.fin 0) World.initial
        = some (World.initial.record [(Side.left, MotorCall.moveVoltage 63),
            (Side.right, MotorCall.moveVoltage (-63))])
    ∧ SkidSteerModel.arcade (Double.fin 127) (Double.fin 0).neg (Double.fin (1 / 2)).neg
          (Double.fin 0) World.initial
        = some (World.initial.record [(Side.left, MotorCall.moveVoltage (-63)),
            (Side.right, MotorCall.moveVoltage (-63))])
    ∧ (-63 : Int) ≠ -(-63) := by
  have hn0 : (Double.fin 0).neg = Double.negZero := by simp [Double.neg]
  have hnh : (Double.fin (1 / 2)).neg = Double.fin (-(1 / 2)) := neg_fin (by norm_num)
  have hdh : Spec.deadzone (Double.fin (1 / 2)) (Double.fin 0) = Double.fin (1 / 2) := by
    rw [deadzone_of_not_lt, clamp_fin_of_abs_le (by norm_num [abs_le])]
    rw [clamp_fin_of_abs_le (by norm_num [abs_le])]
    norm_num [std.abs, lt_fin]
  have hdz : SkidSteerModel.deadband Double.negZero (Double.fin 0) = Double.negZero := by
    norm_num [SkidSteerModel.deadband, std.clamp, std.abs, Double.lt, Double.toRat]
  have hdn : SkidSteerModel.deadband (Double.fin (-(1 / 2))) (Double.fin 0)
      = Double.fin (-(1 / 2)) := by
    rw [deadband_eq_deadzone, deadzone_of_not_lt,
      clamp_fin_of_abs_le (by norm_num [abs_le])]
    rw [clamp_fin_of_abs_le (by norm_num [abs_le])]
    norm_num [std.abs, lt_fin]
  have hcs : std.copysign
      (std.max (std.abs Double.negZero) (std.abs (Double.fin (-(1 / 2))))) Double.negZero
      = Double.fin (-(1 / 2)) := by
    norm_num [std.copysign, std.max, std.abs, Double.lt, Double.toRat, Double.signBit,
      Double.neg]
  have hadd : Double.negZero.add (Double.fin (-(1 / 2))) = Double.fin (-(1 / 2)) := by
    simp only [Double.add, Double.isNaN, Double.isInf, Double.isZero, Double.toRat]
    norm_num
    exact round_neg_half
  have hout : SkidSteerModel.arcadeOutputs Double.negZero (Double.fin (-(1 / 2)))
      (Double.fin 0) = (Double.fin (-(1 / 2)), Double.fin (-(1 / 2))) := by
    simp only [SkidSteerModel.arcadeOutputs, hdz, hdn, hcs, hadd]
    norm_num [Double.ge, Double.lt, Double.isNaN, Double.toRat]
  have hcl : std.clamp (Double.fin (-(1 / 2))) (Double.fin (-1)) (Double.fin 1)
      = Double.fin (-(1 / 2)) := clamp_fin_of_abs_le (by norm_num [abs_le])
  have hmul : (Double.fin (-(1 / 2))).mul (Double.fin 127) = Double.fin (-(127 / 2)) := by
    rw [mul_fin_fin (by norm_num) (by norm_num)]
    have e : (-(1 / 2) * 127 : ℚ) = -(127 / 2) := by norm_num
    rw [e]
    exact round_neg_of_round (by norm_num) round_127_half
  have hcast : static_cast_int16 (Double.fin (-(127 / 2))) = some (-63) :=
    static_cast_int16_ceil (by norm_num) (by norm_num) (by norm_num) (by norm_num)
  refine ⟨hn0, hnh, ?_, ?_, by decide⟩
  · rw [arcade_of_zero_ySpeed (Double.fin 127) (Double.fin 0) World.initial
      (deadband_zero_eq _) (isDouble_fin round_half), hdh, half_mul_127]
    obtain ⟨h1, h2⟩ := static_cast_neg_defined (p := 127 / 2) (by norm_num [abs_lt])
    rw [h1, h2, truncToZero_127_half, sendPair_some]
  · rw [hn0, hnh, arcade_eq_sendPair, hout]
    simp only []
    rw [hcl, hmul, hcast, sendPair_some]

end binary64

end okapi

namespace okapi

open SkidSteerModel

/-- Counterexample to C6 as stated: with `maxOutput = 32768`, `rotate(1)` sends
`-32768` to the right motor (the conversion of `-32768.0`, which is in range)
and `-32768` to the left motor too (the conversion of `32768.0` overflows), so
the right command is not the negation of the left one; and whatever an
overflowing conversion yields, `-32768` is the negation of no 16-bit value.
In the binary64 embedding the same input converts `32768.0` for the left
motor, which is undefined, and `-32768.0` for the right motor, which gives
`-32768`. -/
theorem rotate_not_negated_at_32768 :
    rotate 32768 1 World.initial
      = World.initial.record
          [(Side.left, MotorCall.moveVelocity (-32768)),
           (Side.right, MotorCall.moveVelocity (-32768))]
    ∧ (-32768 : Int) ≠ -(-32768)
    ∧ static_cast_int16 (-1 * std.clamp 1 (-1) 1 * 32768) = -32768
    ∧ (¬ ∃ l : Int, -32768 ≤ l ∧ l ≤ 32767 ∧ (-32768 : Int) = -l)
    ∧ (binary64.std.clamp (binary64.Double.fin 1) (binary64.Double.fin (-1))
          (binary64.Double.fin 1)).mul (binary64.Double.fin 32768)
        = binary64.Double.fin 32768
    ∧ ((binary64.Double.fin (-1)).mul
          (binary64.std.clamp (binary64.Double.fin 1) (binary64.Double.fin (-1))
            (binary64.Double.fin 1))).mul (binary64.Double.fin 32768)
        = binary64.Double.fin (-32768)
    ∧ binary64.static_cast_int16 (binary64.Double.fin 32768) = none
    ∧ binary64.static_cast_int16 (binary64.Double.fin (-32768)) = some (-32768)
    ∧ binary64.SkidSteerModel.rotate (binary64.Double.fin 32768) (binary64.Double.fin 1)
        World.initial = none := by
  have hc : std.clamp 1 (-1) 1 = 1 := by norm_num [std.clamp]
  have h1 : static_cast_int16 (32768 : ℚ) = -32768 := by
    have := static_cast_int16_wrap 32768
    norm_num [wrapInt16] at this
    exact this
  have h2 : static_cast_int16 (-32768 : ℚ) = -32768 := by
    have := static_cast_int16_wrap (-32768)
    norm_num [wrapInt16] at this
    exact this
  have e1 : std.clamp 1 (-1) 1 * 32768 = 32768 := by rw [hc]; norm_num
  have e2 : -1 * std.clamp 1 (-1) 1 * 32768 = -32768 := by rw [hc]; norm_num
  have hcl : binary64.std.clamp (binary64.Double.fin 1) (binary64.Double.fin (-1))
      (binary64.Double.fin 1) = binary64.Double.fin 1 :=
    binary64.clamp_fin_of_abs_le (by norm_num)
  have hr : binary64.round 32768 = binary64.Double.fin 32768 :=
    binary64.round_eq_self (E := 15) (m := 2 ^ 52) (by norm_num) (by norm_num) (by norm_num)
      (by norm_num) (by norm_num) (by norm_num)
  have hl : (binary64.Double.fin 1).mul (binary64.Double.fin 32768)
      = binary64.Double.fin 32768 := by
    rw [binary64.mul_fin_fin (by norm_num) (by norm_num), one_mul, hr]
  have hright : ((binary64.Double.fin (-1)).mul (binary64.Double.fin 1)).mul
      (binary64.Double.fin 32768) = binary64.Double.fin (-32768) := by
    rw [binary64.neg_one_mul_eq_neg (binary64.isDouble_fin binary64.round_one),
      binary64.mul_neg_left, hl, binary64.neg_fin (by norm_num)]
  have hfit : ¬ fitsInt16 32768 := by norm_num [fitsInt16]
  have hcr : binary64.static_cast_int16 (binary64.Double.fin (-32768)) = some (-32768) := by
    have := binary64.static_cast_int16_int (n := -32768) (by norm_num) (by norm_num)
    simpa using this
  refine ⟨?_, by decide, by rw [e2, h2], ?_, by rw [hcl, hl], by rw [hcl, hright],
    binary64.static_cast_int16_fin_none hfit, hcr, ?_⟩
  · simp only [rotate, e1, e2, h1, h2]
    exact motor_motor _ _ _ _ _
  · rintro ⟨l, h1, h2, h3⟩
    omega
  · rw [binary64.rotate_eq_sendPair, hcl, hl, binary64.static_cast_int16_fin_none hfit,
      binary64.sendPair_none_left]

end okapi
